import Mathlib

/-!
# Event selection: bunch-crossing classification and event-to-BC association

A shallow embedding of `Common/TableProducer/eventSelection.cxx`
(`BcSelectionTask`, `EventSelectionTask`) and the properties of it that the
specification states.

Conventions of the embedding.
* Unsigned 64-bit columns (`globalBC`, trigger masks) are natural numbers; the
  conversion to `int64_t` is `toInt64`, and unsigned additions are reduced
  modulo `2 ^ 64`.  Signed `int64_t` arithmetic is done in `Int`: signed overflow
  is undefined in C++, the model covers the executions without it.
* `float`/`double` values are rationals and their comparisons are exact.  In
  `BcSelectionTask` the result of an arithmetic operation on them is rounded
  to the type that holds it (`roundFloat`, `roundDouble`); the arithmetic of
  `EventSelectionTask` (the sums of track times, the window estimate, the
  tracklet cuts) is exact.  Infinities and NaN are not modelled.
* A `std::map` is the list of its entries in increasing key order; an iterator
  is a position in that list, `end()` being the length of the list.
  Dereferencing `end()` and reading a table row that does not exist are
  undefined in the source: the model returns `none` there.
* A table is the list of its rows and `globalIndex()` of a row is its position.
* Constants whose headers are not part of the sources at hand (bit positions
  of the selection bits, alias numbers, LHC constants, ROOT rounding helpers)
  are fields of `Env` and of `Flags`; the enumerators of
  `evsel::EventSelectionFlags` are the constructors of `Flag`, with values that
  `Flags.WF` assumes distinct and below `kNsel`.
* An out-of-range array access is undefined in the source: the model returns
  `none` there.
-/

namespace EvSel

/-! ## Bit helpers -/

/-- ROOT's `BIT(n)`, that is `1ULL << n`, as a 64-bit word. -/
def BIT (n : Nat) : Nat := (1 <<< n) % 2 ^ 64

/-- ROOT's `TESTBIT(x, n)`: whether bit `n` of `x` is set. -/
def TESTBIT (x n : Nat) : Bool := (x &&& BIT n) != 0

/-- Conversion of a `uint64_t` value to `int64_t` (two's complement). -/
def toInt64 (x : Nat) : Int :=
  if x % 2 ^ 64 < 2 ^ 63 then ((x % 2 ^ 64 : Nat) : Int) else ((x % 2 ^ 64 : Nat) : Int) - 2 ^ 64

/-! ## Ordered maps from global BC to BC index -/

/-- A `std::map` from global BC to BC index: its entries in increasing key order. -/
abbrev BcMap := List (Int × Int)

namespace BcMap

/-- The map invariant: keys strictly increase along the list. -/
def Sorted (m : BcMap) : Prop := m.Pairwise (fun a b => a.1 < b.1)

/-- The assignment `m[k] = v`: a new entry at its place in key order, or the
value of the existing entry replaced. -/
def assign : BcMap → Int → Int → BcMap
  | [], k, v => [(k, v)]
  | (k', v') :: rest, k, v =>
    if k < k' then (k, v) :: (k', v') :: rest
    else if k = k' then (k, v) :: rest
    else (k', v') :: assign rest k v

/-- Search of the entry stored under key `k`. -/
def find : BcMap → Int → Option Int
  | [], _ => none
  | (k', v') :: rest, k => if k = k' then some v' else find rest k

/-- The read access `m[k]`: the stored value, and for a key that is not in the
map a value-initialised entry `0` is inserted and returned. -/
def subscript (m : BcMap) (k : Int) : Int × BcMap :=
  match m.find k with
  | some v => (v, m)
  | none => (0, m.assign k 0)

/-- The iterator `m.lower_bound(k)`: the position of the first entry whose key
is not less than `k`, the length of the list (`end()`) when there is none. -/
def lower_bound : BcMap → Int → Nat
  | [], _ => 0
  | (k', _) :: rest, k => if k ≤ k' then 0 else lower_bound rest k + 1

/-- Every key of the map shifted by `d`, the values unchanged. -/
def shiftKeys (m : BcMap) (d : Int) : BcMap := m.map (fun e => (e.1 + d, e.2))

end BcMap

/-- `EventSelectionTask::findClosest`: the index stored for the key closest to
`globalBC` among the first key not less than it and the key before that one.
`none` stands for the dereference of `end()`. -/
def findClosest (globalBC : Int) (bcs : BcMap) : Option Int :=
  let it := bcs.lower_bound globalBC
  match bcs[it]? with
  | none => none
  | some (bc1, index1) =>
    let it2 := if it != 0 then it - 1 else it
    match bcs[it2]? with
    | none => none
    | some (bc2, index2) =>
      let dbc1 := |bc1 - globalBC|
      let dbc2 := |bc2 - globalBC|
      some (if dbc1 ≤ dbc2 then index1 else index2)

/-! ## Constants and services the tasks rely on -/

/-- The calibration object `TriggerAliases`: for each alias number the mask
of the trigger classes that fire it. -/
structure TriggerAliases where
  /-- The table `GetAliasToTriggerMaskMap()`: alias number and trigger mask. -/
  aliasToTriggerMask : List (Nat × Nat) := []
  /-- The table `GetAliasToTriggerMaskNext50Map()`. -/
  aliasToTriggerMaskNext50 : List (Nat × Nat) := []

/-- The constants of the headers the tasks include and the services they call. -/
structure Env where
  /-- Alias number `kALL` of `TriggerAliases.h`. -/
  kALL : Nat
  /-- Selection bit `kIsBBT0A` of `EventSelectionParams.h`. -/
  kIsBBT0A : Nat
  /-- Selection bit `kIsBBT0C`. -/
  kIsBBT0C : Nat
  /-- Selection bit `kIsTriggerTVX`. -/
  kIsTriggerTVX : Nat
  /-- The constant `o2::constants::lhc::LHCMaxBunches`. -/
  LHCMaxBunches : Int
  /-- The constant `o2::constants::lhc::LHCBunchSpacingNS`. -/
  bcNS : ℚ
  /-- The pattern of colliding bunches `bcPatternB` held by the task. -/
  bcPatternB : Int → Bool
  /-- ROOT's `TMath::Nint`. -/
  Nint : ℚ → Int
  /-- ROOT's `TMath::FloorNint`. -/
  FloorNint : ℚ → Int
  /-- The CCDB object `EventSelection/TriggerAliases` valid at a timestamp. -/
  aliases : Nat → TriggerAliases

/-! ## Tables -/

/-- A row of `aod::Zdcs`. -/
structure Zdc where
  globalIndex : Int := 0
  timeZNA : ℚ := 0
  timeZNC : ℚ := 0

/-- A row of `aod::FV0As` (and of `aod::FV0Cs`). -/
structure FV0 where
  globalIndex : Int := 0
  time : ℚ := 0
  amplitude : List ℚ := []
  channel : List Nat := []

/-- A row of `aod::FT0s`. -/
structure FT0 where
  globalIndex : Int := 0
  timeA : ℚ := 0
  timeC : ℚ := 0
  triggerMask : Nat := 0

/-- A row of `aod::FDDs`. -/
structure FDD where
  globalIndex : Int := 0
  timeA : ℚ := 0
  timeC : ℚ := 0

/-- A row of `BCsWithRun2InfosTimestampsAndMatches` or of
`BCsWithRun3Matchings` (which has no Run 2 columns and no FV0C), with the
detector rows it refers to; `none` is `has_zdc() == false` and so on. -/
structure Bc where
  globalBC : Nat := 0
  runNumber : Int := 0
  timestamp : Nat := 0
  triggerMask : Nat := 0
  triggerMaskNext50 : Nat := 0
  eventCuts : Nat := 0
  spdClustersL0 : Nat := 0
  spdClustersL1 : Nat := 0
  spdFiredChipsL0 : Nat := 0
  spdFiredChipsL1 : Nat := 0
  spdFiredFastOrL0 : Nat := 0
  spdFiredFastOrL1 : Nat := 0
  v0TriggerChargeA : Nat := 0
  v0TriggerChargeC : Nat := 0
  zdc : Option Zdc := none
  fv0a : Option FV0 := none
  fv0c : Option FV0 := none
  ft0 : Option FT0 := none
  fdd : Option FDD := none

/-- A row of `BCsWithBcSels`: a BC with the columns of its `bcsel` record. -/
structure BcWithSel where
  globalBC : Nat := 0
  runNumber : Int := 0
  timestamp : Nat := 0
  alias_raw : Nat := 0
  selection_raw : Nat := 0
  bbV0A : Bool := false
  bbV0C : Bool := false
  bgV0A : Bool := false
  bgV0C : Bool := false
  bbFDA : Bool := false
  bbFDC : Bool := false
  bgFDA : Bool := false
  bgFDC : Bool := false
  multRingV0A : List ℚ := []
  multRingV0C : List ℚ := []
  spdClusters : Nat := 0
  foundFT0Id : Int := -1
  foundFV0Id : Int := -1
  foundFDDId : Int := -1
  foundZDCId : Int := -1

/-- The accessor `bc.selection_bit(i)`. -/
def BcWithSel.selection_bit (bc : BcWithSel) (i : Nat) : Bool := TESTBIT bc.selection_raw i

/-- A row of `FullTracksIU` (or of `aod::Tracks`, which has the track type). -/
structure Track where
  isPVContributor : Bool := false
  hasITS : Bool := false
  hasTPC : Bool := false
  hasTOF : Bool := false
  hasTRD : Bool := false
  trackTime : ℚ := 0
  trackType : Nat := 0

/-- A row of `aod::Collisions` with the tracks grouped to it
(`tracks.sliceBy(perCollision, col.globalIndex())`). -/
structure Collision where
  /-- The row of the BC table the collision points to (`col.bc_as`). -/
  bcId : Nat := 0
  collisionTimeRes : ℚ := 0
  numContrib : Nat := 0
  tracks : List Track := []

/-- A row of the output table `aod::EvSels`. -/
structure EvSelRow where
  alias_raw : Nat
  selection : Nat
  bbV0A : Bool
  bbV0C : Bool
  bgV0A : Bool
  bgV0C : Bool
  bbFDA : Bool
  bbFDC : Bool
  bgFDA : Bool
  bgFDC : Bool
  multRingV0A : List ℚ
  multRingV0C : List ℚ
  spdClusters : Nat
  nTkl : Int
  sel7 : Bool
  sel8 : Bool
  foundBC : Int
  foundFT0 : Int
  foundFV0 : Int
  foundFDD : Int
  foundZDC : Int
deriving DecidableEq

/-! ## `EventSelectionTask::processRun3` -/

/-- The two maps from global BC to BC index filled at the start of
`processRun3`: `(mapGlobalBcWithTVX, mapGlobalBcWithTOR)`.  The rows come with
their `globalIndex()`. -/
def fillMaps (env : Env) (run : Int) : List (Nat × BcWithSel) → BcMap × BcMap → BcMap × BcMap
  | [], maps => maps
  | (globalIndex, bc) :: rest, (mapTVX, mapTOR) =>
    let globalBC := toInt64 bc.globalBC
    -- skip non-colliding bcs for data and anchored runs
    if decide (run ≥ 500000) && env.bcPatternB (Int.tmod globalBC env.LHCMaxBunches) == false then
      fillMaps env run rest (mapTVX, mapTOR)
    else
      let mapTOR2 :=
        if bc.selection_bit env.kIsBBT0A || bc.selection_bit env.kIsBBT0C then
          mapTOR.assign globalBC globalIndex
        else mapTOR
      let mapTVX2 :=
        if bc.selection_bit env.kIsTriggerTVX then mapTVX.assign globalBC globalIndex
        else mapTVX
      fillMaps env run rest (mapTVX2, mapTOR2)

/-- The maps of a batch of BCs. -/
def buildMaps (env : Env) (run : Int) (bcs : List BcWithSel) : BcMap × BcMap :=
  fillMaps env run bcs.enum ([], [])

/-- The counters of the loop over the tracks of a collision. -/
structure TrackCounts where
  nITStracks : Int := 0
  nTPCtracks : Int := 0
  nTOFtracks : Int := 0
  nTRDtracks : Int := 0
  timeFromTOFtracks : ℚ := 0
  timeFromTRDtracks : ℚ := 0

/-- A `bool` added to an `int`. -/
def boolToInt (b : Bool) : Int := if b then 1 else 0

/-- The body of the loop over the tracks: only primary-vertex contributors count. -/
def countTrack (c : TrackCounts) (track : Track) : TrackCounts :=
  if !track.isPVContributor then c
  else
    { nITStracks := c.nITStracks + boolToInt track.hasITS
      nTPCtracks := c.nTPCtracks + boolToInt track.hasTPC
      nTOFtracks := c.nTOFtracks + boolToInt track.hasTOF
      nTRDtracks := c.nTRDtracks + boolToInt (track.hasTRD && !track.hasTOF)
      timeFromTOFtracks :=
        if track.hasTOF then c.timeFromTOFtracks + track.trackTime else c.timeFromTOFtracks
      timeFromTRDtracks :=
        if track.hasTOF then c.timeFromTRDtracks
        else if track.hasTRD then c.timeFromTRDtracks + track.trackTime
        else c.timeFromTRDtracks }

/-- The loop over the tracks grouped to a collision. -/
def countTracks (tracks : List Track) : TrackCounts := tracks.foldl countTrack {}

/-- The pair `(meanBC, deltaBC)` of a collision whose BC has global BC
`globalBC`: the estimate from the collision time resolution, refined with the
TRD, TOF or TPC tracks. -/
def searchWindow (env : Env) (globalBC : Int) (col : Collision) : Int × Int :=
  let meanBC := globalBC
  let deltaBC : Int := ⌈col.collisionTimeRes / env.bcNS * 4⌉
  let c := countTracks col.tracks
  if c.nTRDtracks > 0 then
    (meanBC + env.Nint (c.timeFromTRDtracks / c.nTRDtracks / env.bcNS), 0)
  else if c.nTOFtracks > 0 then
    (meanBC + env.FloorNint (c.timeFromTOFtracks / c.nTOFtracks / env.bcNS), 4)
  else if c.nTPCtracks > 0 then
    (meanBC, deltaBC + 30)
  else
    (meanBC, deltaBC)

/-- The test `bc >= minBC && bc <= maxBC` applied to the closest TVX BC and to
the closest TOR BC. -/
def inSearchRegion (minBC maxBC bc : Int) : Bool := decide (bc ≥ minBC) && decide (bc ≤ maxBC)

/-- The position of the cursor `bc` after the search of the closest TVX or TOR
BC; `cursor` is the row of the BC the collision points to. -/
def matchBC (bcs : List BcWithSel) (mapGlobalBcWithTVX mapGlobalBcWithTOR : BcMap)
    (cursor : Nat) (meanBC deltaBC : Int) : Option Nat :=
  let minBC := meanBC - deltaBC
  let maxBC := meanBC + deltaBC
  match findClosest meanBC mapGlobalBcWithTVX with
  | none => none
  | some indexClosestTVX =>
    match bcs[indexClosestTVX.toNat]? with
    | none => none
    | some tvx =>
      if inSearchRegion minBC maxBC (toInt64 tvx.globalBC) then
        some indexClosestTVX.toNat
      else
        match findClosest meanBC mapGlobalBcWithTOR with
        | none => none
        | some indexClosestTOR =>
          match bcs[indexClosestTOR.toNat]? with
          | none => none
          | some tor =>
            if inSearchRegion minBC maxBC (toInt64 tor.globalBC) then
              some indexClosestTOR.toNat
            else
              some cursor

/-- The `evsel` record filled from the BC under the cursor, whose
`globalIndex()` is `globalIndex`. -/
def fillEvSel (env : Env) (globalIndex : Nat) (bc : BcWithSel) : EvSelRow :=
  { alias_raw := bc.alias_raw
    selection := bc.selection_raw
    bbV0A := bc.bbV0A
    bbV0C := bc.bbV0C
    bgV0A := bc.bgV0A
    bgV0C := bc.bgV0C
    bbFDA := bc.bbFDA
    bbFDC := bc.bbFDC
    bgFDA := bc.bgFDA
    bgFDC := bc.bgFDC
    multRingV0A := (List.range 5).map (fun i => bc.multRingV0A.getD i 0)
    multRingV0C := [0, 0, 0, 0]
    spdClusters := 0
    nTkl := 0
    sel7 := false
    sel8 := bc.selection_bit env.kIsTriggerTVX
    foundBC := globalIndex
    foundFT0 := bc.foundFT0Id
    foundFV0 := bc.foundFV0Id
    foundFDD := bc.foundFDDId
    foundZDC := bc.foundZDCId }

/-- The row of the BC table the event ends up attached to. -/
def attachedBC (env : Env) (bcs : List BcWithSel) (mapTVX mapTOR : BcMap)
    (col : Collision) : Option Nat :=
  match bcs[col.bcId]? with
  | none => none
  | some bc =>
    let w := searchWindow env (toInt64 bc.globalBC) col
    matchBC bcs mapTVX mapTOR col.bcId w.1 w.2

/-- The body of the loop over the collisions of `processRun3`: the record
emitted for one collision. -/
def processRun3Col (env : Env) (bcs : List BcWithSel) (mapTVX mapTOR : BcMap)
    (col : Collision) : Option EvSelRow :=
  match attachedBC env bcs mapTVX mapTOR col with
  | none => none
  | some cursor =>
    match bcs[cursor]? with
    | none => none
    | some bc => some (fillEvSel env cursor bc)

/-- The loop over the collisions of `processRun3`: a record for each, in order. -/
def colLoop (env : Env) (bcs : List BcWithSel) (mapTVX mapTOR : BcMap) :
    List Collision → Option (List EvSelRow)
  | [] => some []
  | col :: rest =>
    match processRun3Col env bcs mapTVX mapTOR col with
    | none => none
    | some r =>
      match colLoop env bcs mapTVX mapTOR rest with
      | none => none
      | some rs => some (r :: rs)

/-- `EventSelectionTask::processRun3`: the `evsel` records of the collisions,
in order.  The run number is read from the first BC. -/
def processRun3 (env : Env) (cols : List Collision) (bcs : List BcWithSel) :
    Option (List EvSelRow) :=
  match bcs with
  | [] => none
  | first :: _ =>
    let run := first.runNumber
    let maps := buildMaps env run bcs
    colLoop env bcs maps.1 maps.2 cols

/-! ## `BcSelectionTask`: fired aliases -/

/-- The loop over an alias table: `if (mask & al.second) alias |= BIT(al.first)`
on the 32-bit word `alias`. -/
def fillAliases (mask : Nat) (table : List (Nat × Nat)) (alias0 : Nat) : Nat :=
  table.foldl (fun a al => if mask &&& al.2 != 0 then (a ||| BIT al.1) % 2 ^ 32 else a) alias0

/-- The alias word `BcSelectionTask::processRun2` emits for a BC. -/
def aliasRun2 (env : Env) (bc : Bc) : Nat :=
  let aliases := env.aliases bc.timestamp
  let a0 := fillAliases bc.triggerMask aliases.aliasToTriggerMask 0
  let a1 := fillAliases bc.triggerMaskNext50 aliases.aliasToTriggerMaskNext50 a0
  (a1 ||| BIT env.kALL) % 2 ^ 32

/-- The alias words `BcSelectionTask::processRun2` emits for a batch, in order. -/
def processRun2Aliases (env : Env) (bcs : List Bc) : List Nat := bcs.map (aliasRun2 env)

/-- The shift derived from the run number when `triggerBcShift` is left at 999. -/
def autoTriggerBcShift (run : Int) : Int :=
  if run ≤ 526766 ∨ (run ≥ 526886 ∧ run ≤ 527237) ∨ (run ≥ 527259 ∧ run ≤ 527518)
      ∨ run = 527523 ∨ run = 527734 then 0 else 294

/-- The local `triggerBcShift` of `BcSelectionTask::processRun3` for the
configured value `confTriggerBcShift` and the run number of the first BC. -/
def triggerBcShift (confTriggerBcShift : Int) (run : Int) : Int :=
  if confTriggerBcShift = 999 then autoTriggerBcShift run else confTriggerBcShift

/-- The map `mapGlobalBCtoBcId` filled from the rows, which come with their `globalIndex()`. -/
def fillMapGlobalBCtoBcId : List (Nat × Bc) → BcMap → BcMap
  | [], m => m
  | (globalIndex, bc) :: rest, m => fillMapGlobalBCtoBcId rest (m.assign bc.globalBC globalIndex)

/-- The key `bc.globalBC() + triggerBcShift`, an unsigned 64-bit sum. -/
def triggerKey (bc : Bc) (shift : Int) : Int := ((bc.globalBC : Int) + shift) % 2 ^ 64

/-- The alias word of one BC in `BcSelectionTask::processRun3`, with the map
as the read access `mapGlobalBCtoBcId[...]` leaves it. -/
def aliasRun3 (env : Env) (bcs : List Bc) (shift : Int) (m : BcMap) (bc : Bc) :
    Option (Nat × BcMap) :=
  let aliases := env.aliases bc.timestamp
  let r := m.subscript (triggerKey bc shift)
  let triggerBcId := r.1
  if triggerBcId != 0 then
    match bcs[triggerBcId.toNat]? with
    | none => none
    | some triggerBc =>
      let a := fillAliases triggerBc.triggerMask aliases.aliasToTriggerMask 0
      some ((a ||| BIT env.kALL) % 2 ^ 32, r.2)
  else
    some ((0 ||| BIT env.kALL) % 2 ^ 32, r.2)

/-- The loop over the BCs of `BcSelectionTask::processRun3`, as far as the
alias word goes: `todo` are the BCs still to visit. -/
def aliasLoop (env : Env) (bcs : List Bc) (shift : Int) : List Bc → BcMap → Option (List Nat)
  | [], _ => some []
  | bc :: todo, m =>
    match aliasRun3 env bcs shift m bc with
    | none => none
    | some (a, m2) =>
      match aliasLoop env bcs shift todo m2 with
      | none => none
      | some rest => some (a :: rest)

/-- The alias words `BcSelectionTask::processRun3` emits for a batch, in
order.  With the option at 999 the run number is read from the first BC. -/
def processRun3Aliases (env : Env) (confTriggerBcShift : Int) (bcs : List Bc) :
    Option (List Nat) :=
  let mapGlobalBCtoBcId := fillMapGlobalBCtoBcId bcs.enum []
  match bcs with
  | [] => if confTriggerBcShift = 999 then none else some []
  | first :: _ =>
    aliasLoop env bcs (triggerBcShift confTriggerBcShift first.runNumber) bcs mapGlobalBCtoBcId

/-! ## A small batch for the examples -/

/-- ROOT's `TMath::Nint` on exact values: the nearest integer, a value half
way between two integers going to the even one. -/
def TMathNint (x : ℚ) : Int :=
  if x ≥ 0 then
    let i : Int := ⌊x + 1 / 2⌋
    if i % 2 = 1 ∧ x + 1 / 2 = i then i - 1 else i
  else
    let i : Int := ⌈x - 1 / 2⌉
    if i % 2 = 1 ∧ x - 1 / 2 = i then i + 1 else i

/-- ROOT's `TMath::FloorNint`: `Nint` of the floor. -/
def TMathFloorNint (x : ℚ) : Int := TMathNint (⌊x⌋ : Int)

/-- An environment for the examples: every bunch is a colliding one and an
alias table with the single alias 0, fired by trigger class 0. -/
def sampleEnv : Env :=
  { kALL := 27
    kIsBBT0A := 8
    kIsBBT0C := 9
    kIsTriggerTVX := 30
    LHCMaxBunches := 3564
    bcNS := 2495 / 100
    bcPatternB := fun _ => true
    Nint := TMathNint
    FloorNint := TMathFloorNint
    aliases := fun _ => { aliasToTriggerMask := [(0, 1)] } }

/-- A BC without FT0 signal at global BC 100 followed by a BC at global BC 200
with the TVX trigger and a beam-beam time in FT0-A. -/
def sampleBcs : List BcWithSel :=
  [ { globalBC := 100, foundFV0Id := 5, foundFDDId := 6, foundZDCId := 7 },
    { globalBC := 200, selection_raw := BIT 30 ||| BIT 8, foundFT0Id := 0 } ]

/-- A collision without tracks that points to the first BC of `sampleBcs`. -/
def sampleCol : Collision := { bcId := 0 }

/-- A collision without tracks that points to the first BC of a batch and has
a negative time resolution, of one bunch spacing. -/
def sampleColNeg : Collision := { bcId := 0, collisionTimeRes := -(2495 / 100) }

/-- A BC at global BC 100 followed by a BC at global BC 104 with the TVX
trigger and a beam-beam time in FT0-A. -/
def sampleBcsEdge : List BcWithSel :=
  [ { globalBC := 100 },
    { globalBC := 104, selection_raw := BIT 30 ||| BIT 8, foundFT0Id := 0 } ]

/-- Two BCs at global BC 100 and 101 that both fired trigger class 0. -/
def sampleTriggerBcs : List Bc :=
  [ { globalBC := 100, triggerMask := 1 }, { globalBC := 101, triggerMask := 1 } ]

/-! ## Invariant of the map from global BC to BC index -/

/-- What holds of `mapGlobalBCtoBcId` all along `BcSelectionTask::processRun3`:
an entry holds 0, or the index of a BC of the batch that has the key of the
entry as global BC. -/
def MapValid (bcs : List Bc) (m : BcMap) : Prop :=
  ∀ e ∈ m, e.2 = 0 ∨ (0 ≤ e.2 ∧ ∃ b, bcs[e.2.toNat]? = some b ∧ (b.globalBC : Int) = e.1)

/-- The other half of the invariant: every BC of the batch is found in the
map under its global BC, with its own index. -/
def MapFull (bcs : List Bc) (m : BcMap) : Prop :=
  ∀ (n : Nat) (b : Bc), bcs[n]? = some b → m.find b.globalBC = some (n : Int)

/-- Global BCs differ from BC to BC within a batch. -/
def DistinctBCs (bcs : List Bc) : Prop := bcs.Pairwise (fun a b => a.globalBC ≠ b.globalBC)

/-! ## Selection flags and calibration parameters -/

/-- The enumerators of `evsel::EventSelectionFlags` the tasks name. -/
inductive Flag where
  | kIsBBV0A | kIsBBV0C | kIsBBFDA | kIsBBFDC
  | kNoBGV0A | kNoBGV0C | kNoBGFDA | kNoBGFDC
  | kIsBBT0A | kIsBBT0C | kIsBBZNA | kIsBBZNC | kIsBBZAC
  | kNoBGZNA | kNoBGZNC
  | kNoV0MOnVsOfPileup | kNoSPDOnVsOfPileup | kNoV0Casymmetry
  | kIsGoodTimeRange | kNoIncompleteDAQ | kNoTPCLaserWarmUp | kNoTPCHVdip
  | kNoPileupFromSPD | kNoV0PFPileup | kNoSPDClsVsTklBG | kNoV0C012vsTklBG
  | kNoInconsistentVtx | kNoPileupInMultBins | kNoPileupMV | kNoPileupTPC
  | kIsTriggerTVX | kIsINT1 | kNoBGT0A | kNoBGT0C
deriving DecidableEq

/-- The numeric constants of the headers that `BcSelectionTask` and
`EventSelectionTask::processRun2` use. -/
structure Flags where
  /-- The value of an enumerator of `evsel::EventSelectionFlags`. -/
  bit : Flag → Nat
  /-- The enumerator `kNsel` that closes `evsel::EventSelectionFlags`. -/
  kNsel : Nat
  /-- The bits of the Run 2 `eventCuts` word, `aod::kTimeRangeCut` and so on. -/
  kTimeRangeCut : Nat
  kIncompleteDAQ : Nat
  kIsTPCLaserWarmUp : Nat
  kIsTPCHVdip : Nat
  kIsPileupFromSPD : Nat
  kIsV0PFPileup : Nat
  kConsistencySPDandTrackVertices : Nat
  kPileupInMultBins : Nat
  kPileUpMV : Nat
  kTPCPileUp : Nat
  /-- The FT0 trigger bit `o2::ft0::Triggers::bitVertex`. -/
  bitVertex : Nat
  /-- The track type `o2::aod::track::TrackTypeEnum::Run2Tracklet`. -/
  Run2Tracklet : Nat

/-- What an enumeration guarantees: the enumerators have different values,
all below `kNsel`, and they are bits of the 64-bit selection word. -/
def Flags.WF (fl : Flags) : Prop :=
  Function.Injective fl.bit ∧ (∀ f, fl.bit f < fl.kNsel) ∧ fl.kNsel ≤ 64

/-- The calibration object `EventSelectionParams`: the thresholds of the
timing windows and of the linear cuts. -/
structure EventSelectionParams where
  fV0ABBlower : ℚ := 0
  fV0ABBupper : ℚ := 0
  fV0ABGlower : ℚ := 0
  fV0ABGupper : ℚ := 0
  fV0CBBlower : ℚ := 0
  fV0CBBupper : ℚ := 0
  fV0CBGlower : ℚ := 0
  fV0CBGupper : ℚ := 0
  fFDABBlower : ℚ := 0
  fFDABBupper : ℚ := 0
  fFDABGlower : ℚ := 0
  fFDABGupper : ℚ := 0
  fFDCBBlower : ℚ := 0
  fFDCBBupper : ℚ := 0
  fFDCBGlower : ℚ := 0
  fFDCBGupper : ℚ := 0
  fT0ABBlower : ℚ := 0
  fT0ABBupper : ℚ := 0
  fT0CBBlower : ℚ := 0
  fT0CBBupper : ℚ := 0
  fT0ABGlower : ℚ := 0
  fT0ABGupper : ℚ := 0
  fT0CBGlower : ℚ := 0
  fT0CBGupper : ℚ := 0
  fZNABBlower : ℚ := 0
  fZNABBupper : ℚ := 0
  fZNCBBlower : ℚ := 0
  fZNCBBupper : ℚ := 0
  fZNABGlower : ℚ := 0
  fZNABGupper : ℚ := 0
  fZNCBGlower : ℚ := 0
  fZNCBGupper : ℚ := 0
  fZNSumMean : ℚ := 0
  fZNSumSigma : ℚ := 0
  fZNDifMean : ℚ := 0
  fZNDifSigma : ℚ := 0
  fV0MOnVsOfA : ℚ := 0
  fV0MOnVsOfB : ℚ := 0
  fSPDOnVsOfA : ℚ := 0
  fSPDOnVsOfB : ℚ := 0
  fV0CasymA : ℚ := 0
  fV0CasymB : ℚ := 0
  fSPDClsVsTklA : ℚ := 0
  fSPDClsVsTklB : ℚ := 0
  fV0C012vsTklA : ℚ := 0
  fV0C012vsTklB : ℚ := 0

/-- A row of the output table `aod::BcSels`. -/
structure BcSelRow where
  alias_raw : Nat
  selection : Nat
  bbV0A : Bool
  bbV0C : Bool
  bgV0A : Bool
  bgV0C : Bool
  bbFDA : Bool
  bbFDC : Bool
  bgFDA : Bool
  bgFDC : Bool
  multRingV0A : List ℚ
  multRingV0C : List ℚ
  spdClusters : Nat
  foundFT0 : Int
  foundFV0 : Int
  foundFDD : Int
  foundZDC : Int
deriving DecidableEq

/-! ## Machine arithmetic on `float` and `double`

The times, amplitudes and calibration constants are `float` values, rationals
here.  A comparison of two of them is exact; a sum, difference, product or
quotient is rounded to the type of the variable or expression that holds it.
Each operation is rounded on its own (no fused multiply-add); infinities and
NaN are not values of the model. -/

/-- Rounding of a rational to the nearest integer, a tie going to the even one. -/
def roundHalfEven (x : ℚ) : Int :=
  let m := ⌊x⌋
  let r := x - m
  if r < 1 / 2 then m
  else if 1 / 2 < r then m + 1
  else if m % 2 = 0 then m else m + 1

/-- Rounding of a positive rational to a binary floating-point format with `p`
bits of precision and least exponent `emin`: to nearest, ties to even, with
the spacing of the binade of the value, and below the least binade with the
spacing of that one (subnormal values). -/
def roundPos (p : Nat) (emin : Int) (a : ℚ) : ℚ :=
  let e := max (Int.log 2 a) emin
  let ulp : ℚ := 2 ^ (e - ((p : Int) - 1))
  (roundHalfEven (a / ulp) : ℚ) * ulp

/-- Rounding of a rational to a binary floating-point format. -/
def roundTo (p : Nat) (emin : Int) (q : ℚ) : ℚ :=
  if q = 0 then 0 else if 0 < q then roundPos p emin q else -roundPos p emin (-q)

/-- The `float` an exact result is rounded to (IEEE 754 binary32). -/
def roundFloat (q : ℚ) : ℚ := roundTo 24 (-126) q

/-- The `double` an exact result is rounded to (IEEE 754 binary64). -/
def roundDouble (q : ℚ) : ℚ := roundTo 53 (-1022) q

/-! ## `BcSelectionTask`: timing windows and the selection word -/

/-- The time a BC takes for a detector: that of the detector row when the BC
has one (`has_zdc()` and so on), the value `-999.f` otherwise. -/
def timeOr {α : Type} (signal : Option α) (time : α → ℚ) : ℚ :=
  match signal with
  | some s => time s
  | none => -999

/-- The `globalIndex()` of the detector row of a BC, `-1` without one. -/
def indexOr {α : Type} (signal : Option α) (globalIndex : α → Int) : Int :=
  match signal with
  | some s => globalIndex s
  | none => -1

/-- The window test `time > lower && time < upper`. -/
def inWindow (time lower upper : ℚ) : Bool := decide (time > lower) && decide (time < upper)

/-- The statement `selection |= cond ? BIT(k) : 0`. -/
def setIf (selection : Nat) (cond : Bool) (k : Nat) : Nat :=
  selection ||| (if cond then BIT k else 0)

/-- The test `eventCuts & 1 << k` of a bit of the Run 2 `eventCuts` word. -/
def cutBit (eventCuts k : Nat) : Bool := (eventCuts &&& (1 <<< k)) != 0

/-- The quadratic form of the vertex-ellipse test,
`pow((znSum - fZNSumMean) / fZNSumSigma, 2) + pow((znDif - fZNDifMean) / fZNDifSigma, 2)`:
the differences and the quotients are `float`, `pow` and the sum of the two
squares are `double`. -/
def znForm (par : EventSelectionParams) (znSum znDif : ℚ) : ℚ :=
  let x := roundFloat (roundFloat (znSum - par.fZNSumMean) / par.fZNSumSigma)
  let y := roundFloat (roundFloat (znDif - par.fZNDifMean) / par.fZNDifSigma)
  roundDouble (roundDouble (x ^ 2) + roundDouble (y ^ 2))

/-- The vertex-ellipse test in the plane of the sum and of the difference of
the two ZN times, `znForm < 1`.  A division by a sigma that is zero gives an
infinity or a NaN, and the comparison of either with 1 is false. -/
def znEllipse (par : EventSelectionParams) (znSum znDif : ℚ) : Bool :=
  if par.fZNSumSigma = 0 ∨ par.fZNDifSigma = 0 then false
  else decide (znForm par znSum znDif < 1)

/-- The ring of a channel, `int ring = channel / 8`, with the Run 3 statement
`if (ring == 5) ring = 4` when `foldOuter` is set. -/
def ringIndex (foldOuter : Bool) (channel : Nat) : Nat :=
  let ring := channel / 8
  if foldOuter && ring == 5 then 4 else ring

/-- The accumulation `m += a` of a list of amplitudes, in order, in `float`. -/
def accumulate (init : ℚ) (amplitude : List ℚ) : ℚ :=
  amplitude.foldl (fun m a => roundFloat (m + a)) init

/-- The loop that adds the amplitude of each channel to the entry of its ring,
`ring = channel / 8`, in `float`; `foldOuter` is the Run 3 statement
`if (ring == 5) ring = 4`.  `none` stands for a read past the end of
`channel()` or a write past the end of the ring array. -/
def ringSums (foldOuter : Bool) : List ℚ → List Nat → List ℚ → Option (List ℚ)
  | [], _, mult => some mult
  | _ :: _, [], _ => none
  | a :: amplitude, ch :: channel, mult =>
    let ring := ringIndex foldOuter ch
    if ring < mult.length then
      ringSums foldOuter amplitude channel (mult.set ring (roundFloat (mult.getD ring 0 + a)))
    else none

/-- The ring array of a detector: zero-initialised, filled when the BC has a signal. -/
def multRing (foldOuter : Bool) (size : Nat) (signal : Option FV0) : Option (List ℚ) :=
  match signal with
  | none => some (List.replicate size 0)
  | some s => ringSums foldOuter s.amplitude s.channel (List.replicate size 0)

/-- The sum `multFV0A` (or `multFV0C`) of the amplitudes, accumulated in
`float` in the same loop. -/
def multTotal (signal : Option FV0) : ℚ :=
  match signal with
  | none => 0
  | some s => accumulate 0 s.amplitude

/-! ## `BcSelectionTask::processRun2` -/

/-- The bound `A + B * of` of an on-line against off-line cut, in `float`. -/
def linearBound (a b offline : ℚ) : ℚ := roundFloat (a + roundFloat (b * offline))

/-- The selection word `BcSelectionTask::processRun2` builds for a BC from the
window flags, the ZN times, the ring multiplicities and the Run 2 columns. -/
def selectionRun2 (fl : Flags) (par : EventSelectionParams) (bc : Bc)
    (bbV0A bbV0C bbFDA bbFDC bgV0A bgV0C bgFDA bgFDC : Bool)
    (multRingV0A multRingV0C : List ℚ) : Nat :=
  let timeZNA := timeOr bc.zdc Zdc.timeZNA
  let timeZNC := timeOr bc.zdc Zdc.timeZNC
  let timeT0A := timeOr bc.ft0 FT0.timeA
  let timeT0C := timeOr bc.ft0 FT0.timeC
  let znSum := roundFloat (timeZNA + timeZNC)
  let znDif := roundFloat (timeZNA - timeZNC)
  -- fill time-based selection criteria
  let s := setIf 0 bbV0A (fl.bit .kIsBBV0A)
  let s := setIf s bbV0C (fl.bit .kIsBBV0C)
  let s := setIf s bbFDA (fl.bit .kIsBBFDA)
  let s := setIf s bbFDC (fl.bit .kIsBBFDC)
  let s := setIf s (!bgV0A) (fl.bit .kNoBGV0A)
  let s := setIf s (!bgV0C) (fl.bit .kNoBGV0C)
  let s := setIf s (!bgFDA) (fl.bit .kNoBGFDA)
  let s := setIf s (!bgFDC) (fl.bit .kNoBGFDC)
  let s := setIf s (inWindow timeT0A par.fT0ABBlower par.fT0ABBupper) (fl.bit .kIsBBT0A)
  let s := setIf s (inWindow timeT0C par.fT0CBBlower par.fT0CBBupper) (fl.bit .kIsBBT0C)
  let s := setIf s (inWindow timeZNA par.fZNABBlower par.fZNABBupper) (fl.bit .kIsBBZNA)
  let s := setIf s (inWindow timeZNC par.fZNCBBlower par.fZNCBBupper) (fl.bit .kIsBBZNC)
  let s := setIf s (!inWindow |timeZNA| par.fZNABGlower par.fZNABGupper) (fl.bit .kNoBGZNA)
  let s := setIf s (!inWindow |timeZNC| par.fZNCBGlower par.fZNCBGupper) (fl.bit .kNoBGZNC)
  let s := setIf s (znEllipse par znSum znDif) (fl.bit .kIsBBZAC)
  -- Calculate pileup and background related selection flags
  let multFV0A := multTotal bc.fv0a
  let multFV0C := multTotal bc.fv0c
  let ofV0M : ℚ := roundFloat (roundFloat (multFV0A + multFV0C) - multRingV0A.getD 0 0)
  -- integer sums converted to `float`: exact below 2 ^ 24
  let onV0M : ℚ := ((bc.v0TriggerChargeA + bc.v0TriggerChargeC : Nat) : ℚ)
  let ofSPD : ℚ := ((bc.spdFiredChipsL0 + bc.spdFiredChipsL1 : Nat) : ℚ)
  let onSPD : ℚ := ((bc.spdFiredFastOrL0 + bc.spdFiredFastOrL1 : Nat) : ℚ)
  let multV0C012 : ℚ :=
    roundFloat (roundFloat (multRingV0C.getD 0 0 + multRingV0C.getD 1 0) + multRingV0C.getD 2 0)
  let s := setIf s (decide (onV0M > linearBound par.fV0MOnVsOfA par.fV0MOnVsOfB ofV0M))
    (fl.bit .kNoV0MOnVsOfPileup)
  let s := setIf s (decide (onSPD > linearBound par.fSPDOnVsOfA par.fSPDOnVsOfB ofSPD))
    (fl.bit .kNoSPDOnVsOfPileup)
  let s := setIf s
    (decide (multRingV0C.getD 3 0 > linearBound par.fV0CasymA par.fV0CasymB multV0C012))
    (fl.bit .kNoV0Casymmetry)
  -- copy remaining selection decisions from eventCuts
  let eventCuts := bc.eventCuts
  let s := setIf s (cutBit eventCuts fl.kTimeRangeCut) (fl.bit .kIsGoodTimeRange)
  let s := setIf s (cutBit eventCuts fl.kIncompleteDAQ) (fl.bit .kNoIncompleteDAQ)
  let s := setIf s (!cutBit eventCuts fl.kIsTPCLaserWarmUp) (fl.bit .kNoTPCLaserWarmUp)
  let s := setIf s (!cutBit eventCuts fl.kIsTPCHVdip) (fl.bit .kNoTPCHVdip)
  let s := setIf s (!cutBit eventCuts fl.kIsPileupFromSPD) (fl.bit .kNoPileupFromSPD)
  let s := setIf s (!cutBit eventCuts fl.kIsV0PFPileup) (fl.bit .kNoV0PFPileup)
  let s := setIf s (cutBit eventCuts fl.kConsistencySPDandTrackVertices)
    (fl.bit .kNoInconsistentVtx)
  let s := setIf s (cutBit eventCuts fl.kPileupInMultBins) (fl.bit .kNoPileupInMultBins)
  let s := setIf s (cutBit eventCuts fl.kPileUpMV) (fl.bit .kNoPileupMV)
  let s := setIf s (cutBit eventCuts fl.kTPCPileUp) (fl.bit .kNoPileupTPC)
  let s := setIf s
    (match bc.ft0 with
      | some ft0 => TESTBIT ft0.triggerMask fl.bitVertex
      | none => false)
    (fl.bit .kIsTriggerTVX)
  let s := setIf s (bbV0A || bbV0C || decide (ofSPD ≠ 0)) (fl.bit .kIsINT1)
  s

/-- The body of the loop of `BcSelectionTask::processRun2`: the `bcsel` record
of a BC with alias word `alias0`, and the run number with which the counter
`hCounterTVX` is filled, if it is. -/
def bcselRun2 (fl : Flags) (ccdb : Nat → EventSelectionParams) (alias0 : Nat) (bc : Bc) :
    Option (BcSelRow × Option Int) :=
  let par := ccdb bc.timestamp
  -- get timing info from ZDC, FV0, FT0 and FDD
  let timeV0A := timeOr bc.fv0a FV0.time
  let timeV0C := timeOr bc.fv0c FV0.time
  let timeFDA := timeOr bc.fdd FDD.timeA
  let timeFDC := timeOr bc.fdd FDD.timeC
  -- applying timing selections
  let bbV0A := inWindow timeV0A par.fV0ABBlower par.fV0ABBupper
  let bbV0C := inWindow timeV0C par.fV0CBBlower par.fV0CBBupper
  let bbFDA := inWindow timeFDA par.fFDABBlower par.fFDABBupper
  let bbFDC := inWindow timeFDC par.fFDCBBlower par.fFDCBBupper
  let bgV0A := inWindow timeV0A par.fV0ABGlower par.fV0ABGupper
  let bgV0C := inWindow timeV0C par.fV0CBGlower par.fV0CBGupper
  let bgFDA := inWindow timeFDA par.fFDABGlower par.fFDABGupper
  let bgFDC := inWindow timeFDC par.fFDCBGlower par.fFDCBGupper
  -- Calculate V0 multiplicity per ring
  match multRing false 5 bc.fv0a with
  | none => none
  | some multRingV0A =>
    match multRing false 4 bc.fv0c with
    | none => none
    | some multRingV0C =>
      let selection := selectionRun2 fl par bc bbV0A bbV0C bbFDA bbFDC bgV0A bgV0C bgFDA bgFDC
        multRingV0A multRingV0C
      some
        ({ alias_raw := alias0
           selection := selection
           bbV0A := bbV0A
           bbV0C := bbV0C
           bgV0A := bgV0A
           bgV0C := bgV0C
           bbFDA := bbFDA
           bbFDC := bbFDC
           bgFDA := bgFDA
           bgFDC := bgFDC
           multRingV0A := multRingV0A
           multRingV0C := multRingV0C
           spdClusters := bc.spdClustersL0 + bc.spdClustersL1
           foundFT0 := indexOr bc.ft0 FT0.globalIndex
           foundFV0 := indexOr bc.fv0a FV0.globalIndex
           foundFDD := indexOr bc.fdd FDD.globalIndex
           foundZDC := indexOr bc.zdc Zdc.globalIndex },
         if TESTBIT selection (fl.bit .kIsTriggerTVX) then some bc.runNumber else none)

/-- The loop of `BcSelectionTask::processRun2` over the BCs still to visit. -/
def bcLoopRun2 (env : Env) (fl : Flags) (ccdb : Nat → EventSelectionParams) :
    List Bc → Option (List (BcSelRow × Option Int))
  | [] => some []
  | bc :: todo =>
    match bcselRun2 fl ccdb (aliasRun2 env bc) bc with
    | none => none
    | some r =>
      match bcLoopRun2 env fl ccdb todo with
      | none => none
      | some rest => some (r :: rest)

/-- `BcSelectionTask::processRun2`: the `bcsel` records of a batch, in order,
each with the fill of `hCounterTVX` it comes with. -/
def BcSelectionTask.processRun2 (env : Env) (fl : Flags) (ccdb : Nat → EventSelectionParams)
    (bcs : List Bc) : Option (List (BcSelRow × Option Int)) :=
  bcLoopRun2 env fl ccdb bcs

/-! ## `BcSelectionTask::processRun3` -/

/-- The times sampled in the preceding BCs for the beam-gas tests. -/
structure BgTimes where
  timeV0ABG : ℚ := -999
  timeT0ABG : ℚ := -999
  timeT0CBG : ℚ := -999
  timeFDABG : ℚ := -999
  timeFDCBG : ℚ := -999

/-- The state of the walk over the preceding BCs: the row the cursor `bc` is
on, the number of steps taken back and the times sampled so far. -/
structure Walk where
  cursor : Nat
  backwardMoveCount : Nat
  bg : BgTimes

/-- The samples taken on the BC the cursor has just been moved to. -/
def sampleBg (globalBC : Nat) (bc : Bc) (bg : BgTimes) : BgTimes :=
  let bg1 : BgTimes :=
    if (bc.globalBC + 1) % 2 ^ 64 = globalBC then
      { bg with
        timeV0ABG := timeOr bc.fv0a FV0.time
        timeT0ABG := timeOr bc.ft0 FT0.timeA
        timeT0CBG := timeOr bc.ft0 FT0.timeC }
    else bg
  if (bc.globalBC + 5) % 2 ^ 64 = globalBC then
    { bg1 with
      timeFDABG := timeOr bc.fdd FDD.timeA
      timeFDCBG := timeOr bc.fdd FDD.timeC }
  else bg1

/-- The loop `while (bc.globalBC() + deltaBC >= globalBC)` with `deltaBC = 6`,
started with the cursor on row `cursor`: it stops at the first row or when the
BC under the cursor is more than 6 bunch crossings before `globalBC`. -/
def walkBack (bcs : List Bc) (globalBC : Nat) : Nat → Nat → BgTimes → Option Walk
  | 0, backwardMoveCount, bg =>
    some { cursor := 0, backwardMoveCount := backwardMoveCount, bg := bg }
  | cursor + 1, backwardMoveCount, bg =>
    match bcs[cursor + 1]? with
    | none => none
    | some bc =>
      if (bc.globalBC + 6) % 2 ^ 64 ≥ globalBC then
        match bcs[cursor]? with
        | none => none
        | some previous =>
          walkBack bcs globalBC cursor (backwardMoveCount + 1) (sampleBg globalBC previous bg)
      else
        some { cursor := cursor + 1, backwardMoveCount := backwardMoveCount, bg := bg }

/-- The selection word `BcSelectionTask::processRun3` builds; `bc` is the BC
under the cursor when the FT0 trigger mask is read. -/
def selectionRun3 (fl : Flags) (par : EventSelectionParams)
    (timeZNA timeZNC timeT0A timeT0C : ℚ)
    (bbV0A bbFDA bbFDC bgV0A bgFDA bgFDC bgT0A bgT0C : Bool) (bc : Bc) : Nat :=
  let znSum := roundFloat (timeZNA + timeZNC)
  let znDif := roundFloat (timeZNA - timeZNC)
  let s := setIf 0 bbV0A (fl.bit .kIsBBV0A)
  let s := setIf s bbFDA (fl.bit .kIsBBFDA)
  let s := setIf s bbFDC (fl.bit .kIsBBFDC)
  let s := setIf s (!bgV0A) (fl.bit .kNoBGV0A)
  let s := setIf s (!bgFDA) (fl.bit .kNoBGFDA)
  let s := setIf s (!bgFDC) (fl.bit .kNoBGFDC)
  let s := setIf s (!bgT0A) (fl.bit .kNoBGT0A)
  let s := setIf s (!bgT0C) (fl.bit .kNoBGT0C)
  let s := setIf s (inWindow timeT0A par.fT0ABBlower par.fT0ABBupper) (fl.bit .kIsBBT0A)
  let s := setIf s (inWindow timeT0C par.fT0CBBlower par.fT0CBBupper) (fl.bit .kIsBBT0C)
  let s := setIf s (inWindow timeZNA par.fZNABBlower par.fZNABBupper) (fl.bit .kIsBBZNA)
  let s := setIf s (inWindow timeZNC par.fZNCBBlower par.fZNCBBupper) (fl.bit .kIsBBZNC)
  let s := setIf s (znEllipse par znSum znDif) (fl.bit .kIsBBZAC)
  let s := setIf s (!inWindow |timeZNA| par.fZNABGlower par.fZNABGupper) (fl.bit .kNoBGZNA)
  let s := setIf s (!inWindow |timeZNC| par.fZNCBGlower par.fZNCBGupper) (fl.bit .kNoBGZNC)
  let s := setIf s
    (match bc.ft0 with
      | some ft0 => decide ((ft0.triggerMask &&& BIT fl.bitVertex) > 0)
      | none => false)
    (fl.bit .kIsTriggerTVX)
  s

/-- The `bcsel` record `BcSelectionTask::processRun3` fills: `start` is the BC
the loop is at, read before the walk over the preceding BCs, `bc` the BC under
the cursor after the walk and the move back. -/
def fillBcSelRun3 (fl : Flags) (par : EventSelectionParams) (alias0 : Nat) (start : Bc)
    (bg : BgTimes) (bc : Bc) : Option (BcSelRow × Option Int) :=
  -- get timing info from ZDC, FV0, FT0 and FDD
  let timeZNA := timeOr start.zdc Zdc.timeZNA
  let timeZNC := timeOr start.zdc Zdc.timeZNC
  let timeV0A := timeOr start.fv0a FV0.time
  let timeT0A := timeOr start.ft0 FT0.timeA
  let timeT0C := timeOr start.ft0 FT0.timeC
  let timeFDA := timeOr start.fdd FDD.timeA
  let timeFDC := timeOr start.fdd FDD.timeC
  -- applying timing selections
  let bbV0A := inWindow timeV0A par.fV0ABBlower par.fV0ABBupper
  let bbFDA := inWindow timeFDA par.fFDABBlower par.fFDABBupper
  let bbFDC := inWindow timeFDC par.fFDCBBlower par.fFDCBBupper
  let bgV0A := inWindow bg.timeV0ABG par.fV0ABGlower par.fV0ABGupper
  let bgFDA := inWindow bg.timeFDABG par.fFDABGlower par.fFDABGupper
  let bgFDC := inWindow bg.timeFDCBG par.fFDCBGlower par.fFDCBGupper
  let bgT0A := inWindow bg.timeT0ABG par.fT0ABGlower par.fT0ABGupper
  let bgT0C := inWindow bg.timeT0CBG par.fT0CBGlower par.fT0CBGupper
  let bbV0C := false
  let bgV0C := false
  let selection := selectionRun3 fl par timeZNA timeZNC timeT0A timeT0C
    bbV0A bbFDA bbFDC bgV0A bgFDA bgFDC bgT0A bgT0C bc
  -- Calculate V0 multiplicity per ring
  match multRing true 5 bc.fv0a with
  | none => none
  | some multRingV0A =>
    some
      ({ alias_raw := alias0
         selection := selection
         bbV0A := bbV0A
         bbV0C := bbV0C
         bgV0A := bgV0A
         bgV0C := bgV0C
         bbFDA := bbFDA
         bbFDC := bbFDC
         bgFDA := bgFDA
         bgFDC := bgFDC
         multRingV0A := multRingV0A
         multRingV0C := List.replicate 4 0
         spdClusters := 0
         foundFT0 := indexOr bc.ft0 FT0.globalIndex
         foundFV0 := indexOr bc.fv0a FV0.globalIndex
         foundFDD := indexOr bc.fdd FDD.globalIndex
         foundZDC := indexOr bc.zdc Zdc.globalIndex },
       if TESTBIT selection (fl.bit .kIsTriggerTVX) then some bc.runNumber else none)

/-- The body of the loop of `BcSelectionTask::processRun3` after the alias
word: `start` is the BC the loop is at and `position` its row.  The cursor
walks back over the preceding BCs, is moved forward by the number of steps
taken (`bc.moveByIndex(backwardMoveCount)`), and the record is filled from the
row it is then on. -/
def bcselRun3 (fl : Flags) (ccdb : Nat → EventSelectionParams) (bcs : List Bc) (alias0 : Nat)
    (position : Nat) (start : Bc) : Option (BcSelRow × Option Int) :=
  let par := ccdb start.timestamp
  let globalBC := start.globalBC
  match walkBack bcs globalBC position 0 {} with
  | none => none
  | some walk =>
    -- move back to initial position
    match bcs[walk.cursor + walk.backwardMoveCount]? with
    | none => none
    | some bc => fillBcSelRun3 fl par alias0 start walk.bg bc

/-- The loop of `BcSelectionTask::processRun3` over the BCs still to visit,
the first of them at row `position`; `m` is `mapGlobalBCtoBcId`. -/
def bcLoopRun3 (env : Env) (fl : Flags) (ccdb : Nat → EventSelectionParams) (bcs : List Bc)
    (shift : Int) : List Bc → Nat → BcMap → Option (List (BcSelRow × Option Int))
  | [], _, _ => some []
  | start :: todo, position, m =>
    match aliasRun3 env bcs shift m start with
    | none => none
    | some (alias0, m2) =>
      match bcselRun3 fl ccdb bcs alias0 position start with
      | none => none
      | some r =>
        match bcLoopRun3 env fl ccdb bcs shift todo (position + 1) m2 with
        | none => none
        | some rest => some (r :: rest)

/-- `BcSelectionTask::processRun3`: the `bcsel` records of a batch, in order,
each with the fill of `hCounterTVX` it comes with. -/
def BcSelectionTask.processRun3 (env : Env) (fl : Flags) (ccdb : Nat → EventSelectionParams)
    (confTriggerBcShift : Int) (bcs : List Bc) : Option (List (BcSelRow × Option Int)) :=
  let mapGlobalBCtoBcId := fillMapGlobalBCtoBcId bcs.enum []
  match bcs with
  | [] => if confTriggerBcShift = 999 then none else some []
  | first :: _ =>
    bcLoopRun3 env fl ccdb bcs (triggerBcShift confTriggerBcShift first.runNumber) bcs 0
      mapGlobalBCtoBcId

/-! ## `EventSelectionTask::processRun2` -/

/-- The statements under `if (isMC)`: five entries of the array
`applySelection` are set to 0. -/
def mcOverride (fl : Flags) (isMC : Bool) (applySelection : List Bool) : List Bool :=
  if isMC then
    let a := applySelection.set (fl.bit .kIsBBZAC) false
    let a := a.set (fl.bit .kNoV0MOnVsOfPileup) false
    let a := a.set (fl.bit .kNoSPDOnVsOfPileup) false
    let a := a.set (fl.bit .kNoV0Casymmetry) false
    let a := a.set (fl.bit .kNoV0PFPileup) false
    a
  else applySelection

/-- The loop `for (int i = 0; i < kNsel; i++) sel7 &= applySelection[i] ?
TESTBIT(selection, i) : 1` started with `sel7 = 1`. -/
def sel7Loop (kNsel : Nat) (applySelection : List Bool) (selection : Nat) : Bool :=
  (List.range kNsel).foldl
    (fun sel7 i => sel7 && (if applySelection.getD i false then TESTBIT selection i else true))
    true

/-- The selection word of an event in `processRun2`: that of its BC with the
two bits that depend on the number of tracklets. -/
def selectionEvRun2 (fl : Flags) (par : EventSelectionParams) (bc : BcWithSel) (nTkl : Int) :
    Nat :=
  let multV0C012 : ℚ :=
    bc.multRingV0C.getD 0 0 + bc.multRingV0C.getD 1 0 + bc.multRingV0C.getD 2 0
  let spdClusters := bc.spdClusters
  let s := setIf bc.selection_raw
    (decide ((spdClusters : ℚ) < par.fSPDClsVsTklA + nTkl * par.fSPDClsVsTklB))
    (fl.bit .kNoSPDClsVsTklBG)
  let s := setIf s
    (!(decide (nTkl < 6) && decide (multV0C012 > par.fV0C012vsTklA + nTkl * par.fV0C012vsTklB)))
    (fl.bit .kNoV0C012vsTklBG)
  s

/-- The number of tracklets grouped to a collision. -/
def countTracklets (fl : Flags) (col : Collision) : Int :=
  ((col.tracks.filter (fun t => t.trackType == fl.Run2Tracklet)).length : Int)

/-- `EventSelectionTask::processRun2` for one collision: the `evsel` record,
and the array behind the pointer `par->GetSelection(muonSelection)` as the
call leaves it; `applySelection` is that array as the call finds it. -/
def EventSelectionTask.processRun2 (fl : Flags) (ccdb : Nat → EventSelectionParams)
    (isMC : Bool) (applySelection : List Bool) (bcs : List BcWithSel) (col : Collision) :
    Option (EvSelRow × List Bool) :=
  match bcs[col.bcId]? with
  | none => none
  | some bc =>
    let par := ccdb bc.timestamp
    let applySelection := mcOverride fl isMC applySelection
    let nTkl := countTracklets fl col
    let selection := selectionEvRun2 fl par bc nTkl
    -- apply int7-like selections
    let sel7 := sel7Loop fl.kNsel applySelection selection
    let sel8 := bc.selection_bit (fl.bit .kIsBBT0A) && bc.selection_bit (fl.bit .kIsBBT0C)
    some
      ({ alias_raw := bc.alias_raw
         selection := selection
         bbV0A := bc.bbV0A
         bbV0C := bc.bbV0C
         bgV0A := bc.bgV0A
         bgV0C := bc.bgV0C
         bbFDA := bc.bbFDA
         bbFDC := bc.bbFDC
         bgFDA := bc.bgFDA
         bgFDC := bc.bgFDC
         multRingV0A := (List.range 5).map (fun i => bc.multRingV0A.getD i 0)
         multRingV0C := (List.range 4).map (fun i => bc.multRingV0C.getD i 0)
         spdClusters := bc.spdClusters
         nTkl := nTkl
         sel7 := sel7
         sel8 := sel8
         foundBC := col.bcId
         foundFT0 := bc.foundFT0Id
         foundFV0 := bc.foundFV0Id
         foundFDD := bc.foundFDDId
         foundZDC := bc.foundZDCId },
       applySelection)

/-! ## Sample constants and calibrations for the examples -/

/-- The enumerators in the order of the list in `Flag`, numbered from 0. -/
def sampleBit : Flag → Nat
  | .kIsBBV0A => 0 | .kIsBBV0C => 1 | .kIsBBFDA => 2 | .kIsBBFDC => 3
  | .kNoBGV0A => 4 | .kNoBGV0C => 5 | .kNoBGFDA => 6 | .kNoBGFDC => 7
  | .kIsBBT0A => 8 | .kIsBBT0C => 9 | .kIsBBZNA => 10 | .kIsBBZNC => 11 | .kIsBBZAC => 12
  | .kNoBGZNA => 13 | .kNoBGZNC => 14
  | .kNoV0MOnVsOfPileup => 15 | .kNoSPDOnVsOfPileup => 16 | .kNoV0Casymmetry => 17
  | .kIsGoodTimeRange => 18 | .kNoIncompleteDAQ => 19 | .kNoTPCLaserWarmUp => 20
  | .kNoTPCHVdip => 21 | .kNoPileupFromSPD => 22 | .kNoV0PFPileup => 23
  | .kNoSPDClsVsTklBG => 24 | .kNoV0C012vsTklBG => 25
  | .kNoInconsistentVtx => 26 | .kNoPileupInMultBins => 27 | .kNoPileupMV => 28
  | .kNoPileupTPC => 29 | .kIsTriggerTVX => 30 | .kIsINT1 => 31
  | .kNoBGT0A => 32 | .kNoBGT0C => 33

/-- Constants for the examples. -/
def sampleFlags : Flags :=
  { bit := sampleBit
    kNsel := 34
    kTimeRangeCut := 0
    kIncompleteDAQ := 1
    kIsTPCLaserWarmUp := 2
    kIsTPCHVdip := 3
    kIsPileupFromSPD := 4
    kIsV0PFPileup := 5
    kConsistencySPDandTrackVertices := 6
    kPileupInMultBins := 7
    kPileUpMV := 8
    kTPCPileUp := 9
    bitVertex := 2
    Run2Tracklet := 255 }

/-- A calibration whose windows are `(-1, 1)` for every beam-beam test and
`(-20, -10)` for every beam-gas test, with unit sigmas for the ZN ellipse; the
linear cuts have all coefficients 0. -/
def samplePar : EventSelectionParams :=
  { fV0ABBlower := -1, fV0ABBupper := 1, fV0ABGlower := -20, fV0ABGupper := -10
    fV0CBBlower := -1, fV0CBBupper := 1, fV0CBGlower := -20, fV0CBGupper := -10
    fFDABBlower := -1, fFDABBupper := 1, fFDABGlower := -20, fFDABGupper := -10
    fFDCBBlower := -1, fFDCBBupper := 1, fFDCBGlower := -20, fFDCBGupper := -10
    fT0ABBlower := -1, fT0ABBupper := 1, fT0ABGlower := -20, fT0ABGupper := -10
    fT0CBBlower := -1, fT0CBBupper := 1, fT0CBGlower := -20, fT0CBGupper := -10
    fZNABBlower := -1, fZNABBupper := 1, fZNABGlower := 10, fZNABGupper := 20
    fZNCBBlower := -1, fZNCBBupper := 1, fZNCBGlower := 10, fZNCBGupper := 20
    fZNSumSigma := 1, fZNDifSigma := 1 }

/-- A calibration as `samplePar` but with the V0A beam-beam window `(-1000, 1)`. -/
def sampleParWide : EventSelectionParams := { samplePar with fV0ABBlower := -1000 }

/-! ## Words of the specification used in the statements -/

/-- A calibration as `samplePar` with the coefficients `0.7f` and `0.1f` of the
cut on the V0 multiplicity. -/
def sampleParTenths : EventSelectionParams :=
  { samplePar with fV0MOnVsOfA := 11744051 / 16777216, fV0MOnVsOfB := 13421773 / 134217728 }

/-- A Run 2 BC with on-line V0 charge 1 and the FV0A amplitude 3 in channel 8. -/
def sampleChargeBc : Bc :=
  { v0TriggerChargeA := 1, fv0a := some { amplitude := [3], channel := [8] } }

/-- A window `(lower, upper)` that does not contain the time `-999` of an
absent signal. -/
def ExcludesSentinel (lower upper : ℚ) : Prop := ¬ (lower < -999 ∧ -999 < upper)

/-- A BC with an FV0 time of -15 at global BC 99 followed by a BC without any
signal at global BC 100. -/
def sampleRun3Bcs : List Bc :=
  [ { globalBC := 99, fv0a := some { time := -15 } }, { globalBC := 100 } ]

/-- The selection bits whose recipe entries the statements under `if (isMC)` clear. -/
def mcDisabled (fl : Flags) : List Nat :=
  [fl.bit .kIsBBZAC, fl.bit .kNoV0MOnVsOfPileup, fl.bit .kNoSPDOnVsOfPileup,
    fl.bit .kNoV0Casymmetry, fl.bit .kNoV0PFPileup]

/-- A recipe with every one of the 34 entries of `sampleFlags` active. -/
def sampleRecipe : List Bool := List.replicate 34 true

/-! ## Divisions by a track count, configurables and the direct lookback -/

/-- The division of a summed time by a track count; `none` stands for a
division by a count of zero. -/
def divByCount (time : ℚ) (count : Int) : Option ℚ :=
  if count = 0 then none else some (time / (count : ℚ))

/-- The pair `(meanBC, deltaBC)` as `searchWindow` computes it, with the two
divisions by a track count evaluated through `divByCount`. -/
def searchWindowChecked (env : Env) (globalBC : Int) (col : Collision) : Option (Int × Int) :=
  let meanBC := globalBC
  let deltaBC : Int := ⌈col.collisionTimeRes / env.bcNS * 4⌉
  let c := countTracks col.tracks
  if c.nTRDtracks > 0 then
    match divByCount c.timeFromTRDtracks c.nTRDtracks with
    | none => none
    | some t => some (meanBC + env.Nint (t / env.bcNS), 0)
  else if c.nTOFtracks > 0 then
    match divByCount c.timeFromTOFtracks c.nTOFtracks with
    | none => none
    | some t => some (meanBC + env.FloorNint (t / env.bcNS), 4)
  else if c.nTPCtracks > 0 then
    some (meanBC, deltaBC + 30)
  else
    some (meanBC, deltaBC)

/-- The configurables of `EventSelectionTask`. -/
structure Configurables where
  syst : String := "PbPb"
  muonSelection : Int := 0
  customDeltaBC : Int := 0
  isMC : Bool := false

/-- The window `[minBC, maxBC]` of a collision in `processRun3` under the
configurables `cfg`; `globalBC` is the global BC of the BC of the collision. -/
def acceptanceWindow (_cfg : Configurables) (env : Env) (globalBC : Int) (col : Collision) :
    Int × Int :=
  let w := searchWindow env globalBC col
  let meanBC := w.1
  let deltaBC := w.2
  (meanBC - deltaBC, meanBC + deltaBC)

/-- `EventSelectionTask::processRun3` as a member of the task with its
configurables: the body reads none of them. -/
def EventSelectionTask.processRun3 (_cfg : Configurables) (env : Env) (cols : List Collision)
    (bcs : List BcWithSel) : Option (List EvSelRow) :=
  EvSel.processRun3 env cols bcs

/-- The bounded lookback the specification proposes in place of the cursor
walk: the times of the BC of the batch one bunch crossing before `globalBC`
and of the BC five bunch crossings before it, `-999` where there is no such BC
or it has no signal. -/
def lookbackBg (bcs : List Bc) (globalBC : Nat) : BgTimes :=
  let one := bcs.find? (fun b => b.globalBC + 1 == globalBC)
  let five := bcs.find? (fun b => b.globalBC + 5 == globalBC)
  { timeV0ABG := match one with
      | some b => timeOr b.fv0a FV0.time
      | none => -999
    timeT0ABG := match one with
      | some b => timeOr b.ft0 FT0.timeA
      | none => -999
    timeT0CBG := match one with
      | some b => timeOr b.ft0 FT0.timeC
      | none => -999
    timeFDABG := match five with
      | some b => timeOr b.fdd FDD.timeA
      | none => -999
    timeFDCBG := match five with
      | some b => timeOr b.fdd FDD.timeC
      | none => -999 }

/-- A batch in strictly increasing order of global BC. -/
def IncreasingBCs (bcs : List Bc) : Prop :=
  bcs.Pairwise (fun a b => a.globalBC < b.globalBC)

/-- No global BC of the batch is within 6 of the end of the 64-bit range: the
unsigned sum `bc.globalBC() + deltaBC` of the walk does not wrap. -/
def NoWrap (bcs : List Bc) : Prop :=
  ∀ b ∈ bcs, b.globalBC + 6 < 2 ^ 64

/-- What holds of the two maps of `EventSelectionTask::processRun3`: an entry
holds the index of a BC of the batch that has the key of the entry as global
BC and satisfies `p`. -/
def MapOf (bcs : List BcWithSel) (p : BcWithSel → Bool) (m : BcMap) : Prop :=
  ∀ e ∈ m, 0 ≤ e.2 ∧ ∃ b, bcs[e.2.toNat]? = some b ∧ toInt64 b.globalBC = e.1 ∧ p b = true

/-- A collision that points to the second BC of a batch and has one
primary-vertex contributor, a track with TPC alone. -/
def sampleColTPC : Collision :=
  { bcId := 1, tracks := [{ isPVContributor := true, hasTPC := true }] }

/-- A batch of one BC without FT0 signal. -/
def sampleBcsNoTVX : List BcWithSel := [ { globalBC := 100 } ]

/-- The lookback over the rows of `bcs`, with the times of `bg` where no row
of `bcs` is one, or five, bunch crossings before `globalBC`. -/
def lookbackFrom (bcs : List Bc) (globalBC : Nat) (bg : BgTimes) : BgTimes :=
  let one := bcs.find? (fun b => b.globalBC + 1 == globalBC)
  let five := bcs.find? (fun b => b.globalBC + 5 == globalBC)
  { timeV0ABG := match one with
      | some b => timeOr b.fv0a FV0.time
      | none => bg.timeV0ABG
    timeT0ABG := match one with
      | some b => timeOr b.ft0 FT0.timeA
      | none => bg.timeT0ABG
    timeT0CBG := match one with
      | some b => timeOr b.ft0 FT0.timeC
      | none => bg.timeT0CBG
    timeFDABG := match five with
      | some b => timeOr b.fdd FDD.timeA
      | none => bg.timeFDABG
    timeFDCBG := match five with
      | some b => timeOr b.fdd FDD.timeC
      | none => bg.timeFDCBG }

/-! ## Properties of the ordered map and of `findClosest` -/

theorem lower_bound_lt_length (m : BcMap) (K : Int) (h : ∃ e ∈ m, K ≤ e.1) :
    m.lower_bound K < m.length := by
  induction m with
  | nil => simp at h
  | cons a rest ih =>
    obtain ⟨k, v⟩ := a
    by_cases hk : K ≤ k
    · simp [BcMap.lower_bound, hk]
    · have h2 : ∃ e ∈ rest, K ≤ e.1 := by
        obtain ⟨e, he, hle⟩ := h
        rcases List.mem_cons.1 he with rfl | he
        · exact absurd hle hk
        · exact ⟨e, he, hle⟩
      simpa [BcMap.lower_bound, hk] using ih h2

theorem lower_bound_key_ge (m : BcMap) (K : Int) (e : Int × Int)
    (h : m[m.lower_bound K]? = some e) : K ≤ e.1 := by
  induction m with
  | nil => simp at h
  | cons a rest ih =>
    obtain ⟨k, v⟩ := a
    by_cases hk : K ≤ k
    · simp [BcMap.lower_bound, hk] at h
      subst h
      exact hk
    · simp [BcMap.lower_bound, hk] at h
      exact ih h

theorem lower_bound_key_lt (m : BcMap) (K : Int) (j : Nat) (e : Int × Int)
    (hj : j < m.lower_bound K) (h : m[j]? = some e) : e.1 < K := by
  induction m generalizing j with
  | nil => simp at h
  | cons a rest ih =>
    obtain ⟨k, v⟩ := a
    by_cases hk : K ≤ k
    · simp [BcMap.lower_bound, hk] at hj
    · simp only [BcMap.lower_bound, hk, if_false] at hj
      cases j with
      | zero =>
        simp at h
        subst h
        exact lt_of_not_ge hk
      | succ j =>
        simp at h
        exact ih j (by omega) h

/-- The value `findClosest` returns, in terms of the position `lower_bound` gives. -/
theorem findClosest_at (m : BcMap) (K : Int) (k1 v1 : Int)
    (h1 : m[m.lower_bound K]? = some (k1, v1)) :
    (m.lower_bound K = 0 → findClosest K m = some v1) ∧
    (∀ k2 v2, 0 < m.lower_bound K → m[m.lower_bound K - 1]? = some (k2, v2) →
      findClosest K m = some (if |k1 - K| ≤ |k2 - K| then v1 else v2)) := by
  constructor
  · intro h0
    rw [h0] at h1
    simp [findClosest, h0, h1]
  · intro k2 v2 hpos h2
    have hne : m.lower_bound K ≠ 0 := by omega
    simp [findClosest, h1, hne, h2]

theorem lower_bound_shiftKeys (m : BcMap) (K d : Int) :
    (m.shiftKeys d).lower_bound (K + d) = m.lower_bound K := by
  induction m with
  | nil => rfl
  | cons a rest ih =>
    obtain ⟨k, v⟩ := a
    have ih2 : BcMap.lower_bound (List.map (fun e => (e.1 + d, e.2)) rest) (K + d)
        = BcMap.lower_bound rest K := ih
    by_cases hk : K ≤ k
    · simp [BcMap.shiftKeys, BcMap.lower_bound, hk]
    · simp [BcMap.shiftKeys, BcMap.lower_bound, hk, ih2]

/-- C2. On a sorted index that has a key not less than the target `K`,
`findClosest` returns the entry of the first key not less than `K` or of the
key just before it, whichever is closer to `K`, the former on a tie; when no
key is below `K` it returns the first entry; keys 100, 200 and target 150 give
the entry of 200. -/
theorem findClosest_two_neighbours (m : BcMap) (K : Int) (hs : m.Sorted)
    (hK : ∃ e ∈ m, K ≤ e.1) :
    (∃ k1 v1, (k1, v1) ∈ m ∧ K ≤ k1 ∧ (∀ e ∈ m, K ≤ e.1 → k1 ≤ e.1) ∧
      ((∀ e ∈ m, K ≤ e.1) → findClosest K m = some v1 ∧ m.head? = some (k1, v1)) ∧
      (∀ k2 v2, (k2, v2) ∈ m → k2 < K → (∀ e ∈ m, e.1 < K → e.1 ≤ k2) →
        findClosest K m = some (if |k1 - K| ≤ |k2 - K| then v1 else v2))) ∧
    (∀ v1 v2 : Int, findClosest 150 [(100, v1), (200, v2)] = some v2) := by
  refine ⟨?_, ?_⟩
  · have hlt := lower_bound_lt_length m K hK
    have hget : m[m.lower_bound K]? = some m[m.lower_bound K] := List.getElem?_eq_getElem hlt
    have hpw := List.pairwise_iff_getElem.1 hs
    have hat := findClosest_at m K m[m.lower_bound K].1 m[m.lower_bound K].2 hget
    refine ⟨m[m.lower_bound K].1, m[m.lower_bound K].2, List.getElem_mem hlt,
      lower_bound_key_ge m K _ hget, ?_, ?_, ?_⟩
    · intro e he hle
      obtain ⟨j, hj, rfl⟩ := List.getElem_of_mem he
      rcases Nat.lt_trichotomy j (m.lower_bound K) with hlt2 | heq | hgt
      · have := lower_bound_key_lt m K j m[j] hlt2 (List.getElem?_eq_getElem hj)
        omega
      · subst heq
        exact le_refl _
      · exact le_of_lt (hpw _ _ hlt hj hgt)
    · intro hall
      have h0 : m.lower_bound K = 0 := by
        by_contra hne
        have hpos : 0 < m.lower_bound K := Nat.pos_of_ne_zero hne
        have h0lt : 0 < m.length := by omega
        have := lower_bound_key_lt m K 0 m[0] hpos (List.getElem?_eq_getElem h0lt)
        have := hall m[0] (List.getElem_mem h0lt)
        omega
      refine ⟨hat.1 h0, ?_⟩
      have h0lt : 0 < m.length := by omega
      have hsame : m[m.lower_bound K] = m[0] := by simp only [h0]
      rw [List.head?_eq_getElem?, List.getElem?_eq_getElem h0lt, hsame]
    · intro k2 v2 hmem hk2 hmax
      obtain ⟨j, hj, hjeq⟩ := List.getElem_of_mem hmem
      have hjlt : j < m.lower_bound K := by
        by_contra hge
        have hge2 : m.lower_bound K ≤ j := by omega
        have hk1 := lower_bound_key_ge m K _ hget
        rcases Nat.eq_or_lt_of_le hge2 with heq | hlt2
        · subst heq
          rw [hjeq] at hk1
          simp at hk1
          omega
        · have := hpw _ _ hlt hj hlt2
          rw [hjeq] at this
          simp at this
          omega
      have hpos : 0 < m.lower_bound K := by omega
      have hplt : m.lower_bound K - 1 < m.length := by omega
      have hpk := lower_bound_key_lt m K (m.lower_bound K - 1) m[m.lower_bound K - 1]
        (by omega) (List.getElem?_eq_getElem hplt)
      have hle1 := hmax _ (List.getElem_mem hplt) hpk
      have hjp : j = m.lower_bound K - 1 := by
        by_contra hne
        have hlt3 : j < m.lower_bound K - 1 := by omega
        have := hpw _ _ hj hplt hlt3
        rw [hjeq] at this
        simp at this
        omega
      subst hjp
      have := hat.2 k2 v2 hpos (by rw [List.getElem?_eq_getElem hplt, hjeq])
      exact this
  · intro v1 v2
    simp [findClosest, BcMap.lower_bound]

/-- Witness for C2: the index with keys 100 and 200, target 150. -/
theorem findClosest_two_neighbours_witness :
    BcMap.Sorted [(100, 7), (200, 9)] ∧ findClosest 150 [(100, 7), (200, 9)] = some 9 := by
  have hs : BcMap.Sorted [(100, 7), (200, 9)] := by simp [BcMap.Sorted]
  obtain ⟨k1, v1, hmem, hk, -, -, hpred⟩ :=
    (findClosest_two_neighbours [(100, 7), (200, 9)] 150 hs ⟨(200, 9), by simp, by decide⟩).1
  have h := hpred 100 7 (by simp) (by decide) (by
    intro e he hlt
    simp at he
    rcases he with rfl | rfl
    · exact le_refl _
    · exact absurd hlt (by decide))
  simp at hmem
  rcases hmem with ⟨rfl, rfl⟩ | ⟨rfl, rfl⟩
  · exact absurd hk (by decide)
  · exact ⟨hs, h.trans (by decide)⟩

/-- C5. `findClosest` is invariant under a translation of the keys and of the
target by the same constant. -/
theorem findClosest_shiftKeys (m : BcMap) (K d : Int) :
    findClosest (K + d) (m.shiftKeys d) = findClosest K m := by
  have hlb := lower_bound_shiftKeys m K d
  have hget : ∀ n : Nat, (m.shiftKeys d)[n]? = Option.map (fun e : Int × Int => (e.1 + d, e.2)) m[n]? := by
    intro n
    simp [BcMap.shiftKeys, List.getElem?_map]
  unfold findClosest
  simp only [hlb, hget]
  cases h1 : m[m.lower_bound K]? with
  | none => simp
  | some e1 =>
    cases h2 : m[if (m.lower_bound K != 0) = true then m.lower_bound K - 1 else m.lower_bound K]? with
    | none => simp [h2]
    | some e2 => simp [h2, add_sub_add_right_eq_sub]

/-! ## `EventSelectionTask::processRun3`: the search of the BC of an event -/

theorem inSearchRegion_iff (minBC maxBC bc : Int) :
    inSearchRegion minBC maxBC bc = true ↔ minBC ≤ bc ∧ bc ≤ maxBC := by
  simp [inSearchRegion]

/-- C1. In `processRun3` the event is attached to the closest TVX BC when
its global BC lies in `[meanBC - deltaBC, meanBC + deltaBC]`; when it does not
and the closest TOR BC lies in that window, the event is attached to the
closest TOR BC. -/
theorem processRun3_primary_then_secondary (env : Env) (bcs : List BcWithSel)
    (mapTVX mapTOR : BcMap) (col : Collision) (bc : BcWithSel) (meanBC deltaBC : Int)
    (hbc : bcs[col.bcId]? = some bc)
    (hw : searchWindow env (toInt64 bc.globalBC) col = (meanBC, deltaBC))
    (i : Int) (tvx : BcWithSel) (hi : findClosest meanBC mapTVX = some i)
    (htvx : bcs[i.toNat]? = some tvx) :
    (meanBC - deltaBC ≤ toInt64 tvx.globalBC ∧ toInt64 tvx.globalBC ≤ meanBC + deltaBC →
      attachedBC env bcs mapTVX mapTOR col = some i.toNat ∧
      processRun3Col env bcs mapTVX mapTOR col = some (fillEvSel env i.toNat tvx)) ∧
    (∀ (j : Int) (tor : BcWithSel),
      ¬ (meanBC - deltaBC ≤ toInt64 tvx.globalBC ∧ toInt64 tvx.globalBC ≤ meanBC + deltaBC) →
      findClosest meanBC mapTOR = some j → bcs[j.toNat]? = some tor →
      meanBC - deltaBC ≤ toInt64 tor.globalBC ∧ toInt64 tor.globalBC ≤ meanBC + deltaBC →
      attachedBC env bcs mapTVX mapTOR col = some j.toNat ∧
      processRun3Col env bcs mapTVX mapTOR col = some (fillEvSel env j.toNat tor)) := by
  constructor
  · intro hin
    have hreg := (inSearchRegion_iff _ _ _).2 hin
    have hatt : attachedBC env bcs mapTVX mapTOR col = some i.toNat := by
      simp [attachedBC, hbc, hw, matchBC, hi, htvx, hreg]
    exact ⟨hatt, by simp [processRun3Col, hatt, htvx]⟩
  · intro j tor hout hj htor hin
    have hreg1 : inSearchRegion (meanBC - deltaBC) (meanBC + deltaBC) (toInt64 tvx.globalBC)
        = false := by
      rw [Bool.eq_false_iff]
      exact fun h => hout ((inSearchRegion_iff _ _ _).1 h)
    have hreg2 := (inSearchRegion_iff _ _ _).2 hin
    have hatt : attachedBC env bcs mapTVX mapTOR col = some j.toNat := by
      simp [attachedBC, hbc, hw, matchBC, hi, htvx, hreg1, hj, htor, hreg2]
    exact ⟨hatt, by simp [processRun3Col, hatt, htor]⟩

theorem searchWindow_no_tracks (env : Env) (g : Int) (n : Nat) :
    searchWindow env g { bcId := n } = (g, 0) := by
  simp [searchWindow, countTracks]

theorem searchWindow_sampleColNeg (g : Int) :
    searchWindow sampleEnv g sampleColNeg = (g, -4) := by
  have h : (-(2495 / 100) / (2495 / 100) * 4 : ℚ) = ((-4 : Int) : ℚ) := by norm_num
  simp only [searchWindow, sampleColNeg, sampleEnv, countTracks, List.foldl_nil, h,
    Int.ceil_intCast]
  simp

theorem buildMaps_sampleBcs : buildMaps sampleEnv 0 sampleBcs = ([(200, 1)], [(200, 1)]) := by
  decide

theorem buildMaps_sampleBcsEdge :
    buildMaps sampleEnv 0 sampleBcsEdge = ([(104, 1)], [(104, 1)]) := by
  decide

/-- Witness for C1: a collision on the second BC of `sampleBcs`, the TVX BC at
global BC 200. -/
theorem processRun3_primary_then_secondary_witness :
    attachedBC sampleEnv sampleBcs [(200, 1)] [(200, 1)] { bcId := 1 } = some 1 ∧
    processRun3Col sampleEnv sampleBcs [(200, 1)] [(200, 1)] { bcId := 1 } =
      some (fillEvSel sampleEnv 1
        { globalBC := 200, selection_raw := BIT 30 ||| BIT 8, foundFT0Id := 0 }) :=
  (processRun3_primary_then_secondary sampleEnv sampleBcs [(200, 1)] [(200, 1)] { bcId := 1 }
    { globalBC := 200, selection_raw := BIT 30 ||| BIT 8, foundFT0Id := 0 } 200 0 rfl
    (searchWindow_no_tracks sampleEnv _ 1) 1
    { globalBC := 200, selection_raw := BIT 30 ||| BIT 8, foundFT0Id := 0 }
    (by decide) rfl).1 (by decide)

/-- C3, as the code has it. An event for which neither the closest TVX BC
nor the closest TOR BC lies in the search window stays on the BC the collision
points to: the record carries the index of that BC and its four detector
indices. -/
theorem processRun3_unmatched_keeps_own_bc (env : Env) (bcs : List BcWithSel)
    (mapTVX mapTOR : BcMap) (col : Collision) (bc : BcWithSel) (meanBC deltaBC : Int)
    (hbc : bcs[col.bcId]? = some bc)
    (hw : searchWindow env (toInt64 bc.globalBC) col = (meanBC, deltaBC))
    (i : Int) (tvx : BcWithSel) (hi : findClosest meanBC mapTVX = some i)
    (htvx : bcs[i.toNat]? = some tvx)
    (hout1 : ¬ (meanBC - deltaBC ≤ toInt64 tvx.globalBC ∧
      toInt64 tvx.globalBC ≤ meanBC + deltaBC))
    (j : Int) (tor : BcWithSel) (hj : findClosest meanBC mapTOR = some j)
    (htor : bcs[j.toNat]? = some tor)
    (hout2 : ¬ (meanBC - deltaBC ≤ toInt64 tor.globalBC ∧
      toInt64 tor.globalBC ≤ meanBC + deltaBC)) :
    ∃ r, processRun3Col env bcs mapTVX mapTOR col = some r ∧
      r.foundBC = (col.bcId : Int) ∧ r.foundFT0 = bc.foundFT0Id ∧ r.foundFV0 = bc.foundFV0Id ∧
      r.foundFDD = bc.foundFDDId ∧ r.foundZDC = bc.foundZDCId := by
  have hreg1 : inSearchRegion (meanBC - deltaBC) (meanBC + deltaBC) (toInt64 tvx.globalBC)
      = false := by
    rw [Bool.eq_false_iff]
    exact fun h => hout1 ((inSearchRegion_iff _ _ _).1 h)
  have hreg2 : inSearchRegion (meanBC - deltaBC) (meanBC + deltaBC) (toInt64 tor.globalBC)
      = false := by
    rw [Bool.eq_false_iff]
    exact fun h => hout2 ((inSearchRegion_iff _ _ _).1 h)
  have hatt : attachedBC env bcs mapTVX mapTOR col = some col.bcId := by
    simp [attachedBC, hbc, hw, matchBC, hi, htvx, hreg1, hj, htor, hreg2]
  refine ⟨fillEvSel env col.bcId bc, by simp [processRun3Col, hatt, hbc], ?_⟩
  simp [fillEvSel]

/-- Witness for C3 as amended: the collision of `sampleCol` on the first BC of
`sampleBcs`, whose only TVX and TOR BC is 100 bunch crossings away. -/
theorem processRun3_unmatched_keeps_own_bc_witness :
    ∃ r, processRun3Col sampleEnv sampleBcs [(200, 1)] [(200, 1)] sampleCol = some r ∧
      r.foundBC = ((sampleCol.bcId : Nat) : Int) ∧ r.foundFT0 = -1 ∧ r.foundFV0 = 5 ∧
      r.foundFDD = 6 ∧ r.foundZDC = 7 :=
  processRun3_unmatched_keeps_own_bc sampleEnv sampleBcs [(200, 1)] [(200, 1)] sampleCol
    { globalBC := 100, foundFV0Id := 5, foundFDDId := 6, foundZDCId := 7 } 100 0 rfl
    (searchWindow_no_tracks sampleEnv _ 0) 1
    { globalBC := 200, selection_raw := BIT 30 ||| BIT 8, foundFT0Id := 0 }
    (by decide) rfl (by decide) 1
    { globalBC := 200, selection_raw := BIT 30 ||| BIT 8, foundFT0Id := 0 }
    (by decide) rfl (by decide)

/-- Counterexample to C3 as stated. The collision of `sampleCol` has its
closest TVX BC and its closest TOR BC (global BC 200) outside the window
`[100, 100]`, and `processRun3` emits a record with matched-BC index 0 and the
FV0, FDD and ZDC indices 5, 6 and 7 of that BC, none of them -1. -/
theorem processRun3_unmatched_not_minus_one :
    findClosest 100 (buildMaps sampleEnv 0 sampleBcs).1 = some 1 ∧
    findClosest 100 (buildMaps sampleEnv 0 sampleBcs).2 = some 1 ∧
    inSearchRegion (100 - 0) (100 + 0) 200 = false ∧
    (processRun3 sampleEnv [sampleCol] sampleBcs).map
      (List.map (fun r => (r.foundBC, r.foundFT0, r.foundFV0, r.foundFDD, r.foundZDC)))
      = some [(0, -1, 5, 6, 7)] := by
  refine ⟨by decide, by decide, by decide, ?_⟩
  have hm := buildMaps_sampleBcs
  have hatt : attachedBC sampleEnv sampleBcs [(200, 1)] [(200, 1)] sampleCol = some 0 := by
    have hw := searchWindow_no_tracks sampleEnv (toInt64 100) 0
    simp only [attachedBC, sampleBcs, sampleCol, List.getElem?_cons_zero, hw]
    decide
  have hcol : processRun3Col sampleEnv sampleBcs [(200, 1)] [(200, 1)] sampleCol
      = some (fillEvSel sampleEnv 0
          { globalBC := 100, foundFV0Id := 5, foundFDDId := 6, foundZDCId := 7 }) := by
    simp only [processRun3Col, hatt]
    rfl
  have hrun : processRun3 sampleEnv [sampleCol] sampleBcs
      = some [fillEvSel sampleEnv 0
          { globalBC := 100, foundFV0Id := 5, foundFDDId := 6, foundZDCId := 7 }] := by
    have hm2 : buildMaps sampleEnv
        ({ globalBC := 100, foundFV0Id := 5, foundFDDId := 6, foundZDCId := 7 } : BcWithSel).runNumber
        sampleBcs = ([(200, 1)], [(200, 1)]) := hm
    simp only [processRun3, sampleBcs] at hm2 ⊢
    simp only [hm2]
    have := hcol
    simp only [sampleBcs] at this
    simp only [colLoop, this]
  rw [hrun]
  simp [fillEvSel]

/-- C4, as the code has it. A candidate is accepted iff
`meanBC - deltaBC ≤ c ≤ meanBC + deltaBC`; the values one below the lower bound
and one above the upper bound are rejected, and the two bounds themselves are
accepted whenever `deltaBC` is not negative. -/
theorem inSearchRegion_inclusive (meanBC deltaBC c : Int) :
    (inSearchRegion (meanBC - deltaBC) (meanBC + deltaBC) c = true ↔
      meanBC - deltaBC ≤ c ∧ c ≤ meanBC + deltaBC) ∧
    inSearchRegion (meanBC - deltaBC) (meanBC + deltaBC) (meanBC - deltaBC - 1) = false ∧
    inSearchRegion (meanBC - deltaBC) (meanBC + deltaBC) (meanBC + deltaBC + 1) = false ∧
    (0 ≤ deltaBC →
      inSearchRegion (meanBC - deltaBC) (meanBC + deltaBC) (meanBC - deltaBC) = true ∧
      inSearchRegion (meanBC - deltaBC) (meanBC + deltaBC) (meanBC + deltaBC) = true) := by
  refine ⟨inSearchRegion_iff _ _ _, ?_, ?_, ?_⟩
  · rw [Bool.eq_false_iff, Ne, inSearchRegion_iff]
    omega
  · rw [Bool.eq_false_iff, Ne, inSearchRegion_iff]
    omega
  · intro h
    rw [inSearchRegion_iff, inSearchRegion_iff]
    omega

/-- Witness for C4 as amended: the window `[96, 104]` around 100. -/
theorem inSearchRegion_inclusive_witness :
    inSearchRegion (100 - 4) (100 + 4) (100 - 4) = true ∧
    inSearchRegion (100 - 4) (100 + 4) (100 + 4) = true :=
  (inSearchRegion_inclusive 100 4 100).2.2.2 (by decide)

/-- Counterexample to C4 as stated. The collision of `sampleColNeg` has
`deltaBC = -4`, hence `minBC = 104` and `maxBC = 96`; the candidate at `minBC`
is rejected, and the event is not attached to the TVX BC that sits at global
BC 104. -/
theorem inSearchRegion_rejects_minBC :
    searchWindow sampleEnv 100 sampleColNeg = (100, -4) ∧
    inSearchRegion (100 - -4) (100 + -4) (100 - -4) = false ∧
    attachedBC sampleEnv sampleBcsEdge (buildMaps sampleEnv 0 sampleBcsEdge).1
      (buildMaps sampleEnv 0 sampleBcsEdge).2 sampleColNeg = some 0 := by
  refine ⟨searchWindow_sampleColNeg 100, by decide, ?_⟩
  rw [buildMaps_sampleBcsEdge]
  have hw := searchWindow_sampleColNeg (toInt64 100)
  simp only [attachedBC, sampleBcsEdge, sampleColNeg, List.getElem?_cons_zero] at hw ⊢
  simp only [hw]
  decide

/-! ## `BcSelectionTask`: the alias word -/

theorem BIT_eq (n : Nat) (h : n < 64) : BIT n = 2 ^ n := by
  unfold BIT
  rw [Nat.one_shiftLeft]
  exact Nat.mod_eq_of_lt (Nat.pow_lt_pow_right (by decide) h)

theorem TESTBIT_eq_testBit (x n : Nat) (h : n < 64) : TESTBIT x n = x.testBit n := by
  unfold TESTBIT
  rw [BIT_eq n h, Nat.and_two_pow]
  cases hb : x.testBit n <;> simp

theorem TESTBIT_or_BIT (a k : Nat) (hk : k < 32) :
    TESTBIT ((a ||| BIT k) % 2 ^ 32) k = true := by
  rw [TESTBIT_eq_testBit _ _ (by omega), Nat.testBit_mod_two_pow, Nat.testBit_or,
    BIT_eq k (by omega), Nat.testBit_two_pow_self]
  simp [hk]

theorem zero_or_BIT (k : Nat) (hk : k < 32) : (0 ||| BIT k) % 2 ^ 32 = BIT k := by
  rw [Nat.zero_or, BIT_eq k (by omega)]
  exact Nat.mod_eq_of_lt (Nat.pow_lt_pow_right (by decide) hk)

theorem mem_assign (m : BcMap) (k v : Int) (e : Int × Int) (h : e ∈ m.assign k v) :
    e = (k, v) ∨ e ∈ m := by
  induction m with
  | nil => simpa [BcMap.assign] using h
  | cons a rest ih =>
    obtain ⟨k2, v2⟩ := a
    unfold BcMap.assign at h
    split_ifs at h with h1 h2
    · rcases List.mem_cons.1 h with h | h
      · exact Or.inl h
      · exact Or.inr h
    · rcases List.mem_cons.1 h with h | h
      · exact Or.inl h
      · exact Or.inr (List.mem_cons_of_mem _ h)
    · rcases List.mem_cons.1 h with h | h
      · exact Or.inr (h ▸ List.mem_cons_self _ _)
      · rcases ih h with h | h
        · exact Or.inl h
        · exact Or.inr (List.mem_cons_of_mem _ h)

theorem mem_of_find (m : BcMap) (k v : Int) (h : m.find k = some v) : (k, v) ∈ m := by
  induction m with
  | nil => simp [BcMap.find] at h
  | cons a rest ih =>
    obtain ⟨k2, v2⟩ := a
    unfold BcMap.find at h
    split_ifs at h with h1
    · simp at h
      subst h1 h
      exact List.mem_cons_self _ _
    · exact List.mem_cons_of_mem _ (ih h)

theorem MapValid_assign_zero (bcs : List Bc) (m : BcMap) (k : Int) (h : MapValid bcs m) :
    MapValid bcs (m.assign k 0) := by
  intro e he
  rcases mem_assign m k 0 e he with rfl | he
  · exact Or.inl rfl
  · exact h e he

theorem MapValid_subscript (bcs : List Bc) (m : BcMap) (k : Int) (h : MapValid bcs m) :
    MapValid bcs (m.subscript k).2 := by
  unfold BcMap.subscript
  cases hf : m.find k with
  | none => exact MapValid_assign_zero bcs m k h
  | some v => exact h

theorem subscript_value (bcs : List Bc) (m : BcMap) (k : Int) (h : MapValid bcs m) :
    (m.subscript k).1 = 0 ∨
      (0 ≤ (m.subscript k).1 ∧
        ∃ b, bcs[(m.subscript k).1.toNat]? = some b ∧ (b.globalBC : Int) = k) := by
  unfold BcMap.subscript
  cases hf : m.find k with
  | none => exact Or.inl rfl
  | some v => exact h (k, v) (mem_of_find m k v hf)

theorem MapValid_fill (bcs : List Bc) (l : List (Nat × Bc)) (m : BcMap)
    (hl : ∀ p ∈ l, bcs[p.1]? = some p.2) (h : MapValid bcs m) :
    MapValid bcs (fillMapGlobalBCtoBcId l m) := by
  induction l generalizing m with
  | nil => exact h
  | cons p rest ih =>
    obtain ⟨n, bc⟩ := p
    unfold fillMapGlobalBCtoBcId
    apply ih _ (fun q hq => hl q (List.mem_cons_of_mem _ hq))
    intro e he
    rcases mem_assign m _ _ e he with rfl | he
    · refine Or.inr ⟨Int.natCast_nonneg n, bc, ?_, rfl⟩
      have := hl (n, bc) (List.mem_cons_self _ _)
      simpa using this
    · exact h e he

theorem MapValid_build (bcs : List Bc) : MapValid bcs (fillMapGlobalBCtoBcId bcs.enum []) := by
  apply MapValid_fill
  · intro p hp
    obtain ⟨n, bc⟩ := p
    exact List.mk_mem_enum_iff_getElem?.1 hp
  · intro e he
    simp at he

/-- The alias word of one BC: it is defined, it leaves the map valid, it has
the bit `kALL`, and it is `BIT(kALL)` alone when no BC of the batch sits at
the key that is looked up. -/
theorem aliasRun3_spec (env : Env) (hk : env.kALL < 32) (bcs : List Bc) (shift : Int)
    (m : BcMap) (bc : Bc) (h : MapValid bcs m) :
    ∃ a m2, aliasRun3 env bcs shift m bc = some (a, m2) ∧ MapValid bcs m2 ∧
      TESTBIT a env.kALL = true ∧
      ((∀ b ∈ bcs, (b.globalBC : Int) ≠ triggerKey bc shift) → a = BIT env.kALL) := by
  have hv := subscript_value bcs m (triggerKey bc shift) h
  have hm2 := MapValid_subscript bcs m (triggerKey bc shift) h
  by_cases h0 : (m.subscript (triggerKey bc shift)).1 = 0
  · refine ⟨(0 ||| BIT env.kALL) % 2 ^ 32, (m.subscript (triggerKey bc shift)).2, ?_, hm2,
      TESTBIT_or_BIT 0 _ hk, fun _ => zero_or_BIT _ hk⟩
    simp [aliasRun3, h0]
  · rcases hv with hv | ⟨-, b, hb, hkey⟩
    · exact absurd hv h0
    · refine ⟨(fillAliases b.triggerMask (env.aliases bc.timestamp).aliasToTriggerMask 0
          ||| BIT env.kALL) % 2 ^ 32, (m.subscript (triggerKey bc shift)).2, ?_, hm2,
        TESTBIT_or_BIT _ _ hk, ?_⟩
      · simp [aliasRun3, h0, hb]
      · intro hno
        exact absurd hkey (hno b (List.getElem?_mem hb))

theorem aliasLoop_spec (env : Env) (hk : env.kALL < 32) (bcs : List Bc) (shift : Int)
    (todo : List Bc) (m : BcMap) (h : MapValid bcs m) :
    ∃ l, aliasLoop env bcs shift todo m = some l ∧ l.length = todo.length ∧
      ∀ (i : Nat) (bc : Bc), todo[i]? = some bc →
        ∃ a, l[i]? = some a ∧ TESTBIT a env.kALL = true ∧
          ((∀ b ∈ bcs, (b.globalBC : Int) ≠ triggerKey bc shift) → a = BIT env.kALL) := by
  induction todo generalizing m with
  | nil => exact ⟨[], rfl, rfl, by simp⟩
  | cons bc rest ih =>
    obtain ⟨a, m2, hrun, hm2, hbit, hmiss⟩ := aliasRun3_spec env hk bcs shift m bc h
    obtain ⟨l, hl, hlen, hall⟩ := ih m2 hm2
    refine ⟨a :: l, by simp [aliasLoop, hrun, hl], by simp [hlen], ?_⟩
    intro i b hi
    cases i with
    | zero =>
      simp at hi
      subst hi
      exact ⟨a, by simp, hbit, hmiss⟩
    | succ i =>
      simp at hi
      simpa using hall i b hi

theorem processRun2Aliases_spec (env : Env) (hk : env.kALL < 32) (bcs : List Bc) :
    (processRun2Aliases env bcs).length = bcs.length ∧
    ∀ a ∈ processRun2Aliases env bcs, TESTBIT a env.kALL = true := by
  refine ⟨by simp [processRun2Aliases], ?_⟩
  intro a ha
  simp only [processRun2Aliases, List.mem_map] at ha
  obtain ⟨bc, -, rfl⟩ := ha
  exact TESTBIT_or_BIT _ _ hk

/-- C6. Every alias word emitted by `BcSelectionTask::processRun2` and by
`BcSelectionTask::processRun3` has the bit `kALL` set, whatever the trigger
masks, the alias tables and the configured shift; both emit one word per BC. -/
theorem alias_kALL_always_set (env : Env) (hk : env.kALL < 32) (conf : Int) (bcs : List Bc) :
    ((processRun2Aliases env bcs).length = bcs.length ∧
      ∀ a ∈ processRun2Aliases env bcs, TESTBIT a env.kALL = true) ∧
    (bcs ≠ [] → ∃ l, processRun3Aliases env conf bcs = some l ∧ l.length = bcs.length ∧
      ∀ a ∈ l, TESTBIT a env.kALL = true) := by
  refine ⟨processRun2Aliases_spec env hk bcs, ?_⟩
  intro hne
  cases hb : bcs with
  | nil => exact absurd hb hne
  | cons first rest =>
    obtain ⟨l, hl, hlen, hall⟩ := aliasLoop_spec env hk bcs
      (triggerBcShift conf first.runNumber) bcs _ (MapValid_build bcs)
    rw [← hb]
    refine ⟨l, ?_, hlen, ?_⟩
    · simp only [processRun3Aliases]
      rw [hb] at hl ⊢
      exact hl
    · intro a ha
      obtain ⟨i, hi, rfl⟩ := List.getElem_of_mem ha
      obtain ⟨bc, hbc⟩ : ∃ bc, bcs[i]? = some bc :=
        ⟨bcs[i], List.getElem?_eq_getElem (by omega)⟩
      obtain ⟨a, ha2, hbit, -⟩ := hall i bc hbc
      rw [List.getElem?_eq_getElem hi] at ha2
      simp at ha2
      rw [ha2]
      exact hbit

/-- Witness for C6: the batch `sampleTriggerBcs` with the shift set to 0. -/
theorem alias_kALL_always_set_witness :
    ((processRun2Aliases sampleEnv sampleTriggerBcs).length = sampleTriggerBcs.length ∧
      ∀ a ∈ processRun2Aliases sampleEnv sampleTriggerBcs, TESTBIT a sampleEnv.kALL = true) ∧
    (sampleTriggerBcs ≠ [] → ∃ l, processRun3Aliases sampleEnv 0 sampleTriggerBcs = some l ∧
      l.length = sampleTriggerBcs.length ∧ ∀ a ∈ l, TESTBIT a sampleEnv.kALL = true) :=
  alias_kALL_always_set sampleEnv (by decide) 0 sampleTriggerBcs

/-- C7 at its failing input. With the shift set to 0 each BC of
`sampleTriggerBcs` looks up itself; both fired trigger class 0, which the alias
table of `sampleEnv` maps to alias 0, and yet the first BC of the batch, whose
index is 0, gets `BIT(kALL)` alone while the second gets alias 0 as well. -/
theorem processRun3Aliases_first_bc_loses_aliases :
    processRun3Aliases sampleEnv 0 sampleTriggerBcs = some [BIT 27, BIT 27 ||| BIT 0] ∧
    TESTBIT (BIT 27) 0 = false ∧ TESTBIT (BIT 27 ||| BIT 0) 0 = true := by
  decide

/-- C8. In `BcSelectionTask::processRun3` a BC whose key
`globalBC + triggerBcShift` is the global BC of no BC of the batch gets the
alias word `BIT(kALL)` and nothing else, whatever the trigger masks; so does
every other BC of the batch that looks up the same key. -/
theorem alias_only_kALL_on_miss (env : Env) (hk : env.kALL < 32) (conf : Int)
    (bcs : List Bc) (first : Bc) (hfirst : bcs[0]? = some first) (i : Nat) (bc : Bc)
    (hi : bcs[i]? = some bc)
    (hmiss : ∀ b ∈ bcs,
      (b.globalBC : Int) ≠ triggerKey bc (triggerBcShift conf first.runNumber)) :
    ∃ l, processRun3Aliases env conf bcs = some l ∧ l[i]? = some (BIT env.kALL) ∧
      ∀ (j : Nat) (bc2 : Bc), bcs[j]? = some bc2 →
        triggerKey bc2 (triggerBcShift conf first.runNumber)
          = triggerKey bc (triggerBcShift conf first.runNumber) →
        l[j]? = some (BIT env.kALL) := by
  cases hb : bcs with
  | nil => simp [hb] at hfirst
  | cons f rest =>
    have hf : f = first := by
      rw [hb] at hfirst
      simpa using hfirst
    subst hf
    obtain ⟨l, hl, -, hall⟩ := aliasLoop_spec env hk bcs
      (triggerBcShift conf f.runNumber) bcs _ (MapValid_build bcs)
    rw [← hb]
    refine ⟨l, ?_, ?_, ?_⟩
    · simp only [processRun3Aliases]
      rw [hb] at hl ⊢
      exact hl
    · obtain ⟨a, ha, -, hmiss2⟩ := hall i bc hi
      rw [ha, hmiss2 hmiss]
    · intro j bc2 hj hsame
      obtain ⟨a, ha, -, hmiss2⟩ := hall j bc2 hj
      rw [ha, hmiss2 (by rw [hsame]; exact hmiss)]

/-- Witness for C8: `sampleTriggerBcs` with the shift set to 294; no BC sits
at global BC 395, the key the second BC looks up. -/
theorem alias_only_kALL_on_miss_witness :
    ∃ l, processRun3Aliases sampleEnv 294 sampleTriggerBcs = some l ∧
      l[1]? = some (BIT sampleEnv.kALL) ∧
      ∀ (j : Nat) (bc2 : Bc), sampleTriggerBcs[j]? = some bc2 →
        triggerKey bc2 (triggerBcShift 294 (0 : Int))
          = triggerKey { globalBC := 101, triggerMask := 1 } (triggerBcShift 294 (0 : Int)) →
        l[j]? = some (BIT sampleEnv.kALL) :=
  alias_only_kALL_on_miss sampleEnv (by decide) 294 sampleTriggerBcs
    { globalBC := 100, triggerMask := 1 } rfl 1 { globalBC := 101, triggerMask := 1 } rfl
    (by decide)

/-! ### The alias word when the BC that is looked up exists -/

theorem find_assign_self (m : BcMap) (k v : Int) : (m.assign k v).find k = some v := by
  induction m with
  | nil => simp [BcMap.assign, BcMap.find]
  | cons a rest ih =>
    obtain ⟨k2, v2⟩ := a
    unfold BcMap.assign
    split_ifs with h1 h2
    · simp [BcMap.find]
    · simp [BcMap.find]
    · simp [BcMap.find, h2, ih]

theorem find_assign_ne (m : BcMap) (k v k2 : Int) (h : k2 ≠ k) :
    (m.assign k v).find k2 = m.find k2 := by
  induction m with
  | nil => simp [BcMap.assign, BcMap.find, h]
  | cons a rest ih =>
    obtain ⟨k3, v3⟩ := a
    unfold BcMap.assign
    split_ifs with h1 h2
    · simp [BcMap.find, h]
    · subst h2
      simp [BcMap.find, h]
    · simp [BcMap.find, ih]

theorem fill_find_absent (l : List (Nat × Bc)) (m : BcMap) (k : Int)
    (h : ∀ p ∈ l, (p.2.globalBC : Int) ≠ k) :
    (fillMapGlobalBCtoBcId l m).find k = m.find k := by
  induction l generalizing m with
  | nil => rfl
  | cons p rest ih =>
    obtain ⟨n, bc⟩ := p
    unfold fillMapGlobalBCtoBcId
    rw [ih _ (fun q hq => h q (List.mem_cons_of_mem _ hq))]
    exact find_assign_ne m _ _ k (fun hk => h (n, bc) (List.mem_cons_self _ _) hk.symm)

theorem fill_find_present (l : List (Nat × Bc)) (m : BcMap)
    (hd : l.Pairwise (fun p q => p.2.globalBC ≠ q.2.globalBC)) (n : Nat) (b : Bc)
    (h : (n, b) ∈ l) :
    (fillMapGlobalBCtoBcId l m).find b.globalBC = some (n : Int) := by
  induction l generalizing m with
  | nil => simp at h
  | cons p rest ih =>
    obtain ⟨n0, b0⟩ := p
    rw [List.pairwise_cons] at hd
    unfold fillMapGlobalBCtoBcId
    rcases List.mem_cons.1 h with heq | hmem
    · simp only [Prod.mk.injEq] at heq
      obtain ⟨rfl, rfl⟩ := heq
      rw [fill_find_absent rest _ _ (fun q hq hk => hd.1 q hq (by exact_mod_cast hk.symm))]
      exact find_assign_self m _ _
    · exact ih _ hd.2 hmem

theorem MapFull_build (bcs : List Bc) (hd : DistinctBCs bcs) :
    MapFull bcs (fillMapGlobalBCtoBcId bcs.enum []) := by
  intro n b hb
  apply fill_find_present
  · have h2 : (List.map Prod.snd bcs.enum).Pairwise (fun a b => a.globalBC ≠ b.globalBC) := by
      rw [List.enum_map_snd]
      exact hd
    exact (List.pairwise_map (f := Prod.snd) (R := fun a b : Bc => a.globalBC ≠ b.globalBC)).1 h2
  · exact List.mk_mem_enum_iff_getElem?.2 hb

theorem MapFull_subscript (bcs : List Bc) (m : BcMap) (k : Int) (h : MapFull bcs m) :
    MapFull bcs (m.subscript k).2 := by
  unfold BcMap.subscript
  cases hf : m.find k with
  | some v => exact h
  | none =>
    intro n b hb
    have hfind := h n b hb
    have hne : (b.globalBC : Int) ≠ k := by
      intro hk
      rw [hk, hf] at hfind
      exact Option.noConfusion hfind
    show (m.assign k 0).find b.globalBC = some (n : Int)
    rw [find_assign_ne m k 0 _ hne]
    exact hfind

/-- The alias word of a BC whose key is the global BC of the BC at index `n`:
the aliases fired by the trigger mask of that BC, unless `n` is 0. -/
theorem aliasRun3_found (env : Env) (bcs : List Bc) (shift : Int) (m : BcMap) (bc : Bc)
    (h : MapFull bcs m) (n : Nat) (t : Bc) (ht : bcs[n]? = some t)
    (hkey : (t.globalBC : Int) = triggerKey bc shift) :
    ∃ m2, aliasRun3 env bcs shift m bc = some
        (if n = 0 then (0 ||| BIT env.kALL) % 2 ^ 32
         else (fillAliases t.triggerMask (env.aliases bc.timestamp).aliasToTriggerMask 0
            ||| BIT env.kALL) % 2 ^ 32, m2) ∧ MapFull bcs m2 := by
  have hfind := h n t ht
  rw [hkey] at hfind
  have hsub : m.subscript (triggerKey bc shift) = ((n : Int), m) := by
    simp [BcMap.subscript, hfind]
  refine ⟨m, ?_, h⟩
  by_cases hn : n = 0
  · subst hn
    simp [aliasRun3, hsub]
  · have hn2 : ((n : Int) != 0) = true := by
      simp only [bne_iff_ne, ne_eq]
      exact_mod_cast hn
    simp [aliasRun3, hsub, hn2, ht, hn]

theorem aliasLoop_found (env : Env) (hk : env.kALL < 32) (bcs : List Bc) (shift : Int)
    (todo : List Bc) (m : BcMap) (hv : MapValid bcs m) (hf : MapFull bcs m) :
    ∃ l, aliasLoop env bcs shift todo m = some l ∧
      ∀ (i : Nat) (bc : Bc), todo[i]? = some bc → ∀ (n : Nat) (t : Bc), bcs[n]? = some t →
        (t.globalBC : Int) = triggerKey bc shift →
        l[i]? = some
          (if n = 0 then (0 ||| BIT env.kALL) % 2 ^ 32
           else (fillAliases t.triggerMask (env.aliases bc.timestamp).aliasToTriggerMask 0
              ||| BIT env.kALL) % 2 ^ 32) := by
  induction todo generalizing m with
  | nil => exact ⟨[], rfl, by simp⟩
  | cons bc rest ih =>
    obtain ⟨a, m2, hrun, hm2, -, -⟩ := aliasRun3_spec env hk bcs shift m bc hv
    have hfull2 : MapFull bcs m2 := by
      have : m2 = (m.subscript (triggerKey bc shift)).2 := by
        unfold aliasRun3 at hrun
        simp only [] at hrun
        split at hrun
        · split at hrun
          · exact Option.noConfusion hrun
          · simp at hrun
            exact hrun.2.symm
        · simp at hrun
          exact hrun.2.symm
      rw [this]
      exact MapFull_subscript bcs m _ hf
    obtain ⟨l, hl, hall⟩ := ih m2 hm2 hfull2
    refine ⟨a :: l, by simp [aliasLoop, hrun, hl], ?_⟩
    intro i b hi n t ht hkey
    cases i with
    | zero =>
      simp at hi
      subst hi
      obtain ⟨m3, hrun3, -⟩ := aliasRun3_found env bcs shift m bc hf n t ht hkey
      rw [hrun] at hrun3
      simp at hrun3
      simp [hrun3.1]
    | succ i =>
      simp at hi
      simpa using hall i b hi n t ht hkey

theorem BIT_testBit (n j : Nat) (hj : j < 64) : (BIT n).testBit j = decide (n = j) := by
  unfold BIT
  rw [Nat.one_shiftLeft, Nat.testBit_mod_two_pow, Nat.testBit_two_pow]
  simp [hj]

/-- The bits of the alias word after the loop over an alias table. -/
theorem fillAliases_testBit (mask : Nat) (table : List (Nat × Nat)) (a0 j : Nat)
    (hj : j < 32) :
    (fillAliases mask table a0).testBit j =
      (a0.testBit j || table.any (fun al => decide (al.1 = j) && (mask &&& al.2 != 0))) := by
  induction table generalizing a0 with
  | nil => simp [fillAliases]
  | cons al rest ih =>
    have ih2 := ih
    unfold fillAliases at ih2 ⊢
    rw [List.foldl_cons, ih2, List.any_cons]
    by_cases hm : (mask &&& al.2 != 0) = true
    · simp only [hm, if_true, Nat.testBit_mod_two_pow, Nat.testBit_or,
        BIT_testBit al.1 j (by omega), hj, decide_True, Bool.true_and, Bool.and_true,
        Bool.or_assoc]
    · simp only [hm, Bool.and_false, Bool.false_or]
      simp

/-- The alias word `processRun3` emits for a BC whose key
`globalBC + triggerBcShift` is the global BC of the BC at index `n` of a batch
with distinct global BCs.  For `n ≠ 0` its bits below 32 are `kALL` and the
aliases whose mask meets the trigger mask of that BC; for `n = 0`, the first
BC of the batch, it is `BIT(kALL)` alone. -/
theorem processRun3Aliases_shifted_bc (env : Env) (hk : env.kALL < 32) (conf : Int)
    (bcs : List Bc) (hd : DistinctBCs bcs) (first : Bc) (hfirst : bcs[0]? = some first)
    (i : Nat) (bc : Bc) (hi : bcs[i]? = some bc) (n : Nat) (t : Bc) (ht : bcs[n]? = some t)
    (hkey : (t.globalBC : Int) = triggerKey bc (triggerBcShift conf first.runNumber)) :
    ∃ l a, processRun3Aliases env conf bcs = some l ∧ l[i]? = some a ∧
      (n = 0 → a = BIT env.kALL) ∧
      (n ≠ 0 → ∀ j, j < 32 → (a.testBit j = true ↔ j = env.kALL ∨
        ∃ al ∈ (env.aliases bc.timestamp).aliasToTriggerMask,
          al.1 = j ∧ t.triggerMask &&& al.2 ≠ 0)) := by
  cases hb : bcs with
  | nil => simp [hb] at hfirst
  | cons f rest =>
    have hf : f = first := by
      rw [hb] at hfirst
      simpa using hfirst
    subst hf
    obtain ⟨l, hl, hall⟩ := aliasLoop_found env hk bcs (triggerBcShift conf f.runNumber) bcs _
      (MapValid_build bcs) (MapFull_build bcs hd)
    have hli := hall i bc hi n t ht hkey
    rw [← hb]
    refine ⟨l, _, ?_, hli, ?_, ?_⟩
    · simp only [processRun3Aliases]
      rw [hb] at hl ⊢
      exact hl
    · intro hn
      rw [if_pos hn]
      exact zero_or_BIT _ hk
    · intro hn j hj
      simp only [hn, if_false, Nat.testBit_mod_two_pow, Nat.testBit_or,
        BIT_testBit env.kALL j (by omega), fillAliases_testBit _ _ 0 j hj, hj, decide_True,
        Bool.true_and, Nat.zero_testBit, Bool.false_or, Bool.or_eq_true, List.any_eq_true,
        Bool.and_eq_true, decide_eq_true_eq, bne_iff_ne, ne_eq]
      constructor
      · rintro (h | h)
        · exact Or.inr h
        · exact Or.inl h.symm
      · rintro (h | h)
        · exact Or.inr h.symm
        · exact Or.inl h

/-! ## `BcSelectionTask::processRun3`: the trigger BC shift -/

/-- Counterexample to C9 as stated. With the option at 999 run number 526900
maps to the shift 0, not to 294. -/
theorem triggerBcShift_526900 :
    triggerBcShift 999 526900 = 0 ∧ triggerBcShift 999 526900 ≠ 294 := by
  decide

/-- C9, as the code has it. With the option at 999 every run number from
526886 to 527237, run number 526900 among them, maps to the shift 0. -/
theorem triggerBcShift_second_range (run : Int) (h1 : 526886 ≤ run) (h2 : run ≤ 527237) :
    triggerBcShift 999 run = 0 := by
  simp only [triggerBcShift, autoTriggerBcShift, if_true]
  rw [if_pos]
  exact Or.inr (Or.inl ⟨h1, h2⟩)

/-- Witness for C9 as amended: run number 526900. -/
theorem triggerBcShift_second_range_witness : triggerBcShift 999 526900 = 0 :=
  triggerBcShift_second_range 526900 (by decide) (by decide)

/-- C10. With the option at 999 every run number up to 526766 maps to the
shift 0 and every run number maps to 0 or to 294; with any other configured
value the shift is the configured value, whatever the run number. -/
theorem triggerBcShift_default_and_override (conf run : Int) :
    (run ≤ 526766 → triggerBcShift 999 run = 0) ∧
    (triggerBcShift 999 run = 0 ∨ triggerBcShift 999 run = 294) ∧
    (conf ≠ 999 → triggerBcShift conf run = conf) := by
  refine ⟨?_, ?_, ?_⟩
  · intro h
    simp only [triggerBcShift, autoTriggerBcShift, if_true]
    rw [if_pos]
    exact Or.inl h
  · simp only [triggerBcShift, autoTriggerBcShift, if_true]
    split_ifs
    · exact Or.inl rfl
    · exact Or.inr rfl
  · intro h
    simp [triggerBcShift, h]

/-- Witness for C10: run number 526766 with the option at 999 and at 294. -/
theorem triggerBcShift_default_and_override_witness :
    triggerBcShift 999 526766 = 0 ∧ triggerBcShift 294 526766 = 294 :=
  ⟨(triggerBcShift_default_and_override 294 526766).1 (by decide),
    (triggerBcShift_default_and_override 294 526766).2.2 (by decide)⟩

/-! ## Rounding to `float` and to `double` -/

theorem roundHalfEven_intCast (m : Int) : roundHalfEven (m : ℚ) = m := by
  unfold roundHalfEven
  simp

/-- The value of `roundHalfEven` from the integer below and the fraction. -/
theorem roundHalfEven_eq (x : ℚ) (m : Int) (h1 : (m : ℚ) ≤ x) (h2 : x < m + 1) :
    roundHalfEven x =
      if x - m < 1 / 2 then m else if 1 / 2 < x - m then m + 1
      else if m % 2 = 0 then m else m + 1 := by
  have hf : ⌊x⌋ = m := Int.floor_eq_iff.2 ⟨h1, h2⟩
  unfold roundHalfEven
  simp only [hf]

theorem log_two_eq (a : ℚ) (e : Int) (ha : 0 < a) (h1 : (2 : ℚ) ^ e ≤ a)
    (h2 : a < (2 : ℚ) ^ (e + 1)) : Int.log 2 a = e := by
  have hle : e ≤ Int.log 2 a := (Int.zpow_le_iff_le_log (by norm_num) ha).1 (by exact_mod_cast h1)
  have hlt : Int.log 2 a < e + 1 := (Int.lt_zpow_iff_log_lt (by norm_num) ha).1 (by exact_mod_cast h2)
  omega

/-- Rounding of a positive value in the binade of exponent `e`. -/
theorem roundPos_binade (p : Nat) (emin : Int) (a : ℚ) (e : Int) (ha : 0 < a)
    (h1 : (2 : ℚ) ^ e ≤ a) (h2 : a < (2 : ℚ) ^ (e + 1)) (he : emin ≤ e) :
    roundPos p emin a
      = (roundHalfEven (a / 2 ^ (e - ((p : Int) - 1))) : ℚ) * 2 ^ (e - ((p : Int) - 1)) := by
  unfold roundPos
  simp only [log_two_eq a e ha h1 h2, max_eq_left he]

/-- A value of the format is its own rounding. -/
theorem roundTo_representable (p : Nat) (emin : Int) (a : ℚ) (e m : Int) (ha : 0 < a)
    (h1 : (2 : ℚ) ^ e ≤ a) (h2 : a < (2 : ℚ) ^ (e + 1)) (he : emin ≤ e)
    (hm : a = (m : ℚ) * 2 ^ (e - ((p : Int) - 1))) : roundTo p emin a = a := by
  have hu : (0 : ℚ) < 2 ^ (e - ((p : Int) - 1)) := zpow_pos (by norm_num) _
  have hq : a / 2 ^ (e - ((p : Int) - 1)) = (m : ℚ) := by
    rw [hm]
    field_simp
  unfold roundTo
  rw [if_neg (ne_of_gt ha), if_pos ha, roundPos_binade p emin a e ha h1 h2 he, hq,
    roundHalfEven_intCast, ← hm]

theorem roundFloat_tie : roundFloat 16777217 = 16777216 := by
  unfold roundFloat roundTo
  rw [if_neg (by norm_num), if_pos (by norm_num),
    roundPos_binade 24 (-126) 16777217 24 (by norm_num) (by norm_num) (by norm_num) (by norm_num),
    roundHalfEven_eq _ 8388608 (by norm_num) (by norm_num)]
  norm_num

/-! ## The selection word of `BcSelectionTask` -/

theorem TESTBIT_zero (j : Nat) : TESTBIT 0 j = false := by
  simp [TESTBIT]

theorem TESTBIT_setIf (s : Nat) (c : Bool) (k j : Nat) (hj : j < 64) :
    TESTBIT (setIf s c k) j = (TESTBIT s j || (c && decide (k = j))) := by
  rw [TESTBIT_eq_testBit _ _ hj, TESTBIT_eq_testBit _ _ hj]
  unfold setIf
  cases c
  · simp
  · simp [Nat.testBit_or, BIT_testBit k j hj]

theorem cutBit_eq_testBit (eventCuts k : Nat) : cutBit eventCuts k = eventCuts.testBit k := by
  unfold cutBit
  rw [Nat.one_shiftLeft, Nat.and_two_pow]
  cases hb : eventCuts.testBit k <;> simp

theorem Flags.WF.lt_64 {fl : Flags} (h : fl.WF) (f : Flag) : fl.bit f < 64 :=
  lt_of_lt_of_le (h.2.1 f) h.2.2

theorem Flags.WF.eq_iff {fl : Flags} (h : fl.WF) (f g : Flag) : fl.bit f = fl.bit g ↔ f = g :=
  h.1.eq_iff

theorem sampleFlags_WF : sampleFlags.WF := by
  refine ⟨?_, ?_, by decide⟩
  · intro f g h
    cases f <;> cases g <;> first | rfl | exact absurd h (by decide)
  · intro f
    cases f <;> decide

/-- What `bcselRun2` returns when it returns: the ring arrays are those of the
two loops and every other column is computed from the BC. -/
theorem bcselRun2_eq (fl : Flags) (ccdb : Nat → EventSelectionParams) (alias0 : Nat) (bc : Bc)
    (r : BcSelRow) (h : Option Int) (hr : bcselRun2 fl ccdb alias0 bc = some (r, h)) :
    multRing false 5 bc.fv0a = some r.multRingV0A ∧
    multRing false 4 bc.fv0c = some r.multRingV0C ∧
    r.bbV0A = inWindow (timeOr bc.fv0a FV0.time) (ccdb bc.timestamp).fV0ABBlower
      (ccdb bc.timestamp).fV0ABBupper ∧
    r.bbV0C = inWindow (timeOr bc.fv0c FV0.time) (ccdb bc.timestamp).fV0CBBlower
      (ccdb bc.timestamp).fV0CBBupper ∧
    r.bbFDA = inWindow (timeOr bc.fdd FDD.timeA) (ccdb bc.timestamp).fFDABBlower
      (ccdb bc.timestamp).fFDABBupper ∧
    r.bbFDC = inWindow (timeOr bc.fdd FDD.timeC) (ccdb bc.timestamp).fFDCBBlower
      (ccdb bc.timestamp).fFDCBBupper ∧
    r.bgV0A = inWindow (timeOr bc.fv0a FV0.time) (ccdb bc.timestamp).fV0ABGlower
      (ccdb bc.timestamp).fV0ABGupper ∧
    r.bgV0C = inWindow (timeOr bc.fv0c FV0.time) (ccdb bc.timestamp).fV0CBGlower
      (ccdb bc.timestamp).fV0CBGupper ∧
    r.bgFDA = inWindow (timeOr bc.fdd FDD.timeA) (ccdb bc.timestamp).fFDABGlower
      (ccdb bc.timestamp).fFDABGupper ∧
    r.bgFDC = inWindow (timeOr bc.fdd FDD.timeC) (ccdb bc.timestamp).fFDCBGlower
      (ccdb bc.timestamp).fFDCBGupper ∧
    r.selection = selectionRun2 fl (ccdb bc.timestamp) bc r.bbV0A r.bbV0C r.bbFDA r.bbFDC
      r.bgV0A r.bgV0C r.bgFDA r.bgFDC r.multRingV0A r.multRingV0C := by
  unfold bcselRun2 at hr
  cases hA : multRing false 5 bc.fv0a with
  | none => simp [hA] at hr
  | some mA =>
    cases hC : multRing false 4 bc.fv0c with
    | none => simp [hA, hC] at hr
    | some mC =>
      simp only [hA, hC, Option.some.injEq, Prod.mk.injEq] at hr
      obtain ⟨hr, -⟩ := hr
      subst hr
      exact ⟨rfl, rfl, rfl, rfl, rfl, rfl, rfl, rfl, rfl, rfl, rfl⟩

/-- A BC without FV0 signals always gets its Run 2 record. -/
theorem bcselRun2_returns (fl : Flags) (ccdb : Nat → EventSelectionParams) (alias0 : Nat)
    (bc : Bc) (hA : bc.fv0a = none) (hC : bc.fv0c = none) :
    ∃ r h, bcselRun2 fl ccdb alias0 bc = some (r, h) := by
  simp [bcselRun2, multRing, hA, hC]

/-- The records of `BcSelectionTask::processRun2` are those of the loop body,
one per BC and in order. -/
theorem processRun2_rows (env : Env) (fl : Flags) (ccdb : Nat → EventSelectionParams)
    (bcs : List Bc) (rows : List (BcSelRow × Option Int))
    (h : BcSelectionTask.processRun2 env fl ccdb bcs = some rows) :
    rows.length = bcs.length ∧
    ∀ (i : Nat) (bc : Bc), bcs[i]? = some bc →
      ∃ r, rows[i]? = some r ∧ bcselRun2 fl ccdb (aliasRun2 env bc) bc = some r := by
  unfold BcSelectionTask.processRun2 at h
  induction bcs generalizing rows with
  | nil =>
    simp [bcLoopRun2] at h
    subst h
    simp
  | cons b rest ih =>
    unfold bcLoopRun2 at h
    cases hb : bcselRun2 fl ccdb (aliasRun2 env b) b with
    | none => simp [hb] at h
    | some r =>
      cases hl : bcLoopRun2 env fl ccdb rest with
      | none => simp [hb, hl] at h
      | some l =>
        simp [hb, hl] at h
        subst h
        obtain ⟨hlen, hall⟩ := ih l hl
        refine ⟨by simp [hlen], ?_⟩
        intro i bc hi
        cases i with
        | zero =>
          simp at hi
          subst hi
          exact ⟨r, by simp, hb⟩
        | succ i =>
          simp at hi
          simpa using hall i bc hi

/-- A BC without detector signals whose `eventCuts` word has bit 0 set and
whose V0 trigger charge is 1. -/
theorem sampleRun2_returns :
    ∃ r h, bcselRun2 sampleFlags (fun _ => samplePar) 0
      { eventCuts := 1, v0TriggerChargeA := 1 } = some (r, h) :=
  bcselRun2_returns sampleFlags (fun _ => samplePar) 0 _ rfl rfl

/-- C15. In the record `BcSelectionTask::processRun2` emits for a BC each
of the ten bits copied from `eventCuts` is decided by one bit of that word:
six are set iff their source bit is set, four are set iff their source bit is
clear. -/
theorem legacy_bits_copied (fl : Flags) (hwf : fl.WF) (ccdb : Nat → EventSelectionParams)
    (alias0 : Nat) (bc : Bc) (r : BcSelRow) (h : Option Int)
    (hr : bcselRun2 fl ccdb alias0 bc = some (r, h)) :
    TESTBIT r.selection (fl.bit .kIsGoodTimeRange) = bc.eventCuts.testBit fl.kTimeRangeCut ∧
    TESTBIT r.selection (fl.bit .kNoIncompleteDAQ) = bc.eventCuts.testBit fl.kIncompleteDAQ ∧
    TESTBIT r.selection (fl.bit .kNoInconsistentVtx)
      = bc.eventCuts.testBit fl.kConsistencySPDandTrackVertices ∧
    TESTBIT r.selection (fl.bit .kNoPileupInMultBins)
      = bc.eventCuts.testBit fl.kPileupInMultBins ∧
    TESTBIT r.selection (fl.bit .kNoPileupMV) = bc.eventCuts.testBit fl.kPileUpMV ∧
    TESTBIT r.selection (fl.bit .kNoPileupTPC) = bc.eventCuts.testBit fl.kTPCPileUp ∧
    TESTBIT r.selection (fl.bit .kNoTPCLaserWarmUp)
      = !bc.eventCuts.testBit fl.kIsTPCLaserWarmUp ∧
    TESTBIT r.selection (fl.bit .kNoTPCHVdip) = !bc.eventCuts.testBit fl.kIsTPCHVdip ∧
    TESTBIT r.selection (fl.bit .kNoPileupFromSPD)
      = !bc.eventCuts.testBit fl.kIsPileupFromSPD ∧
    TESTBIT r.selection (fl.bit .kNoV0PFPileup) = !bc.eventCuts.testBit fl.kIsV0PFPileup := by
  have hsel := (bcselRun2_eq fl ccdb alias0 bc r h hr).2.2.2.2.2.2.2.2.2.2
  rw [hsel]
  refine ⟨?_, ?_, ?_, ?_, ?_, ?_, ?_, ?_, ?_, ?_⟩ <;>
  · simp only [selectionRun2, TESTBIT_setIf _ _ _ _ (hwf.lt_64 _), TESTBIT_zero, hwf.eq_iff,
      cutBit_eq_testBit]
    simp

/-- Witness for C15: the BC of `sampleRun2_returns`, whose `eventCuts` word is 1. -/
theorem legacy_bits_copied_witness :
    ∃ r h, bcselRun2 sampleFlags (fun _ => samplePar) 0
        { eventCuts := 1, v0TriggerChargeA := 1 } = some (r, h) ∧
      TESTBIT r.selection (sampleFlags.bit .kIsGoodTimeRange) = true ∧
      TESTBIT r.selection (sampleFlags.bit .kNoTPCHVdip) = true ∧
      TESTBIT r.selection (sampleFlags.bit .kNoIncompleteDAQ) = false := by
  obtain ⟨r, h, hr⟩ := sampleRun2_returns
  have hb := legacy_bits_copied sampleFlags sampleFlags_WF (fun _ => samplePar) 0
    { eventCuts := 1, v0TriggerChargeA := 1 } r h hr
  refine ⟨r, h, hr, ?_, ?_, ?_⟩
  · rw [hb.1]
    decide
  · rw [hb.2.2.2.2.2.2.2.1]
    decide
  · rw [hb.2.1]
    decide

/-- The three bits of the on-line against off-line cuts in a Run 2 record. -/
theorem bcselRun2_pileup_bits (fl : Flags) (hwf : fl.WF)
    (ccdb : Nat → EventSelectionParams) (alias0 : Nat) (bc : Bc) (r : BcSelRow)
    (h : Option Int) (hr : bcselRun2 fl ccdb alias0 bc = some (r, h)) :
    (TESTBIT r.selection (fl.bit .kNoV0MOnVsOfPileup) = true ↔
      ((bc.v0TriggerChargeA + bc.v0TriggerChargeC : Nat) : ℚ) >
        linearBound (ccdb bc.timestamp).fV0MOnVsOfA (ccdb bc.timestamp).fV0MOnVsOfB
          (roundFloat (roundFloat (multTotal bc.fv0a + multTotal bc.fv0c)
            - r.multRingV0A.getD 0 0))) ∧
    (TESTBIT r.selection (fl.bit .kNoSPDOnVsOfPileup) = true ↔
      ((bc.spdFiredFastOrL0 + bc.spdFiredFastOrL1 : Nat) : ℚ) >
        linearBound (ccdb bc.timestamp).fSPDOnVsOfA (ccdb bc.timestamp).fSPDOnVsOfB
          ((bc.spdFiredChipsL0 + bc.spdFiredChipsL1 : Nat) : ℚ)) ∧
    (TESTBIT r.selection (fl.bit .kNoV0Casymmetry) = true ↔
      r.multRingV0C.getD 3 0 >
        linearBound (ccdb bc.timestamp).fV0CasymA (ccdb bc.timestamp).fV0CasymB
          (roundFloat (roundFloat (r.multRingV0C.getD 0 0 + r.multRingV0C.getD 1 0)
            + r.multRingV0C.getD 2 0))) := by
  have hsel := (bcselRun2_eq fl ccdb alias0 bc r h hr).2.2.2.2.2.2.2.2.2.2
  rw [hsel]
  refine ⟨?_, ?_, ?_⟩ <;>
  · simp only [selectionRun2, TESTBIT_setIf _ _ _ _ (hwf.lt_64 _), TESTBIT_zero, hwf.eq_iff]
    simp

theorem getD_set_add (mult : List ℚ) (ring k : Nat) (v : ℚ) (h : ring < mult.length) :
    (mult.set ring v).getD k 0 = if ring = k then v else mult.getD k 0 := by
  simp only [List.getD_eq_getElem?_getD, List.getElem?_set, h, if_true]
  split_ifs <;> rfl

/-- The ring loop: when every channel has its ring inside the array, the loop
ends and each entry is the `float` accumulation, from the value it had, of the
amplitudes of the channels of its ring, in the order of the channels. -/
theorem ringSums_spec (foldOuter : Bool) (amplitude : List ℚ) (channel : List Nat)
    (mult : List ℚ) (hlen : amplitude.length ≤ channel.length)
    (hch : ∀ c ∈ channel, ringIndex foldOuter c < mult.length) :
    ∃ out, ringSums foldOuter amplitude channel mult = some out ∧ out.length = mult.length ∧
      (∀ k, out.getD k 0 = accumulate (mult.getD k 0)
        (((amplitude.zip channel).filter (fun p => ringIndex foldOuter p.2 == k)).map
          Prod.fst)) := by
  induction amplitude generalizing channel mult with
  | nil => exact ⟨mult, by simp [ringSums], rfl, by simp [accumulate]⟩
  | cons a amps ih =>
    cases channel with
    | nil => simp at hlen
    | cons c cs =>
      have hc := hch c (List.mem_cons_self _ _)
      have hlen2 : amps.length ≤ cs.length := by simpa using hlen
      obtain ⟨out, hout, hl, hk⟩ := ih cs
        (mult.set (ringIndex foldOuter c)
          (roundFloat (mult.getD (ringIndex foldOuter c) 0 + a))) hlen2
        (by
          intro c2 hc2
          rw [List.length_set]
          exact hch c2 (List.mem_cons_of_mem _ hc2))
      refine ⟨out, by simp only [ringSums, hc, if_true, hout], by rw [hl, List.length_set], ?_⟩
      intro k
      rw [hk k, getD_set_add _ _ _ _ hc, List.zip_cons_cons, List.filter_cons]
      by_cases hr : ringIndex foldOuter c = k
      · simp [hr, accumulate]
      · simp [hr]

theorem ringIndex_run3_lt (c : Nat) (h : c < 48) : ringIndex true c < 5 := by
  unfold ringIndex
  simp only [Bool.true_and, beq_iff_eq]
  split_ifs <;> omega

/-- The walk ends, and the row the cursor stops on plus the number of steps
taken back is the row it started from. -/
theorem walkBack_restores (bcs : List Bc) (globalBC : Nat) (cursor count : Nat) (bg : BgTimes)
    (h : cursor < bcs.length) :
    ∃ w, walkBack bcs globalBC cursor count bg = some w ∧
      w.cursor + w.backwardMoveCount = cursor + count ∧ w.backwardMoveCount ≤ cursor + count := by
  induction cursor generalizing count bg with
  | zero => exact ⟨_, rfl, by simp, by simp⟩
  | succ c ih =>
    have h1 : bcs[c + 1]? = some bcs[c + 1] := List.getElem?_eq_getElem h
    have h0 : bcs[c]? = some bcs[c] := List.getElem?_eq_getElem (by omega)
    by_cases hcond : (bcs[c + 1].globalBC + 6) % 2 ^ 64 ≥ globalBC
    · obtain ⟨w, hw, hsum, hle⟩ := ih (count + 1) (sampleBg globalBC bcs[c] bg) (by omega)
      refine ⟨w, ?_, by omega, by omega⟩
      simp only [walkBack, h1, h0, hcond, if_true]
      exact hw
    · refine ⟨{ cursor := c + 1, backwardMoveCount := count, bg := bg }, ?_, rfl, ?_⟩
      · simp only [walkBack, h1, hcond, if_false]
      · show count ≤ c + 1 + count
        omega

/-- The body of the loop fills the record from the BC the loop is at: the BC
under the cursor after the walk and the move back is that BC. -/
theorem bcselRun3_eq (fl : Flags) (ccdb : Nat → EventSelectionParams) (bcs : List Bc)
    (alias0 position : Nat) (start : Bc) (hs : bcs[position]? = some start) :
    ∃ w, walkBack bcs start.globalBC position 0 {} = some w ∧
      w.cursor + w.backwardMoveCount = position ∧
      bcselRun3 fl ccdb bcs alias0 position start =
        fillBcSelRun3 fl (ccdb start.timestamp) alias0 start w.bg start := by
  have hlt : position < bcs.length := (List.getElem?_eq_some.1 hs).1
  obtain ⟨w, hw, hsum, -⟩ := walkBack_restores bcs start.globalBC position 0 {} hlt
  refine ⟨w, hw, by simpa using hsum, ?_⟩
  have hsum2 : w.cursor + w.backwardMoveCount = position := by simpa using hsum
  simp only [bcselRun3, hw, hsum2, hs]

/-- What `fillBcSelRun3` returns when it returns. -/
theorem fillBcSelRun3_eq (fl : Flags) (par : EventSelectionParams) (alias0 : Nat)
    (start : Bc) (bg : BgTimes) (bc : Bc) (r : BcSelRow) (h : Option Int)
    (hr : fillBcSelRun3 fl par alias0 start bg bc = some (r, h)) :
    multRing true 5 bc.fv0a = some r.multRingV0A ∧
    r.multRingV0C = List.replicate 4 0 ∧
    r.alias_raw = alias0 ∧
    r.bbV0A = inWindow (timeOr start.fv0a FV0.time) par.fV0ABBlower par.fV0ABBupper ∧
    r.bbFDA = inWindow (timeOr start.fdd FDD.timeA) par.fFDABBlower par.fFDABBupper ∧
    r.bbFDC = inWindow (timeOr start.fdd FDD.timeC) par.fFDCBBlower par.fFDCBBupper ∧
    r.bgV0A = inWindow bg.timeV0ABG par.fV0ABGlower par.fV0ABGupper ∧
    r.bgFDA = inWindow bg.timeFDABG par.fFDABGlower par.fFDABGupper ∧
    r.bgFDC = inWindow bg.timeFDCBG par.fFDCBGlower par.fFDCBGupper ∧
    r.bbV0C = false ∧ r.bgV0C = false ∧
    r.selection = selectionRun3 fl par (timeOr start.zdc Zdc.timeZNA)
      (timeOr start.zdc Zdc.timeZNC) (timeOr start.ft0 FT0.timeA) (timeOr start.ft0 FT0.timeC)
      r.bbV0A r.bbFDA r.bbFDC r.bgV0A r.bgFDA r.bgFDC
      (inWindow bg.timeT0ABG par.fT0ABGlower par.fT0ABGupper)
      (inWindow bg.timeT0CBG par.fT0CBGlower par.fT0CBGupper) bc ∧
    r.foundFT0 = indexOr bc.ft0 FT0.globalIndex ∧ r.foundFV0 = indexOr bc.fv0a FV0.globalIndex ∧
    r.foundFDD = indexOr bc.fdd FDD.globalIndex ∧ r.foundZDC = indexOr bc.zdc Zdc.globalIndex ∧
    h = (if TESTBIT r.selection (fl.bit .kIsTriggerTVX) then some bc.runNumber else none) := by
  unfold fillBcSelRun3 at hr
  cases hA : multRing true 5 bc.fv0a with
  | none => simp [hA] at hr
  | some mA =>
    simp only [hA, Option.some.injEq, Prod.mk.injEq] at hr
    obtain ⟨hr, hh⟩ := hr
    subst hr
    exact ⟨rfl, rfl, rfl, rfl, rfl, rfl, rfl, rfl, rfl, rfl, rfl, rfl, rfl, rfl, rfl, rfl,
      hh.symm⟩

/-- The record is filled whenever the ring loop of the BC stays inside the array. -/
theorem fillBcSelRun3_returns (fl : Flags) (par : EventSelectionParams) (alias0 : Nat)
    (start : Bc) (bg : BgTimes) (bc : Bc) (mult : List ℚ)
    (hA : multRing true 5 bc.fv0a = some mult) :
    ∃ r h, fillBcSelRun3 fl par alias0 start bg bc = some (r, h) := by
  simp [fillBcSelRun3, hA]

/-- The ring loop of Run 3 stays inside the array when the channels are below 48. -/
theorem multRing_run3_returns (signal : Option FV0)
    (hok : ∀ f, signal = some f →
      f.amplitude.length ≤ f.channel.length ∧ ∀ c ∈ f.channel, c < 48) :
    ∃ mult, multRing true 5 signal = some mult := by
  cases signal with
  | none => exact ⟨_, rfl⟩
  | some f =>
    obtain ⟨hlen, hch⟩ := hok f rfl
    obtain ⟨out, hout, -⟩ := ringSums_spec true f.amplitude f.channel (List.replicate 5 0) hlen
      (by
        intro c hc
        rw [List.length_replicate]
        exact ringIndex_run3_lt c (hch c hc))
    exact ⟨out, hout⟩

theorem aliasRun3_defined (env : Env) (bcs : List Bc) (shift : Int) (m : BcMap) (bc : Bc)
    (h : MapValid bcs m) :
    ∃ a m2, aliasRun3 env bcs shift m bc = some (a, m2) ∧ MapValid bcs m2 := by
  have hv := subscript_value bcs m (triggerKey bc shift) h
  have hm2 := MapValid_subscript bcs m (triggerKey bc shift) h
  by_cases h0 : (m.subscript (triggerKey bc shift)).1 = 0
  · exact ⟨(0 ||| BIT env.kALL) % 2 ^ 32, (m.subscript (triggerKey bc shift)).2,
      by simp [aliasRun3, h0], hm2⟩
  · rcases hv with hv | ⟨-, b, hb, -⟩
    · exact absurd hv h0
    · exact ⟨(fillAliases b.triggerMask (env.aliases bc.timestamp).aliasToTriggerMask 0
          ||| BIT env.kALL) % 2 ^ 32, (m.subscript (triggerKey bc shift)).2,
        by simp [aliasRun3, h0, hb], hm2⟩

/-- The loop of `processRun3` over a tail of the batch: when the ring loops
stay inside their arrays it emits one record per BC, in order, each filled
from the BC of its row. -/
theorem bcLoopRun3_spec (env : Env) (fl : Flags) (ccdb : Nat → EventSelectionParams)
    (bcs : List Bc) (shift : Int)
    (hring : ∀ bc ∈ bcs, ∀ f, bc.fv0a = some f →
      f.amplitude.length ≤ f.channel.length ∧ ∀ c ∈ f.channel, c < 48)
    (todo : List Bc) (position : Nat) (m : BcMap) (hm : MapValid bcs m)
    (htodo : ∀ (i : Nat) (bc : Bc), todo[i]? = some bc → bcs[position + i]? = some bc) :
    ∃ rows, bcLoopRun3 env fl ccdb bcs shift todo position m = some rows ∧
      rows.length = todo.length ∧
      ∀ (i : Nat) (bc : Bc), todo[i]? = some bc →
        ∃ r alias0 bg, rows[i]? = some r ∧
          fillBcSelRun3 fl (ccdb bc.timestamp) alias0 bc bg bc = some r := by
  induction todo generalizing position m with
  | nil => exact ⟨[], rfl, rfl, by simp⟩
  | cons start rest ih =>
    have hs : bcs[position]? = some start := by simpa using htodo 0 start (by simp)
    obtain ⟨a, m2, ha, hm2⟩ := aliasRun3_defined env bcs shift m start hm
    obtain ⟨w, -, -, heq⟩ := bcselRun3_eq fl ccdb bcs a position start hs
    obtain ⟨mult, hmult⟩ := multRing_run3_returns start.fv0a
      (hring start (List.getElem?_mem hs))
    obtain ⟨r, h, hr⟩ := fillBcSelRun3_returns fl (ccdb start.timestamp) a start w.bg start
      mult hmult
    obtain ⟨rows, hrows, hlen, hall⟩ := ih (position + 1) m2 hm2 (by
      intro i bc hi
      have := htodo (i + 1) bc (by simpa using hi)
      rw [← this]
      congr 1
      omega)
    refine ⟨(r, h) :: rows, ?_, by simp [hlen], ?_⟩
    · simp only [bcLoopRun3, ha, heq, hr, hrows]
    · intro i bc hi
      cases i with
      | zero =>
        simp at hi
        subst hi
        exact ⟨(r, h), a, w.bg, by simp, hr⟩
      | succ i =>
        simp at hi
        simpa using hall i bc hi

/-- C16. `BcSelectionTask::processRun3` emits one `bcsel` record per BC of
the batch, in order, each filled from the BC of its row: the walk over the
preceding BCs ends with the cursor as many rows back as steps were counted, so
after `moveByIndex` the detector indices, the TVX bit and the run number are
read from the BC the loop is at.  Batches with a ring write outside the array
(a channel from 48 on) have no defined run and are left out. -/
theorem processRun3_one_record_per_bc (env : Env) (fl : Flags)
    (ccdb : Nat → EventSelectionParams) (conf : Int) (bcs : List Bc)
    (hne : bcs ≠ [] ∨ conf ≠ 999)
    (hring : ∀ bc ∈ bcs, ∀ f, bc.fv0a = some f →
      f.amplitude.length ≤ f.channel.length ∧ ∀ c ∈ f.channel, c < 48) :
    (∀ (position : Nat) (start : Bc), bcs[position]? = some start →
      ∃ w, walkBack bcs start.globalBC position 0 {} = some w ∧
        w.cursor + w.backwardMoveCount = position) ∧
    ∃ rows, BcSelectionTask.processRun3 env fl ccdb conf bcs = some rows ∧
      rows.length = bcs.length ∧
      ∀ (i : Nat) (bc : Bc), bcs[i]? = some bc →
        ∃ r h alias0 bg, rows[i]? = some (r, h) ∧
          fillBcSelRun3 fl (ccdb bc.timestamp) alias0 bc bg bc = some (r, h) ∧
          r.foundFT0 = indexOr bc.ft0 FT0.globalIndex ∧
          r.foundFV0 = indexOr bc.fv0a FV0.globalIndex ∧
          r.foundFDD = indexOr bc.fdd FDD.globalIndex ∧
          r.foundZDC = indexOr bc.zdc Zdc.globalIndex ∧
          r.bbV0A = inWindow (timeOr bc.fv0a FV0.time) (ccdb bc.timestamp).fV0ABBlower
            (ccdb bc.timestamp).fV0ABBupper ∧
          h = (if TESTBIT r.selection (fl.bit .kIsTriggerTVX) then some bc.runNumber
            else none) := by
  constructor
  · intro position start hs
    obtain ⟨w, hw, hsum, -⟩ := bcselRun3_eq fl ccdb bcs 0 position start hs
    exact ⟨w, hw, hsum⟩
  · cases hb : bcs with
    | nil =>
      have hc : conf ≠ 999 := by
        rcases hne with h | h
        · exact absurd hb h
        · exact h
      exact ⟨[], by simp [BcSelectionTask.processRun3, hc], rfl, by simp⟩
    | cons first rest =>
      obtain ⟨rows, hrows, hlen, hall⟩ := bcLoopRun3_spec env fl ccdb bcs
        (triggerBcShift conf first.runNumber) hring bcs 0 _ (MapValid_build bcs)
        (by
          intro i bc hi
          simpa using hi)
      rw [← hb]
      refine ⟨rows, ?_, hlen, ?_⟩
      · simp only [BcSelectionTask.processRun3]
        rw [hb] at hrows ⊢
        exact hrows
      · intro i bc hi
        obtain ⟨r, alias0, bg, hri, hfill⟩ := hall i bc hi
        obtain ⟨r, h⟩ := r
        have he := fillBcSelRun3_eq fl (ccdb bc.timestamp) alias0 bc bg bc r h hfill
        exact ⟨r, h, alias0, bg, hri, hfill, he.2.2.2.2.2.2.2.2.2.2.2.2.1,
          he.2.2.2.2.2.2.2.2.2.2.2.2.2.1, he.2.2.2.2.2.2.2.2.2.2.2.2.2.2.1,
          he.2.2.2.2.2.2.2.2.2.2.2.2.2.2.2.1, he.2.2.2.1, he.2.2.2.2.2.2.2.2.2.2.2.2.2.2.2.2⟩

/-- Witness for C16: the two BCs of `sampleTriggerBcs`, without FV0 signal. -/
theorem processRun3_one_record_per_bc_witness :
    ∃ rows, BcSelectionTask.processRun3 sampleEnv sampleFlags (fun _ => samplePar) 0
        sampleTriggerBcs = some rows ∧ rows.length = sampleTriggerBcs.length :=
  have h := (processRun3_one_record_per_bc sampleEnv sampleFlags (fun _ => samplePar) 0
    sampleTriggerBcs (Or.inr (by decide)) (by
      intro bc hbc f hf
      simp [sampleTriggerBcs] at hbc
      rcases hbc with rfl | rfl <;> simp at hf)).2
  ⟨h.choose, h.choose_spec.1, h.choose_spec.2.1⟩

/-- The `float` values `0.1f` and `0.2f` and their `float` sum. -/
theorem roundFloat_tenths :
    roundFloat (13421773 / 134217728) = 13421773 / 134217728 ∧
    roundFloat (13421773 / 134217728 + 13421773 / 67108864) = 5033165 / 16777216 := by
  constructor
  · exact roundTo_representable 24 (-126) _ (-4) 13421773 (by norm_num) (by norm_num)
      (by norm_num) (by norm_num) (by norm_num)
  · unfold roundFloat roundTo
    rw [if_neg (by norm_num), if_pos (by norm_num),
      roundPos_binade 24 (-126) _ (-2) (by norm_num) (by norm_num) (by norm_num)
        (by norm_num),
      roundHalfEven_eq _ 10066329 (by norm_num) (by norm_num)]
    norm_num

/-- The bound `0.7f + 0.1f * 3` is 1 in `float`; the exact value of that
expression is below 1. -/
theorem linearBound_tenths :
    linearBound (11744051 / 16777216) (13421773 / 134217728) 3 = 1 ∧
    (11744051 / 16777216 + 13421773 / 134217728 * 3 : ℚ) < 1 := by
  refine ⟨?_, by norm_num⟩
  have h3 : (13421773 / 134217728 * 3 : ℚ) = 13421773 / 134217728 + 13421773 / 67108864 := by
    norm_num
  have h1 : (11744051 / 16777216 + 5033165 / 16777216 : ℚ) = 1 := by norm_num
  have hone : roundFloat 1 = 1 :=
    roundTo_representable 24 (-126) 1 0 8388608 (by norm_num) (by norm_num) (by norm_num)
      (by norm_num) (by norm_num)
  rw [linearBound, h3, roundFloat_tenths.2, h1, hone]

/-- The bound of the cut is the `float` one: for the BC of `sampleChargeBc`
under `sampleParTenths` the on-line estimator is 1 and the off-line one 3, the
exact value of `0.7f + 0.1f * 3` is below 1, and the bit `kNoV0MOnVsOfPileup`
is clear, the `float` bound being 1. -/
theorem pileup_bound_in_float :
    ∃ r h, bcselRun2 sampleFlags (fun _ => sampleParTenths) 0 sampleChargeBc = some (r, h) ∧
      TESTBIT r.selection (sampleFlags.bit .kNoV0MOnVsOfPileup) = false := by
  have h3 : roundFloat 3 = 3 :=
    roundTo_representable 24 (-126) 3 1 12582912 (by norm_num) (by norm_num) (by norm_num)
      (by norm_num) (by norm_num)
  have hring : ringIndex false 8 = 1 := by decide
  have hA : multRing false 5 sampleChargeBc.fv0a = some [0, 3, 0, 0, 0] := by
    simp only [sampleChargeBc, multRing, ringSums, hring, List.replicate, List.length_cons,
      List.length_nil]
    simp [h3]
  have hC : multRing false 4 sampleChargeBc.fv0c = some [0, 0, 0, 0] := rfl
  have hret : ∃ r h, bcselRun2 sampleFlags (fun _ => sampleParTenths) 0 sampleChargeBc
      = some (r, h) := by
    simp [bcselRun2, hA, hC]
  obtain ⟨r, h, hr⟩ := hret
  refine ⟨r, h, hr, ?_⟩
  have he := bcselRun2_eq _ _ _ _ r h hr
  have hrA : r.multRingV0A = [0, 3, 0, 0, 0] := by
    have := he.1
    rw [hA] at this
    exact (Option.some.inj this).symm
  have hbit := (bcselRun2_pileup_bits sampleFlags sampleFlags_WF (fun _ => sampleParTenths) 0
    sampleChargeBc r h hr).1
  have hof : roundFloat (roundFloat (multTotal sampleChargeBc.fv0a
      + multTotal sampleChargeBc.fv0c) - r.multRingV0A.getD 0 0) = 3 := by
    rw [hrA]
    simp [sampleChargeBc, multTotal, accumulate, h3]
  rw [hof] at hbit
  have hb : linearBound sampleParTenths.fV0MOnVsOfA sampleParTenths.fV0MOnVsOfB 3 = 1 :=
    linearBound_tenths.1
  have hb2 : linearBound ((fun _ : Nat => sampleParTenths) sampleChargeBc.timestamp).fV0MOnVsOfA
      ((fun _ : Nat => sampleParTenths) sampleChargeBc.timestamp).fV0MOnVsOfB 3 = 1 := hb
  rw [hb2] at hbit
  rw [Bool.eq_false_iff]
  intro hset
  have := hbit.1 hset
  norm_num [sampleChargeBc] at this

/-! ## Timing bits of the selection word -/

/-- The bits of the Run 2 selection word decided by the FT0 and ZN times. -/
theorem selectionRun2_timing_bits (fl : Flags) (hwf : fl.WF) (par : EventSelectionParams)
    (bc : Bc) (bbV0A bbV0C bbFDA bbFDC bgV0A bgV0C bgFDA bgFDC : Bool)
    (multRingV0A multRingV0C : List ℚ) :
    TESTBIT (selectionRun2 fl par bc bbV0A bbV0C bbFDA bbFDC bgV0A bgV0C bgFDA bgFDC
        multRingV0A multRingV0C) (fl.bit .kIsBBT0A)
      = inWindow (timeOr bc.ft0 FT0.timeA) par.fT0ABBlower par.fT0ABBupper ∧
    TESTBIT (selectionRun2 fl par bc bbV0A bbV0C bbFDA bbFDC bgV0A bgV0C bgFDA bgFDC
        multRingV0A multRingV0C) (fl.bit .kIsBBT0C)
      = inWindow (timeOr bc.ft0 FT0.timeC) par.fT0CBBlower par.fT0CBBupper ∧
    TESTBIT (selectionRun2 fl par bc bbV0A bbV0C bbFDA bbFDC bgV0A bgV0C bgFDA bgFDC
        multRingV0A multRingV0C) (fl.bit .kIsBBZNA)
      = inWindow (timeOr bc.zdc Zdc.timeZNA) par.fZNABBlower par.fZNABBupper ∧
    TESTBIT (selectionRun2 fl par bc bbV0A bbV0C bbFDA bbFDC bgV0A bgV0C bgFDA bgFDC
        multRingV0A multRingV0C) (fl.bit .kIsBBZNC)
      = inWindow (timeOr bc.zdc Zdc.timeZNC) par.fZNCBBlower par.fZNCBBupper ∧
    TESTBIT (selectionRun2 fl par bc bbV0A bbV0C bbFDA bbFDC bgV0A bgV0C bgFDA bgFDC
        multRingV0A multRingV0C) (fl.bit .kIsBBZAC)
      = znEllipse par (roundFloat (timeOr bc.zdc Zdc.timeZNA + timeOr bc.zdc Zdc.timeZNC))
          (roundFloat (timeOr bc.zdc Zdc.timeZNA - timeOr bc.zdc Zdc.timeZNC)) := by
  refine ⟨?_, ?_, ?_, ?_, ?_⟩ <;>
  · simp only [selectionRun2, TESTBIT_setIf _ _ _ _ (hwf.lt_64 _), TESTBIT_zero, hwf.eq_iff]
    simp

/-- The bits of the Run 3 selection word decided by the FT0 and ZN times. -/
theorem selectionRun3_timing_bits (fl : Flags) (hwf : fl.WF) (par : EventSelectionParams)
    (timeZNA timeZNC timeT0A timeT0C : ℚ)
    (bbV0A bbFDA bbFDC bgV0A bgFDA bgFDC bgT0A bgT0C : Bool) (bc : Bc) :
    TESTBIT (selectionRun3 fl par timeZNA timeZNC timeT0A timeT0C bbV0A bbFDA bbFDC bgV0A
        bgFDA bgFDC bgT0A bgT0C bc) (fl.bit .kIsBBT0A)
      = inWindow timeT0A par.fT0ABBlower par.fT0ABBupper ∧
    TESTBIT (selectionRun3 fl par timeZNA timeZNC timeT0A timeT0C bbV0A bbFDA bbFDC bgV0A
        bgFDA bgFDC bgT0A bgT0C bc) (fl.bit .kIsBBT0C)
      = inWindow timeT0C par.fT0CBBlower par.fT0CBBupper ∧
    TESTBIT (selectionRun3 fl par timeZNA timeZNC timeT0A timeT0C bbV0A bbFDA bbFDC bgV0A
        bgFDA bgFDC bgT0A bgT0C bc) (fl.bit .kIsBBZNA)
      = inWindow timeZNA par.fZNABBlower par.fZNABBupper ∧
    TESTBIT (selectionRun3 fl par timeZNA timeZNC timeT0A timeT0C bbV0A bbFDA bbFDC bgV0A
        bgFDA bgFDC bgT0A bgT0C bc) (fl.bit .kIsBBZNC)
      = inWindow timeZNC par.fZNCBBlower par.fZNCBBupper ∧
    TESTBIT (selectionRun3 fl par timeZNA timeZNC timeT0A timeT0C bbV0A bbFDA bbFDC bgV0A
        bgFDA bgFDC bgT0A bgT0C bc) (fl.bit .kIsBBZAC)
      = znEllipse par (roundFloat (timeZNA + timeZNC)) (roundFloat (timeZNA - timeZNC)) := by
  refine ⟨?_, ?_, ?_, ?_, ?_⟩ <;>
  · simp only [selectionRun3, TESTBIT_setIf _ _ _ _ (hwf.lt_64 _), TESTBIT_zero, hwf.eq_iff]
    simp

theorem inWindow_sentinel (lower upper : ℚ) (h : ExcludesSentinel lower upper) :
    inWindow (-999) lower upper = false := by
  unfold ExcludesSentinel at h
  unfold inWindow
  rw [Bool.eq_false_iff]
  intro hw
  simp only [gt_iff_lt, Bool.and_eq_true, decide_eq_true_eq] at hw
  exact h hw

/-- C11, as the code has it. A test on the signal of a detector the BC does
not have is the test on the time `-999`: it is false for every window that
does not contain `-999`.  In `processRun2` this holds of the beam-beam and
beam-gas flags of FV0A, FV0C and FDD and of the beam-beam bits of FT0 and ZN;
in `processRun3` of the beam-beam flags and bits, while `bbV0C` and `bgV0C` are
always false there. -/
theorem absent_signal_windows (fl : Flags) (hwf : fl.WF) (ccdb : Nat → EventSelectionParams)
    (bc : Bc) :
    (∀ alias0 r h, bcselRun2 fl ccdb alias0 bc = some (r, h) →
      (bc.fv0a = none →
        (ExcludesSentinel (ccdb bc.timestamp).fV0ABBlower (ccdb bc.timestamp).fV0ABBupper →
          r.bbV0A = false) ∧
        (ExcludesSentinel (ccdb bc.timestamp).fV0ABGlower (ccdb bc.timestamp).fV0ABGupper →
          r.bgV0A = false)) ∧
      (bc.fv0c = none →
        (ExcludesSentinel (ccdb bc.timestamp).fV0CBBlower (ccdb bc.timestamp).fV0CBBupper →
          r.bbV0C = false) ∧
        (ExcludesSentinel (ccdb bc.timestamp).fV0CBGlower (ccdb bc.timestamp).fV0CBGupper →
          r.bgV0C = false)) ∧
      (bc.fdd = none →
        (ExcludesSentinel (ccdb bc.timestamp).fFDABBlower (ccdb bc.timestamp).fFDABBupper →
          r.bbFDA = false) ∧
        (ExcludesSentinel (ccdb bc.timestamp).fFDCBBlower (ccdb bc.timestamp).fFDCBBupper →
          r.bbFDC = false) ∧
        (ExcludesSentinel (ccdb bc.timestamp).fFDABGlower (ccdb bc.timestamp).fFDABGupper →
          r.bgFDA = false) ∧
        (ExcludesSentinel (ccdb bc.timestamp).fFDCBGlower (ccdb bc.timestamp).fFDCBGupper →
          r.bgFDC = false)) ∧
      (bc.ft0 = none →
        (ExcludesSentinel (ccdb bc.timestamp).fT0ABBlower (ccdb bc.timestamp).fT0ABBupper →
          TESTBIT r.selection (fl.bit .kIsBBT0A) = false) ∧
        (ExcludesSentinel (ccdb bc.timestamp).fT0CBBlower (ccdb bc.timestamp).fT0CBBupper →
          TESTBIT r.selection (fl.bit .kIsBBT0C) = false)) ∧
      (bc.zdc = none →
        (ExcludesSentinel (ccdb bc.timestamp).fZNABBlower (ccdb bc.timestamp).fZNABBupper →
          TESTBIT r.selection (fl.bit .kIsBBZNA) = false) ∧
        (ExcludesSentinel (ccdb bc.timestamp).fZNCBBlower (ccdb bc.timestamp).fZNCBBupper →
          TESTBIT r.selection (fl.bit .kIsBBZNC) = false))) ∧
    (∀ bcs alias0 position r h, bcs[position]? = some bc →
      bcselRun3 fl ccdb bcs alias0 position bc = some (r, h) →
      (bc.fv0a = none →
        ExcludesSentinel (ccdb bc.timestamp).fV0ABBlower (ccdb bc.timestamp).fV0ABBupper →
          r.bbV0A = false) ∧
      (bc.fdd = none →
        (ExcludesSentinel (ccdb bc.timestamp).fFDABBlower (ccdb bc.timestamp).fFDABBupper →
          r.bbFDA = false) ∧
        (ExcludesSentinel (ccdb bc.timestamp).fFDCBBlower (ccdb bc.timestamp).fFDCBBupper →
          r.bbFDC = false)) ∧
      (bc.ft0 = none →
        (ExcludesSentinel (ccdb bc.timestamp).fT0ABBlower (ccdb bc.timestamp).fT0ABBupper →
          TESTBIT r.selection (fl.bit .kIsBBT0A) = false) ∧
        (ExcludesSentinel (ccdb bc.timestamp).fT0CBBlower (ccdb bc.timestamp).fT0CBBupper →
          TESTBIT r.selection (fl.bit .kIsBBT0C) = false)) ∧
      (bc.zdc = none →
        (ExcludesSentinel (ccdb bc.timestamp).fZNABBlower (ccdb bc.timestamp).fZNABBupper →
          TESTBIT r.selection (fl.bit .kIsBBZNA) = false) ∧
        (ExcludesSentinel (ccdb bc.timestamp).fZNCBBlower (ccdb bc.timestamp).fZNCBBupper →
          TESTBIT r.selection (fl.bit .kIsBBZNC) = false)) ∧
      r.bbV0C = false ∧ r.bgV0C = false) := by
  constructor
  · intro alias0 r h hr
    obtain ⟨-, -, hbbV0A, hbbV0C, hbbFDA, hbbFDC, hbgV0A, hbgV0C, hbgFDA, hbgFDC, hsel⟩ :=
      bcselRun2_eq fl ccdb alias0 bc r h hr
    have hbits := selectionRun2_timing_bits fl hwf (ccdb bc.timestamp) bc r.bbV0A r.bbV0C
      r.bbFDA r.bbFDC r.bgV0A r.bgV0C r.bgFDA r.bgFDC r.multRingV0A r.multRingV0C
    rw [← hsel] at hbits
    refine ⟨?_, ?_, ?_, ?_, ?_⟩
    · intro hn
      rw [hbbV0A, hbgV0A, hn]
      exact ⟨inWindow_sentinel _ _, inWindow_sentinel _ _⟩
    · intro hn
      rw [hbbV0C, hbgV0C, hn]
      exact ⟨inWindow_sentinel _ _, inWindow_sentinel _ _⟩
    · intro hn
      rw [hbbFDA, hbbFDC, hbgFDA, hbgFDC, hn]
      exact ⟨inWindow_sentinel _ _, inWindow_sentinel _ _, inWindow_sentinel _ _,
        inWindow_sentinel _ _⟩
    · intro hn
      rw [hbits.1, hbits.2.1, hn]
      exact ⟨inWindow_sentinel _ _, inWindow_sentinel _ _⟩
    · intro hn
      rw [hbits.2.2.1, hbits.2.2.2.1, hn]
      exact ⟨inWindow_sentinel _ _, inWindow_sentinel _ _⟩
  · intro bcs alias0 position r h hs hr
    obtain ⟨w, -, -, heq⟩ := bcselRun3_eq fl ccdb bcs alias0 position bc hs
    rw [heq] at hr
    obtain ⟨-, -, -, hbbV0A, hbbFDA, hbbFDC, -, -, -, hbbV0C, hbgV0C, hsel, -⟩ :=
      fillBcSelRun3_eq fl _ alias0 bc w.bg bc r h hr
    have hbits := selectionRun3_timing_bits fl hwf (ccdb bc.timestamp)
      (timeOr bc.zdc Zdc.timeZNA) (timeOr bc.zdc Zdc.timeZNC) (timeOr bc.ft0 FT0.timeA)
      (timeOr bc.ft0 FT0.timeC) r.bbV0A r.bbFDA r.bbFDC r.bgV0A r.bgFDA r.bgFDC
      (inWindow w.bg.timeT0ABG (ccdb bc.timestamp).fT0ABGlower (ccdb bc.timestamp).fT0ABGupper)
      (inWindow w.bg.timeT0CBG (ccdb bc.timestamp).fT0CBGlower (ccdb bc.timestamp).fT0CBGupper)
      bc
    rw [← hsel] at hbits
    refine ⟨?_, ?_, ?_, ?_, hbbV0C, hbgV0C⟩
    · intro hn
      rw [hbbV0A, hn]
      exact inWindow_sentinel _ _
    · intro hn
      rw [hbbFDA, hbbFDC, hn]
      exact ⟨inWindow_sentinel _ _, inWindow_sentinel _ _⟩
    · intro hn
      rw [hbits.1, hbits.2.1, hn]
      exact ⟨inWindow_sentinel _ _, inWindow_sentinel _ _⟩
    · intro hn
      rw [hbits.2.2.1, hbits.2.2.2.1, hn]
      exact ⟨inWindow_sentinel _ _, inWindow_sentinel _ _⟩

/-- Witness for C11 as amended: the BC of `sampleRun2_returns`, without any
signal, under `samplePar`, whose V0A beam-beam window is `(-1, 1)`. -/
theorem absent_signal_windows_witness :
    ∃ r h, bcselRun2 sampleFlags (fun _ => samplePar) 0
        { eventCuts := 1, v0TriggerChargeA := 1 } = some (r, h) ∧ r.bbV0A = false := by
  obtain ⟨r, h, hr⟩ := sampleRun2_returns
  exact ⟨r, h, hr, ((absent_signal_windows sampleFlags sampleFlags_WF (fun _ => samplePar)
    { eventCuts := 1, v0TriggerChargeA := 1 }).1 0 r h hr).1 rfl |>.1
      (by norm_num [ExcludesSentinel, samplePar])⟩

/-- Counterexample to C11 as stated. Under `sampleParWide`, whose V0A
beam-beam window `(-1000, 1)` contains `-999`, a Run 2 BC without FV0A signal
has `bbV0A` true.  Under `samplePar`, whose windows do not contain `-999`, the
second BC of `sampleRun3Bcs` has no FV0A signal and yet `bgV0A` true in
`processRun3`: the flag is the test on the FV0A time -15 of the BC one bunch
crossing earlier. -/
theorem absent_signal_flag_true :
    (∃ r h, bcselRun2 sampleFlags (fun _ => sampleParWide) 0
        { eventCuts := 1, v0TriggerChargeA := 1 } = some (r, h) ∧ r.bbV0A = true) ∧
    (∃ r h, bcselRun3 sampleFlags (fun _ => samplePar) sampleRun3Bcs 0 1 { globalBC := 100 }
        = some (r, h) ∧ ({ globalBC := 100 } : Bc).fv0a = none ∧
      ExcludesSentinel samplePar.fV0ABGlower samplePar.fV0ABGupper ∧ r.bgV0A = true) := by
  constructor
  · obtain ⟨r, h, hr⟩ := bcselRun2_returns sampleFlags (fun _ => sampleParWide) 0
      { eventCuts := 1, v0TriggerChargeA := 1 } rfl rfl
    refine ⟨r, h, hr, ?_⟩
    rw [(bcselRun2_eq _ _ _ _ r h hr).2.2.1]
    norm_num [inWindow, timeOr, sampleParWide, samplePar]
  · have hs : sampleRun3Bcs[1]? = some ({ globalBC := 100 } : Bc) := rfl
    obtain ⟨w, hw, -, heq⟩ := bcselRun3_eq sampleFlags (fun _ => samplePar) sampleRun3Bcs 0 1
      { globalBC := 100 } hs
    obtain ⟨r, h, hr⟩ := fillBcSelRun3_returns sampleFlags samplePar 0 { globalBC := 100 }
      w.bg { globalBC := 100 } (List.replicate 5 0) rfl
    have hwalk : walkBack sampleRun3Bcs 100 1 0 {} = some
        { cursor := 0, backwardMoveCount := 1, bg := { timeV0ABG := -15 } } := by
      simp [walkBack, sampleRun3Bcs, sampleBg, timeOr]
    have hbg : w.bg.timeV0ABG = -15 := by
      have hw2 : walkBack sampleRun3Bcs 100 1 0 {} = some w := hw
      rw [hwalk] at hw2
      rw [← Option.some.inj hw2]
    refine ⟨r, h, heq.trans hr, rfl, by norm_num [ExcludesSentinel, samplePar], ?_⟩
    rw [(fillBcSelRun3_eq _ _ _ _ _ _ r h hr).2.2.2.2.2.2.1, hbg]
    norm_num [inWindow, samplePar]

/-! ## `EventSelectionTask::processRun2`: the recipe and `sel7` -/

theorem foldl_and_eq (f : Nat → Bool) (l : List Nat) (b : Bool) :
    l.foldl (fun acc i => acc && f i) b = (b && l.all f) := by
  induction l generalizing b with
  | nil => simp
  | cons x xs ih =>
    rw [List.foldl_cons, ih, List.all_cons, Bool.and_assoc]

/-- The loop of `sel7` ends with `sel7` set iff every active bit is set. -/
theorem sel7Loop_iff (kNsel : Nat) (applySelection : List Bool) (selection : Nat) :
    sel7Loop kNsel applySelection selection = true ↔
      ∀ i, i < kNsel → applySelection.getD i false = true → TESTBIT selection i = true := by
  unfold sel7Loop
  rw [foldl_and_eq (fun i => if applySelection.getD i false then TESTBIT selection i else true),
    Bool.true_and, List.all_eq_true]
  constructor
  · intro h i hi ha
    have := h i (List.mem_range.2 hi)
    rw [if_pos ha] at this
    exact this
  · intro h i hi
    by_cases ha : applySelection.getD i false = true
    · rw [if_pos ha]
      exact h i (List.mem_range.1 hi) ha
    · rw [if_neg ha]

theorem getD_set_false (l : List Bool) (n i : Nat) :
    (l.set n false).getD i false = (decide (n ≠ i) && l.getD i false) := by
  simp only [List.getD_eq_getElem?_getD, List.getElem?_set]
  by_cases h : n = i
  · subst h
    by_cases hl : n < l.length <;> simp [hl]
  · simp [h]

/-- The array after the statements under `if (isMC)`: the entries of the five
bits of `mcDisabled` are cleared when `isMC` is set, nothing else changes. -/
theorem mcOverride_getD (fl : Flags) (isMC : Bool) (a : List Bool) (i : Nat) :
    (mcOverride fl isMC a).getD i false =
      (a.getD i false && !(isMC && decide (i ∈ mcDisabled fl))) := by
  cases isMC
  · simp [mcOverride]
  · simp only [mcOverride, if_true, getD_set_false, mcDisabled, List.mem_cons,
      List.mem_singleton, List.not_mem_nil, or_false, Bool.true_and]
    rw [Bool.eq_iff_iff]
    simp only [Bool.and_eq_true, decide_eq_true_eq, Bool.not_eq_true', decide_eq_false_iff_not,
      ne_eq, @eq_comm _ i]
    tauto

theorem mcOverride_length (fl : Flags) (isMC : Bool) (a : List Bool) :
    (mcOverride fl isMC a).length = a.length := by
  cases isMC <;> simp [mcOverride]

theorem mcOverride_false (fl : Flags) (a : List Bool) : mcOverride fl false a = a := by
  simp [mcOverride]

/-- What `processRun2` returns for a collision whose BC exists. -/
theorem processRun2_eq (fl : Flags) (ccdb : Nat → EventSelectionParams) (isMC : Bool)
    (recipe : List Bool) (bcs : List BcWithSel) (col : Collision) (bc : BcWithSel)
    (hbc : bcs[col.bcId]? = some bc) :
    ∃ r, EventSelectionTask.processRun2 fl ccdb isMC recipe bcs col
        = some (r, mcOverride fl isMC recipe) ∧
      r.selection = selectionEvRun2 fl (ccdb bc.timestamp) bc (countTracklets fl col) ∧
      r.sel7 = sel7Loop fl.kNsel (mcOverride fl isMC recipe) r.selection := by
  simp only [EventSelectionTask.processRun2, hbc]
  exact ⟨_, rfl, rfl, rfl⟩

/-- C12. In `EventSelectionTask::processRun2` the emitted `sel7` is true iff
every bit `i < kNsel` whose entry `applySelection[i]` is set when the loop
runs (the array as fetched, or with the five entries cleared under `isMC`) is
set in the selection word of the event, which is that of the BC with the two
tracklet bits; so when one active bit alone is unset, the record fails, and
with the recipe entry of that bit cleared it passes. -/
theorem sel7_iff_active_bits_set (fl : Flags) (ccdb : Nat → EventSelectionParams)
    (isMC : Bool) (recipe : List Bool) (bcs : List BcWithSel) (col : Collision)
    (bc : BcWithSel) (hbc : bcs[col.bcId]? = some bc) :
    ∃ r, EventSelectionTask.processRun2 fl ccdb isMC recipe bcs col
        = some (r, mcOverride fl isMC recipe) ∧
      (isMC = false → mcOverride fl isMC recipe = recipe) ∧
      r.selection = bc.selection_raw
        ||| (if decide ((bc.spdClusters : ℚ) < (ccdb bc.timestamp).fSPDClsVsTklA
              + countTracklets fl col * (ccdb bc.timestamp).fSPDClsVsTklB)
            then BIT (fl.bit .kNoSPDClsVsTklBG) else 0)
        ||| (if !(decide (countTracklets fl col < 6) &&
              decide (bc.multRingV0C.getD 0 0 + bc.multRingV0C.getD 1 0
                + bc.multRingV0C.getD 2 0 > (ccdb bc.timestamp).fV0C012vsTklA
                + countTracklets fl col * (ccdb bc.timestamp).fV0C012vsTklB))
            then BIT (fl.bit .kNoV0C012vsTklBG) else 0) ∧
      (r.sel7 = true ↔ ∀ i, i < fl.kNsel →
        (mcOverride fl isMC recipe).getD i false = true → TESTBIT r.selection i = true) ∧
      (∀ j, j < fl.kNsel → (mcOverride fl isMC recipe).getD j false = true →
        TESTBIT r.selection j = false →
        (∀ i, i < fl.kNsel → i ≠ j → (mcOverride fl isMC recipe).getD i false = true →
          TESTBIT r.selection i = true) →
        r.sel7 = false ∧
        ∃ r2, EventSelectionTask.processRun2 fl ccdb isMC (recipe.set j false) bcs col
            = some (r2, mcOverride fl isMC (recipe.set j false)) ∧ r2.sel7 = true) := by
  obtain ⟨r, hr, hsel, hsel7⟩ := processRun2_eq fl ccdb isMC recipe bcs col bc hbc
  have hiff : r.sel7 = true ↔ ∀ i, i < fl.kNsel →
      (mcOverride fl isMC recipe).getD i false = true → TESTBIT r.selection i = true := by
    rw [hsel7]
    exact sel7Loop_iff _ _ _
  refine ⟨r, hr, ?_, ?_, hiff, ?_⟩
  · intro h
    rw [h]
    exact mcOverride_false fl recipe
  · rw [hsel]
    rfl
  · intro j hj hact hunset hothers
    constructor
    · rw [Bool.eq_false_iff]
      intro h7
      have := hiff.1 h7 j hj hact
      rw [hunset] at this
      exact Bool.false_ne_true this
    · obtain ⟨r2, hr2, hsel2, hsel72⟩ :=
        processRun2_eq fl ccdb isMC (recipe.set j false) bcs col bc hbc
      refine ⟨r2, hr2, ?_⟩
      rw [hsel72, sel7Loop_iff, hsel2, ← hsel]
      intro i hi ha
      rw [mcOverride_getD, getD_set_false] at ha
      simp only [Bool.and_eq_true, decide_eq_true_eq] at ha
      apply hothers i hi (fun h => ha.1.1 h.symm)
      rw [mcOverride_getD]
      simp only [Bool.and_eq_true]
      exact ⟨ha.1.2, ha.2⟩

/-- Witness for C12: the collision of `sampleCol` on the first BC of
`sampleBcs`, with the recipe `sampleRecipe` and `isMC` off. -/
theorem sel7_iff_active_bits_set_witness :
    ∃ r, EventSelectionTask.processRun2 sampleFlags (fun _ => samplePar) false sampleRecipe
        sampleBcs sampleCol = some (r, mcOverride sampleFlags false sampleRecipe) ∧
      (r.sel7 = true ↔ ∀ i, i < sampleFlags.kNsel →
        (mcOverride sampleFlags false sampleRecipe).getD i false = true →
          TESTBIT r.selection i = true) := by
  obtain ⟨r, hr, -, -, hiff, -⟩ := sel7_iff_active_bits_set sampleFlags (fun _ => samplePar)
    false sampleRecipe sampleBcs sampleCol
    { globalBC := 100, foundFV0Id := 5, foundFDDId := 6, foundZDCId := 7 } rfl
  exact ⟨r, hr, hiff⟩

/-- C17, as the code has it. `EventSelectionTask::processRun2` leaves the
array behind `par->GetSelection(muonSelection)` as it found it when `isMC` is
off; when `isMC` is set it clears the entries of the five bits of `mcDisabled`
in that array and changes no other entry. -/
theorem processRun2_recipe_after_call (fl : Flags) (ccdb : Nat → EventSelectionParams)
    (isMC : Bool) (recipe : List Bool) (bcs : List BcWithSel) (col : Collision)
    (bc : BcWithSel) (hbc : bcs[col.bcId]? = some bc) :
    ∃ r after, EventSelectionTask.processRun2 fl ccdb isMC recipe bcs col = some (r, after) ∧
      after.length = recipe.length ∧
      (isMC = false → after = recipe) ∧
      (isMC = true → ∀ i, after.getD i false
        = (recipe.getD i false && !decide (i ∈ mcDisabled fl))) := by
  obtain ⟨r, hr, -⟩ := processRun2_eq fl ccdb isMC recipe bcs col bc hbc
  refine ⟨r, _, hr, mcOverride_length fl isMC recipe, ?_, ?_⟩
  · intro h
    rw [h]
    exact mcOverride_false fl recipe
  · intro h i
    rw [mcOverride_getD, h, Bool.true_and]

/-- Witness for C17 as amended: the collision of `sampleCol` with `isMC` set. -/
theorem processRun2_recipe_after_call_witness :
    ∃ r after, EventSelectionTask.processRun2 sampleFlags (fun _ => samplePar) true
        sampleRecipe sampleBcs sampleCol = some (r, after) ∧
      after.length = sampleRecipe.length ∧
      (true = false → after = sampleRecipe) ∧
      (true = true → ∀ i, after.getD i false
        = (sampleRecipe.getD i false && !decide (i ∈ mcDisabled sampleFlags))) :=
  processRun2_recipe_after_call sampleFlags (fun _ => samplePar) true sampleRecipe sampleBcs
    sampleCol { globalBC := 100, foundFV0Id := 5, foundFDDId := 6, foundZDCId := 7 } rfl

/-- Counterexample to C17 as stated. With `isMC` set the call on the
collision of `sampleCol` returns with entry `kIsBBZAC` of the recipe array
cleared, while it was set before the call. -/
theorem processRun2_recipe_mutated :
    ∃ r after, EventSelectionTask.processRun2 sampleFlags (fun _ => samplePar) true
        sampleRecipe sampleBcs sampleCol = some (r, after) ∧
      sampleRecipe.getD (sampleFlags.bit .kIsBBZAC) false = true ∧
      after.getD (sampleFlags.bit .kIsBBZAC) false = false ∧ after ≠ sampleRecipe := by
  obtain ⟨r, hr, -⟩ := processRun2_eq sampleFlags (fun _ => samplePar) true sampleRecipe
    sampleBcs sampleCol { globalBC := 100, foundFV0Id := 5, foundFDDId := 6, foundZDCId := 7 }
    rfl
  exact ⟨r, _, hr, by decide, by decide, by decide⟩

theorem selectionEvRun2_testBit (fl : Flags) (par : EventSelectionParams) (bc : BcWithSel)
    (nTkl : Int) (i : Nat) (hi : i < 64) :
    TESTBIT (selectionEvRun2 fl par bc nTkl) i =
      (TESTBIT bc.selection_raw i ||
        (decide ((bc.spdClusters : ℚ) < par.fSPDClsVsTklA + nTkl * par.fSPDClsVsTklB) &&
          decide (fl.bit .kNoSPDClsVsTklBG = i)) ||
        (!(decide (nTkl < 6) &&
            decide (bc.multRingV0C.getD 0 0 + bc.multRingV0C.getD 1 0 + bc.multRingV0C.getD 2 0
              > par.fV0C012vsTklA + nTkl * par.fV0C012vsTklB)) &&
          decide (fl.bit .kNoV0C012vsTklBG = i))) := by
  simp only [selectionEvRun2, TESTBIT_setIf _ _ _ _ hi]

/-- C18. With `isMC` set, two events whose BCs differ only in the five
selection bits of `mcDisabled` get the same `sel7`, whatever the recipe; and
the array the loop of `sel7` reads is the recipe with the entries of those
five bits cleared and no other entry changed. -/
theorem sel7_blind_to_mc_bits (fl : Flags) (hwf : fl.WF) (ccdb : Nat → EventSelectionParams)
    (recipe : List Bool) (bcs1 bcs2 : List BcWithSel) (col : Collision) (bc1 bc2 : BcWithSel)
    (h1 : bcs1[col.bcId]? = some bc1) (h2 : bcs2[col.bcId]? = some bc2)
    (hsame : bc2 = { bc1 with selection_raw := bc2.selection_raw })
    (hbits : ∀ i, i < fl.kNsel → i ∉ mcDisabled fl →
      TESTBIT bc1.selection_raw i = TESTBIT bc2.selection_raw i) :
    ∃ r1 r2 after,
      EventSelectionTask.processRun2 fl ccdb true recipe bcs1 col = some (r1, after) ∧
      EventSelectionTask.processRun2 fl ccdb true recipe bcs2 col = some (r2, after) ∧
      r1.sel7 = r2.sel7 ∧
      (∀ i, after.getD i false = (recipe.getD i false && !decide (i ∈ mcDisabled fl))) := by
  obtain ⟨r1, hr1, hsel1, h71⟩ := processRun2_eq fl ccdb true recipe bcs1 col bc1 h1
  obtain ⟨r2, hr2, hsel2, h72⟩ := processRun2_eq fl ccdb true recipe bcs2 col bc2 h2
  have hts : bc2.timestamp = bc1.timestamp := by rw [hsame]
  have hspd : bc2.spdClusters = bc1.spdClusters := by rw [hsame]
  have hmult : bc2.multRingV0C = bc1.multRingV0C := by rw [hsame]
  have hget : ∀ i, (mcOverride fl true recipe).getD i false
      = (recipe.getD i false && !decide (i ∈ mcDisabled fl)) := by
    intro i
    rw [mcOverride_getD, Bool.true_and]
  have hagree : ∀ i, i < fl.kNsel → (mcOverride fl true recipe).getD i false = true →
      TESTBIT r1.selection i = TESTBIT r2.selection i := by
    intro i hi ha
    have hnot : i ∉ mcDisabled fl := by
      rw [hget i] at ha
      simp only [Bool.and_eq_true, Bool.not_eq_true', decide_eq_false_iff_not] at ha
      exact ha.2
    have hi64 : i < 64 := lt_of_lt_of_le hi hwf.2.2
    rw [hsel1, hsel2, selectionEvRun2_testBit _ _ _ _ i hi64,
      selectionEvRun2_testBit _ _ _ _ i hi64, hts, hspd, hmult, hbits i hi hnot]
  refine ⟨r1, r2, _, hr1, hr2, ?_, hget⟩
  rw [h71, h72, Bool.eq_iff_iff, sel7Loop_iff, sel7Loop_iff]
  constructor
  · intro h i hi ha
    rw [← hagree i hi ha]
    exact h i hi ha
  · intro h i hi ha
    rw [hagree i hi ha]
    exact h i hi ha

/-- Witness for C18: the first BC of `sampleBcs` against the same BC with
the bit `kIsBBZAC` set. -/
theorem sel7_blind_to_mc_bits_witness :
    ∃ r1 r2 after,
      EventSelectionTask.processRun2 sampleFlags (fun _ => samplePar) true sampleRecipe
        sampleBcs sampleCol = some (r1, after) ∧
      EventSelectionTask.processRun2 sampleFlags (fun _ => samplePar) true sampleRecipe
        [{ globalBC := 100, selection_raw := BIT 12, foundFV0Id := 5, foundFDDId := 6,
           foundZDCId := 7 }] sampleCol = some (r2, after) ∧
      r1.sel7 = r2.sel7 ∧
      (∀ i, after.getD i false
        = (sampleRecipe.getD i false && !decide (i ∈ mcDisabled sampleFlags))) :=
  sel7_blind_to_mc_bits sampleFlags sampleFlags_WF (fun _ => samplePar) sampleRecipe sampleBcs
    [{ globalBC := 100, selection_raw := BIT 12, foundFV0Id := 5, foundFDDId := 6,
       foundZDCId := 7 }] sampleCol
    { globalBC := 100, foundFV0Id := 5, foundFDDId := 6, foundZDCId := 7 }
    { globalBC := 100, selection_raw := BIT 12, foundFV0Id := 5, foundFDDId := 6,
      foundZDCId := 7 } rfl rfl rfl (by decide)

/-! ## `EventSelectionTask::processRun3`: the half-width of the search window -/

/-- The counters after the loop over the tracks, started from `c`. -/
theorem foldl_countTrack (tracks : List Track) (c : TrackCounts) :
    (tracks.foldl countTrack c).nTRDtracks = c.nTRDtracks
        + tracks.countP (fun t => t.isPVContributor && (t.hasTRD && !t.hasTOF)) ∧
    (tracks.foldl countTrack c).nTOFtracks = c.nTOFtracks
        + tracks.countP (fun t => t.isPVContributor && t.hasTOF) ∧
    (tracks.foldl countTrack c).nTPCtracks = c.nTPCtracks
        + tracks.countP (fun t => t.isPVContributor && t.hasTPC) := by
  induction tracks generalizing c with
  | nil => simp
  | cons t rest ih =>
    obtain ⟨h1, h2, h3⟩ := ih (countTrack c t)
    rw [List.foldl_cons, h1, h2, h3]
    simp only [List.countP_cons]
    cases hpv : t.isPVContributor <;> cases htrd : t.hasTRD <;> cases htof : t.hasTOF <;>
      cases htpc : t.hasTPC <;>
      simp [countTrack, boolToInt, hpv, htrd, htof, htpc] <;> omega

theorem bcselRun3_alias (fl : Flags) (ccdb : Nat → EventSelectionParams) (bcs : List Bc)
    (alias0 position : Nat) (start : Bc) (r : BcSelRow) (h : Option Int)
    (hr : bcselRun3 fl ccdb bcs alias0 position start = some (r, h)) : r.alias_raw = alias0 := by
  unfold bcselRun3 at hr
  cases hw : walkBack bcs start.globalBC position 0 {} with
  | none => simp [hw] at hr
  | some w =>
    cases hb : bcs[w.cursor + w.backwardMoveCount]? with
    | none => simp [hw, hb] at hr
    | some bc =>
      simp only [hw, hb] at hr
      exact (fillBcSelRun3_eq fl _ alias0 start w.bg bc r h hr).2.2.1

/-- The records of the loop of `processRun3` are those of the loop body, one
per BC and in order, and their alias words are those of `aliasLoop`. -/
theorem bcLoopRun3_rows (env : Env) (fl : Flags) (ccdb : Nat → EventSelectionParams)
    (bcs : List Bc) (shift : Int) (todo : List Bc) (position : Nat) (m : BcMap)
    (rows : List (BcSelRow × Option Int))
    (h : bcLoopRun3 env fl ccdb bcs shift todo position m = some rows) :
    rows.length = todo.length ∧
    aliasLoop env bcs shift todo m = some (rows.map (fun r => r.1.alias_raw)) ∧
    ∀ (i : Nat) (bc : Bc), todo[i]? = some bc →
      ∃ r alias0, rows[i]? = some r ∧
        bcselRun3 fl ccdb bcs alias0 (position + i) bc = some r := by
  induction todo generalizing position m rows with
  | nil =>
    simp [bcLoopRun3] at h
    subst h
    simp [aliasLoop]
  | cons start rest ih =>
    unfold bcLoopRun3 at h
    cases ha : aliasRun3 env bcs shift m start with
    | none => simp [ha] at h
    | some am =>
      obtain ⟨a, m2⟩ := am
      cases hb : bcselRun3 fl ccdb bcs a position start with
      | none => simp [ha, hb] at h
      | some r =>
        cases hl : bcLoopRun3 env fl ccdb bcs shift rest (position + 1) m2 with
        | none => simp [ha, hb, hl] at h
        | some l =>
          simp [ha, hb, hl] at h
          subst h
          obtain ⟨hlen, hal, hall⟩ := ih (position + 1) m2 l hl
          obtain ⟨r1, r2⟩ := r
          have halias := bcselRun3_alias fl ccdb bcs a position start r1 r2 hb
          refine ⟨by simp [hlen], ?_, ?_⟩
          · simp [aliasLoop, ha, hal, halias]
          · intro i bc hi
            cases i with
            | zero =>
              simp at hi
              subst hi
              exact ⟨(r1, r2), a, by simp, hb⟩
            | succ i =>
              simp at hi
              obtain ⟨r, alias0, hri, hrb⟩ := hall i bc hi
              refine ⟨r, alias0, by simpa using hri, ?_⟩
              have : position + (i + 1) = position + 1 + i := by omega
              rw [this]
              exact hrb

/-- The records of `BcSelectionTask::processRun3`: one per BC, in order, each
the record of the loop body for its BC, and their alias words are the ones
`processRun3Aliases` gives. -/
theorem processRun3_rows (env : Env) (fl : Flags) (ccdb : Nat → EventSelectionParams)
    (conf : Int) (bcs : List Bc) (rows : List (BcSelRow × Option Int))
    (h : BcSelectionTask.processRun3 env fl ccdb conf bcs = some rows) :
    rows.length = bcs.length ∧
    processRun3Aliases env conf bcs = some (rows.map (fun r => r.1.alias_raw)) ∧
    ∀ (i : Nat) (bc : Bc), bcs[i]? = some bc →
      ∃ r alias0, rows[i]? = some r ∧ bcselRun3 fl ccdb bcs alias0 i bc = some r := by
  cases hb : bcs with
  | nil =>
    rw [hb] at h
    by_cases hc : conf = 999
    · simp [BcSelectionTask.processRun3, hc] at h
    · simp [BcSelectionTask.processRun3, hc] at h
      subst h
      simp [processRun3Aliases, hc]
  | cons first rest =>
    have h2 : bcLoopRun3 env fl ccdb bcs (triggerBcShift conf first.runNumber) bcs 0
        (fillMapGlobalBCtoBcId bcs.enum []) = some rows := by
      rw [hb] at h ⊢
      exact h
    obtain ⟨hlen, hal, hall⟩ := bcLoopRun3_rows env fl ccdb bcs _ bcs 0 _ rows h2
    rw [← hb]
    refine ⟨hlen, ?_, ?_⟩
    · simp only [processRun3Aliases]
      rw [hb] at hal ⊢
      exact hal
    · intro i bc hi
      obtain ⟨r, alias0, hri, hrb⟩ := hall i bc hi
      exact ⟨r, alias0, hri, by simpa using hrb⟩

/-! ## `EventSelectionTask::processRun3`: configurables and track counts -/

/-- C27. Two runs of `EventSelectionTask::processRun3` that differ only in
the configurable `customDeltaBC` use the same window `[minBC, maxBC]` for every
collision and emit the same records. -/
theorem customDeltaBC_no_influence (cfg : Configurables) (d : Int) (env : Env)
    (cols : List Collision) (bcs : List BcWithSel) (globalBC : Int) (col : Collision) :
    acceptanceWindow { cfg with customDeltaBC := d } env globalBC col
      = acceptanceWindow cfg env globalBC col ∧
    EventSelectionTask.processRun3 { cfg with customDeltaBC := d } env cols bcs
      = EventSelectionTask.processRun3 cfg env cols bcs :=
  ⟨rfl, rfl⟩

/-- The two summed times after the loop over the tracks, started from `c`. -/
theorem foldl_countTrack_times (tracks : List Track) (c : TrackCounts) :
    (tracks.foldl countTrack c).timeFromTRDtracks = c.timeFromTRDtracks
        + ((tracks.filter (fun t => t.isPVContributor && (t.hasTRD && !t.hasTOF))).map
            Track.trackTime).sum ∧
    (tracks.foldl countTrack c).timeFromTOFtracks = c.timeFromTOFtracks
        + ((tracks.filter (fun t => t.isPVContributor && t.hasTOF)).map
            Track.trackTime).sum := by
  induction tracks generalizing c with
  | nil => simp
  | cons t rest ih =>
    obtain ⟨h1, h2⟩ := ih (countTrack c t)
    rw [List.foldl_cons, h1, h2]
    simp only [List.filter_cons]
    cases hpv : t.isPVContributor <;> cases htrd : t.hasTRD <;> cases htof : t.hasTOF <;>
      simp [countTrack, hpv, htrd, htof, add_assoc]

theorem divByCount_pos (time : ℚ) (count : Int) (h : count > 0) :
    divByCount time count = some (time / (count : ℚ)) := by
  unfold divByCount
  rw [if_neg (by omega)]

/-- C21. In `processRun3` no division by a zero track count is evaluated:
the window computed with checked divisions is always defined and is the one
`searchWindow` gives; the count `nTRDtracks` (and `nTOFtracks`) is the number of
the tracks whose times are summed in `timeFromTRDtracks` (`timeFromTOFtracks`);
and a collision without TRD and without TOF contributor keeps as `meanBC` the
global BC of its own BC. -/
theorem no_division_by_zero_count (env : Env) (globalBC : Int) (col : Collision) :
    searchWindowChecked env globalBC col = some (searchWindow env globalBC col) ∧
    ((countTracks col.tracks).nTRDtracks =
        ((col.tracks.filter (fun t => t.isPVContributor && (t.hasTRD && !t.hasTOF))).length
          : Int) ∧
      (countTracks col.tracks).timeFromTRDtracks =
        ((col.tracks.filter (fun t => t.isPVContributor && (t.hasTRD && !t.hasTOF))).map
          Track.trackTime).sum) ∧
    ((countTracks col.tracks).nTOFtracks =
        ((col.tracks.filter (fun t => t.isPVContributor && t.hasTOF)).length : Int) ∧
      (countTracks col.tracks).timeFromTOFtracks =
        ((col.tracks.filter (fun t => t.isPVContributor && t.hasTOF)).map
          Track.trackTime).sum) ∧
    ((∀ t ∈ col.tracks, t.isPVContributor = true → t.hasTRD = false ∧ t.hasTOF = false) →
      (searchWindow env globalBC col).1 = globalBC) := by
  obtain ⟨hn1, hn2, -⟩ := foldl_countTrack col.tracks {}
  obtain ⟨ht1, ht2⟩ := foldl_countTrack_times col.tracks {}
  refine ⟨?_, ⟨?_, ?_⟩, ⟨?_, ?_⟩, ?_⟩
  · unfold searchWindowChecked searchWindow
    by_cases h1 : (countTracks col.tracks).nTRDtracks > 0
    · simp only [h1, if_true, divByCount_pos _ _ h1]
    · by_cases h2 : (countTracks col.tracks).nTOFtracks > 0
      · simp only [h1, if_false, h2, if_true, divByCount_pos _ _ h2]
      · by_cases h3 : (countTracks col.tracks).nTPCtracks > 0
        · simp only [h1, h2, h3, if_false, if_true]
        · simp only [h1, h2, h3, if_false]
  · rw [countTracks, hn1, List.countP_eq_length_filter]
    simp
  · rw [countTracks, ht1]
    simp
  · rw [countTracks, hn2, List.countP_eq_length_filter]
    simp
  · rw [countTracks, ht2]
    simp
  · intro hno
    have h1 : List.countP (fun t => t.isPVContributor && (t.hasTRD && !t.hasTOF)) col.tracks
        = 0 := by
      rw [List.countP_eq_zero]
      intro t ht
      by_cases hpv : t.isPVContributor = true
      · simp [hpv, (hno t ht hpv).1]
      · simp [hpv]
    have h2 : List.countP (fun t => t.isPVContributor && t.hasTOF) col.tracks = 0 := by
      rw [List.countP_eq_zero]
      intro t ht
      by_cases hpv : t.isPVContributor = true
      · simp [hpv, (hno t ht hpv).2]
      · simp [hpv]
    simp only [searchWindow, countTracks, hn1, hn2, h1, h2]
    simp only [Nat.cast_zero, add_zero]
    have hz : ¬ (({} : TrackCounts).nTRDtracks > 0) := by decide
    have hz2 : ¬ (({} : TrackCounts).nTOFtracks > 0) := by decide
    simp only [hz, hz2, if_false]
    split_ifs <;> rfl

/-- Witness for C21: the collision of `sampleColTPC`, whose only contributor
has neither TRD nor TOF. -/
theorem no_division_by_zero_count_witness :
    (searchWindow sampleEnv 105 sampleColTPC).1 = 105 :=
  (no_division_by_zero_count sampleEnv 105 sampleColTPC).2.2.2 (by
    intro t ht hpv
    simp [sampleColTPC] at ht
    subst ht
    exact ⟨rfl, rfl⟩)

/-! ## `BcSelectionTask::processRun2`: the bit `kIsINT1` -/

/-- The bit `kIsINT1` of a Run 2 record: `bbV0A`, `bbV0C` or a non-zero number
of fired SPD chips, the off-line estimator `ofSPD`. -/
theorem bcselRun2_int1_bit (fl : Flags) (hwf : fl.WF) (ccdb : Nat → EventSelectionParams)
    (alias0 : Nat) (bc : Bc) (r : BcSelRow) (h : Option Int)
    (hr : bcselRun2 fl ccdb alias0 bc = some (r, h)) :
    TESTBIT r.selection (fl.bit .kIsINT1) =
      (r.bbV0A || r.bbV0C || decide (bc.spdFiredChipsL0 + bc.spdFiredChipsL1 ≠ 0)) := by
  have hsel := (bcselRun2_eq fl ccdb alias0 bc r h hr).2.2.2.2.2.2.2.2.2.2
  rw [hsel]
  simp only [selectionRun2, TESTBIT_setIf _ _ _ _ (hwf.lt_64 _), TESTBIT_zero, hwf.eq_iff]
  have hcast : decide (((bc.spdFiredChipsL0 + bc.spdFiredChipsL1 : Nat) : ℚ) ≠ 0)
      = decide (bc.spdFiredChipsL0 + bc.spdFiredChipsL1 ≠ 0) := by
    rw [Bool.eq_iff_iff]
    simp only [decide_eq_true_eq, ne_eq, Nat.cast_eq_zero]
  rw [hcast]
  simp only [reduceCtorEq, decide_False, decide_True, Bool.and_false, Bool.or_false,
    Bool.and_true, Bool.false_or]

/-- C22 at its failing input. A Run 2 BC without V0 signal, with one fired
SPD chip and a fast-OR count of 0 has neither `bbV0A` nor `bbV0C`, and its bit
`kIsINT1` is set: the bit follows the fired chips, not the fast-OR count. -/
theorem int1_bit_follows_fired_chips :
    ∃ r h, bcselRun2 sampleFlags (fun _ => samplePar) 0 { spdFiredChipsL0 := 1 } = some (r, h) ∧
      ({ spdFiredChipsL0 := 1 } : Bc).spdFiredFastOrL0
        + ({ spdFiredChipsL0 := 1 } : Bc).spdFiredFastOrL1 = 0 ∧
      r.bbV0A = false ∧ r.bbV0C = false ∧
      TESTBIT r.selection (sampleFlags.bit .kIsINT1) = true := by
  obtain ⟨r, h, hr⟩ := bcselRun2_returns sampleFlags (fun _ => samplePar) 0
    { spdFiredChipsL0 := 1 } rfl rfl
  have he := bcselRun2_eq _ _ _ _ r h hr
  have hA : r.bbV0A = false := by
    rw [he.2.2.1]
    norm_num [inWindow, timeOr, samplePar]
  have hC : r.bbV0C = false := by
    rw [he.2.2.2.1]
    norm_num [inWindow, timeOr, samplePar]
  refine ⟨r, h, hr, rfl, hA, hC, ?_⟩
  rw [bcselRun2_int1_bit sampleFlags sampleFlags_WF _ 0 _ r h hr, hA, hC]
  decide

/-! ## `findClosest` beyond the last key -/

theorem buildMaps_sampleBcsNoTVX : buildMaps sampleEnv 0 sampleBcsNoTVX = ([], []) := by
  decide

/-- C23 at its failing inputs. For a target beyond the last key and for an
empty index `lower_bound` gives `end()`, which `findClosest` dereferences: the
lookup has no defined result, where the claim has the last entry.  And
`processRun3` looks up the empty TVX index of a batch without TVX BC, so the
run on `sampleBcsNoTVX` has no defined result either. -/
theorem findClosest_undefined_beyond_last :
    findClosest 300 [(100, 7), (200, 9)] = none ∧
    findClosest 100 [] = none ∧
    (buildMaps sampleEnv 0 sampleBcsNoTVX).1 = [] ∧
    processRun3 sampleEnv [sampleCol] sampleBcsNoTVX = none := by
  refine ⟨by decide, by decide, by rw [buildMaps_sampleBcsNoTVX], ?_⟩
  have hm : buildMaps sampleEnv ({ globalBC := 100 } : BcWithSel).runNumber sampleBcsNoTVX
      = ([], []) := buildMaps_sampleBcsNoTVX
  have hatt : attachedBC sampleEnv sampleBcsNoTVX [] [] sampleCol = none := by
    have hw := searchWindow_no_tracks sampleEnv (toInt64 100) 0
    simp only [attachedBC, sampleBcsNoTVX, sampleCol, List.getElem?_cons_zero, hw]
    decide
  have hcol : processRun3Col sampleEnv sampleBcsNoTVX [] [] sampleCol = none := by
    simp only [processRun3Col, hatt]
  simp only [processRun3, sampleBcsNoTVX] at hm ⊢
  simp only [hm]
  simp only [sampleBcsNoTVX] at hcol
  simp only [colLoop, hcol]

/-! ## The maps of `EventSelectionTask::processRun3` and the record of an event -/

theorem MapOf_assign (bcs : List BcWithSel) (p : BcWithSel → Bool) (m : BcMap) (n : Nat)
    (b : BcWithSel) (hm : MapOf bcs p m) (hb : bcs[n]? = some b) (hp : p b = true) :
    MapOf bcs p (m.assign (toInt64 b.globalBC) n) := by
  intro e he
  rcases mem_assign m _ _ e he with rfl | he
  · exact ⟨Int.natCast_nonneg n, b, by simpa using hb, rfl, hp⟩
  · exact hm e he

/-- The maps filled from rows of the batch hold, under each key, the index of
a BC of the batch with that global BC: one with the TVX trigger in the first
map, one with a beam-beam time in FT0-A or FT0-C in the second. -/
theorem fillMaps_MapOf (env : Env) (run : Int) (bcs : List BcWithSel)
    (l : List (Nat × BcWithSel)) (maps : BcMap × BcMap)
    (hl : ∀ q ∈ l, bcs[q.1]? = some q.2)
    (h1 : MapOf bcs (fun b => b.selection_bit env.kIsTriggerTVX) maps.1)
    (h2 : MapOf bcs (fun b => b.selection_bit env.kIsBBT0A || b.selection_bit env.kIsBBT0C)
      maps.2) :
    MapOf bcs (fun b => b.selection_bit env.kIsTriggerTVX) (fillMaps env run l maps).1 ∧
    MapOf bcs (fun b => b.selection_bit env.kIsBBT0A || b.selection_bit env.kIsBBT0C)
      (fillMaps env run l maps).2 := by
  induction l generalizing maps with
  | nil => exact ⟨h1, h2⟩
  | cons q rest ih =>
    obtain ⟨n, bc⟩ := q
    obtain ⟨mapTVX, mapTOR⟩ := maps
    have hb : bcs[n]? = some bc := hl (n, bc) (List.mem_cons_self _ _)
    have hrest : ∀ q ∈ rest, bcs[q.1]? = some q.2 :=
      fun q hq => hl q (List.mem_cons_of_mem _ hq)
    by_cases hskip : (decide (run ≥ 500000) &&
        env.bcPatternB (Int.tmod (toInt64 bc.globalBC) env.LHCMaxBunches) == false) = true
    · simp only [fillMaps, hskip, if_true]
      exact ih (mapTVX, mapTOR) hrest h1 h2
    · by_cases hTOR : (bc.selection_bit env.kIsBBT0A || bc.selection_bit env.kIsBBT0C) = true
      · by_cases hTVX : bc.selection_bit env.kIsTriggerTVX = true
        · simp only [fillMaps, hskip, hTOR, hTVX, if_true]
          exact ih _ hrest (MapOf_assign bcs _ mapTVX n bc h1 hb hTVX)
            (MapOf_assign bcs _ mapTOR n bc h2 hb hTOR)
        · simp only [fillMaps, hskip, hTOR, hTVX, if_true]
          exact ih _ hrest h1 (MapOf_assign bcs _ mapTOR n bc h2 hb hTOR)
      · by_cases hTVX : bc.selection_bit env.kIsTriggerTVX = true
        · simp only [fillMaps, hskip, hTOR, hTVX, if_true]
          exact ih _ hrest (MapOf_assign bcs _ mapTVX n bc h1 hb hTVX) h2
        · simp only [fillMaps, hskip, hTOR, hTVX]
          exact ih _ hrest h1 h2

theorem buildMaps_MapOf (env : Env) (run : Int) (bcs : List BcWithSel) :
    MapOf bcs (fun b => b.selection_bit env.kIsTriggerTVX) (buildMaps env run bcs).1 ∧
    MapOf bcs (fun b => b.selection_bit env.kIsBBT0A || b.selection_bit env.kIsBBT0C)
      (buildMaps env run bcs).2 := by
  apply fillMaps_MapOf
  · intro q hq
    obtain ⟨n, bc⟩ := q
    exact List.mk_mem_enum_iff_getElem?.1 hq
  · intro e he
    simp at he
  · intro e he
    simp at he

/-- The index `findClosest` returns is stored in the map. -/
theorem findClosest_mem (K : Int) (m : BcMap) (v : Int) (h : findClosest K m = some v) :
    ∃ k, (k, v) ∈ m := by
  unfold findClosest at h
  dsimp only at h
  split at h
  · exact Option.noConfusion h
  · rename_i bc1 index1 h1
    split at h
    · exact Option.noConfusion h
    · rename_i bc2 index2 h2
      simp only [Option.some.injEq] at h
      split_ifs at h
      · exact ⟨bc1, by rw [← h]; exact List.getElem?_mem h1⟩
      · exact ⟨bc2, by rw [← h]; exact List.getElem?_mem h2⟩

/-- The record of an event is filled from the BC it is attached to. -/
theorem processRun3Col_eq (env : Env) (bcs : List BcWithSel) (mapTVX mapTOR : BcMap)
    (col : Collision) (r : EvSelRow) (hr : processRun3Col env bcs mapTVX mapTOR col = some r) :
    ∃ cursor bc, attachedBC env bcs mapTVX mapTOR col = some cursor ∧
      bcs[cursor]? = some bc ∧ r = fillEvSel env cursor bc := by
  unfold processRun3Col at hr
  cases ha : attachedBC env bcs mapTVX mapTOR col with
  | none => simp [ha] at hr
  | some cursor =>
    cases hb : bcs[cursor]? with
    | none => simp [ha, hb] at hr
    | some bc =>
      simp only [ha, hb, Option.some.injEq] at hr
      exact ⟨cursor, bc, rfl, hb, hr.symm⟩

/-- The records of `processRun3` are those of the loop body with the maps of
the batch, one per collision and in order. -/
theorem colLoop_rows (env : Env) (bcs : List BcWithSel) (mapTVX mapTOR : BcMap)
    (cols : List Collision) (rows : List EvSelRow)
    (h : colLoop env bcs mapTVX mapTOR cols = some rows) :
    rows.length = cols.length ∧
    ∀ (i : Nat) (col : Collision), cols[i]? = some col →
      ∃ r, rows[i]? = some r ∧ processRun3Col env bcs mapTVX mapTOR col = some r := by
  induction cols generalizing rows with
  | nil =>
    simp [colLoop] at h
    subst h
    simp
  | cons c rest ih =>
    unfold colLoop at h
    cases hc : processRun3Col env bcs mapTVX mapTOR c with
    | none => simp [hc] at h
    | some r =>
      cases hl : colLoop env bcs mapTVX mapTOR rest with
      | none => simp [hc, hl] at h
      | some l =>
        simp [hc, hl] at h
        subst h
        obtain ⟨hlen, hall⟩ := ih l hl
        refine ⟨by simp [hlen], ?_⟩
        intro i col hi
        cases i with
        | zero =>
          simp at hi
          subst hi
          exact ⟨r, by simp, hc⟩
        | succ i =>
          simp at hi
          simpa using hall i col hi

theorem processRun3_records (env : Env) (cols : List Collision) (bcs : List BcWithSel)
    (rows : List EvSelRow) (h : processRun3 env cols bcs = some rows) :
    ∃ first, bcs[0]? = some first ∧ rows.length = cols.length ∧
      ∀ (i : Nat) (col : Collision), cols[i]? = some col →
        ∃ r, rows[i]? = some r ∧
          processRun3Col env bcs (buildMaps env first.runNumber bcs).1
            (buildMaps env first.runNumber bcs).2 col = some r := by
  cases hb : bcs with
  | nil => simp [hb, processRun3] at h
  | cons first rest =>
    rw [hb] at h
    simp only [processRun3] at h
    obtain ⟨hlen, hall⟩ := colLoop_rows env _ _ _ cols rows h
    exact ⟨first, by simp, hlen, hall⟩

/-- The record of one collision: `sel7` is false, and `sel8`, the alias and
selection words, the beam-beam and beam-gas flags and the detector indices are
those of the BC the event is attached to; an event attached through the TVX
index has `sel8` true. -/
theorem processRun3Col_record (env : Env) (run : Int) (bcs : List BcWithSel)
    (col : Collision) (r : EvSelRow)
    (hr : processRun3Col env bcs (buildMaps env run bcs).1 (buildMaps env run bcs).2 col
      = some r) :
    r.sel7 = false ∧
    ∃ cursor bc,
      attachedBC env bcs (buildMaps env run bcs).1 (buildMaps env run bcs).2 col = some cursor ∧
      bcs[cursor]? = some bc ∧ r.foundBC = (cursor : Int) ∧
      r.sel8 = bc.selection_bit env.kIsTriggerTVX ∧
      r.alias_raw = bc.alias_raw ∧ r.selection = bc.selection_raw ∧
      r.bbV0A = bc.bbV0A ∧ r.bbV0C = bc.bbV0C ∧ r.bgV0A = bc.bgV0A ∧ r.bgV0C = bc.bgV0C ∧
      r.bbFDA = bc.bbFDA ∧ r.bbFDC = bc.bbFDC ∧ r.bgFDA = bc.bgFDA ∧ r.bgFDC = bc.bgFDC ∧
      r.foundFT0 = bc.foundFT0Id ∧ r.foundFV0 = bc.foundFV0Id ∧
      r.foundFDD = bc.foundFDDId ∧ r.foundZDC = bc.foundZDCId ∧
      (∀ (own tvx : BcWithSel) (meanBC deltaBC i : Int), bcs[col.bcId]? = some own →
        searchWindow env (toInt64 own.globalBC) col = (meanBC, deltaBC) →
        findClosest meanBC (buildMaps env run bcs).1 = some i → bcs[i.toNat]? = some tvx →
        inSearchRegion (meanBC - deltaBC) (meanBC + deltaBC) (toInt64 tvx.globalBC) = true →
        cursor = i.toNat ∧ r.sel8 = true) := by
  obtain ⟨cursor, bc, hatt, hbc, hfill⟩ := processRun3Col_eq env bcs _ _ col r hr
  subst hfill
  refine ⟨rfl, cursor, bc, hatt, hbc, rfl, rfl, rfl, rfl, rfl, rfl, rfl, rfl, rfl, rfl, rfl, rfl,
    rfl, rfl, rfl, rfl, ?_⟩
  intro own tvx meanBC deltaBC i hown hw hi htvx hreg
  have hatt2 : attachedBC env bcs (buildMaps env run bcs).1 (buildMaps env run bcs).2 col
      = some i.toNat := by
    simp [attachedBC, hown, hw, matchBC, hi, htvx, hreg]
  have hcur : cursor = i.toNat := by
    rw [hatt] at hatt2
    exact Option.some.inj hatt2
  refine ⟨hcur, ?_⟩
  obtain ⟨k, hk⟩ := findClosest_mem _ _ i hi
  obtain ⟨-, b, hb, -, hp⟩ := (buildMaps_MapOf env run bcs).1 (k, i) hk
  have hbt : b = tvx := by
    have : bcs[i.toNat]? = some b := hb
    rw [htvx] at this
    exact (Option.some.inj this).symm
  have hbc2 : bc = tvx := by
    rw [hcur, htvx] at hbc
    exact (Option.some.inj hbc).symm
  show bc.selection_bit env.kIsTriggerTVX = true
  rw [hbc2, ← hbt]
  exact hp

theorem processRun3Col_sampleCol :
    processRun3Col sampleEnv sampleBcs (buildMaps sampleEnv 0 sampleBcs).1
      (buildMaps sampleEnv 0 sampleBcs).2 sampleCol
      = some (fillEvSel sampleEnv 0
          { globalBC := 100, foundFV0Id := 5, foundFDDId := 6, foundZDCId := 7 }) := by
  rw [buildMaps_sampleBcs]
  have hatt : attachedBC sampleEnv sampleBcs [(200, 1)] [(200, 1)] sampleCol = some 0 := by
    have hw := searchWindow_no_tracks sampleEnv (toInt64 100) 0
    simp only [attachedBC, sampleBcs, sampleCol, List.getElem?_cons_zero, hw]
    decide
  simp only [processRun3Col, hatt]
  rfl

/-- The run of `processRun3` on the collision of `sampleCol`. -/
theorem processRun3_sampleCol :
    processRun3 sampleEnv [sampleCol] sampleBcs
      = some [fillEvSel sampleEnv 0
          { globalBC := 100, foundFV0Id := 5, foundFDDId := 6, foundZDCId := 7 }] := by
  have hcol := processRun3Col_sampleCol
  have hm2 : buildMaps sampleEnv
      ({ globalBC := 100, foundFV0Id := 5, foundFDDId := 6, foundZDCId := 7 }
        : BcWithSel).runNumber sampleBcs = ([(200, 1)], [(200, 1)]) := buildMaps_sampleBcs
  rw [buildMaps_sampleBcs] at hcol
  simp only [processRun3, sampleBcs] at hm2 ⊢
  simp only [hm2]
  simp only [sampleBcs] at hcol
  simp only [colLoop, hcol]

/-- C26. In `EventSelectionTask::processRun3` there is one record per event,
and every record has `sel7` false, and its `sel8`, alias word, selection word,
beam-beam and beam-gas flags and detector indices are those of the BC the event
is attached to, `sel8` being the bit `kIsTriggerTVX` of that BC; an event
attached through the TVX index has `sel8` true. -/
theorem processRun3_record_of_attached_bc (env : Env) (cols : List Collision)
    (bcs : List BcWithSel) (rows : List EvSelRow)
    (h : processRun3 env cols bcs = some rows) :
    ∃ first mapTVX mapTOR, bcs[0]? = some first ∧
      buildMaps env first.runNumber bcs = (mapTVX, mapTOR) ∧ rows.length = cols.length ∧
      ∀ (i : Nat) (col : Collision), cols[i]? = some col →
        ∃ r cursor bc, rows[i]? = some r ∧ r.sel7 = false ∧
          attachedBC env bcs mapTVX mapTOR col = some cursor ∧
          bcs[cursor]? = some bc ∧ r.foundBC = (cursor : Int) ∧
          r.sel8 = bc.selection_bit env.kIsTriggerTVX ∧
          r.alias_raw = bc.alias_raw ∧ r.selection = bc.selection_raw ∧
          r.bbV0A = bc.bbV0A ∧ r.bbV0C = bc.bbV0C ∧ r.bgV0A = bc.bgV0A ∧ r.bgV0C = bc.bgV0C ∧
          r.bbFDA = bc.bbFDA ∧ r.bbFDC = bc.bbFDC ∧ r.bgFDA = bc.bgFDA ∧ r.bgFDC = bc.bgFDC ∧
          r.foundFT0 = bc.foundFT0Id ∧ r.foundFV0 = bc.foundFV0Id ∧
          r.foundFDD = bc.foundFDDId ∧ r.foundZDC = bc.foundZDCId ∧
          (∀ (own tvx : BcWithSel) (meanBC deltaBC k : Int), bcs[col.bcId]? = some own →
            searchWindow env (toInt64 own.globalBC) col = (meanBC, deltaBC) →
            findClosest meanBC mapTVX = some k → bcs[k.toNat]? = some tvx →
            inSearchRegion (meanBC - deltaBC) (meanBC + deltaBC) (toInt64 tvx.globalBC) = true →
            cursor = k.toNat ∧ r.sel8 = true) := by
  obtain ⟨first, hfirst, hlen, hall⟩ := processRun3_records env cols bcs rows h
  refine ⟨first, (buildMaps env first.runNumber bcs).1, (buildMaps env first.runNumber bcs).2,
    hfirst, rfl, hlen, ?_⟩
  intro i col hcol
  obtain ⟨r, hri, hr⟩ := hall i col hcol
  obtain ⟨h7, cursor, bc, hrest⟩ := processRun3Col_record env first.runNumber bcs col r hr
  exact ⟨r, cursor, bc, hri, h7, hrest⟩

/-- Witness for C26: the run on the collision of `sampleCol`, on the first BC
of `sampleBcs`. -/
theorem processRun3_record_of_attached_bc_witness :
    ∃ rows, processRun3 sampleEnv [sampleCol] sampleBcs = some rows ∧
      ∃ r, rows[0]? = some r ∧ r.sel7 = false := by
  refine ⟨_, processRun3_sampleCol, ?_⟩
  obtain ⟨first, mapTVX, mapTOR, -, -, -, hall⟩ :=
    processRun3_record_of_attached_bc sampleEnv [sampleCol] sampleBcs _ processRun3_sampleCol
  obtain ⟨r, cursor, bc, hr, h7, -⟩ := hall 0 sampleCol rfl
  exact ⟨r, hr, h7⟩

/-! ## `EventSelectionTask::processRun3`: a TVX BC inside the window -/

/-- The lookback with the initial times is the lookback of the specification. -/
theorem lookbackFrom_init (bcs : List Bc) (g : Nat) : lookbackFrom bcs g {} = lookbackBg bcs g :=
  rfl

/-- Without a row to look at the times are unchanged. -/
theorem lookbackFrom_nil (g : Nat) (bg : BgTimes) : lookbackFrom [] g bg = bg := rfl

/-- Sampling a row and looking back over the rows before it is looking back
over the rows up to it. -/
theorem lookbackFrom_append (l : List Bc) (b : Bc) (g : Nat) (bg : BgTimes)
    (hb : b.globalBC + 6 < 2 ^ 64) :
    lookbackFrom (l ++ [b]) g bg = lookbackFrom l g (sampleBg g b bg) := by
  have h1 : (b.globalBC + 1) % 2 ^ 64 = b.globalBC + 1 := Nat.mod_eq_of_lt (by omega)
  have h5 : (b.globalBC + 5) % 2 ^ 64 = b.globalBC + 5 := Nat.mod_eq_of_lt (by omega)
  have e1 : (b.globalBC + 1 == g) = decide (b.globalBC + 1 = g) := rfl
  have e5 : (b.globalBC + 5 == g) = decide (b.globalBC + 5 = g) := rfl
  simp only [lookbackFrom, sampleBg, List.find?_append, h1, h5, List.find?_cons, List.find?_nil,
    e1, e5]
  cases l.find? (fun b => b.globalBC + 1 == g) <;> cases l.find? (fun b => b.globalBC + 5 == g) <;>
    by_cases p1 : b.globalBC + 1 = g <;> by_cases p5 : b.globalBC + 5 = g <;>
    simp [p1, p5]

/-- Rows more than 6 bunch crossings back leave the times unchanged. -/
theorem lookbackFrom_far (l : List Bc) (g : Nat) (bg : BgTimes)
    (h : ∀ b ∈ l, b.globalBC + 6 < g) : lookbackFrom l g bg = bg := by
  have h1 : l.find? (fun b => b.globalBC + 1 == g) = none := by
    rw [List.find?_eq_none]
    intro b hb
    have := h b hb
    simp only [beq_iff_eq]
    omega
  have h5 : l.find? (fun b => b.globalBC + 5 == g) = none := by
    rw [List.find?_eq_none]
    intro b hb
    have := h b hb
    simp only [beq_iff_eq]
    omega
  simp only [lookbackFrom, h1, h5]

/-- In a batch in increasing order the rows before a row have a smaller
global BC. -/
theorem IncreasingBCs.take_lt (bcs : List Bc) (h : IncreasingBCs bcs) (c : Nat) (b : Bc)
    (hb : bcs[c]? = some b) : ∀ a ∈ bcs.take c, a.globalBC < b.globalBC := by
  have hc : c < bcs.length := (List.getElem?_eq_some.1 hb).1
  have hsplit : bcs = bcs.take c ++ b :: bcs.drop (c + 1) := by
    have hd : bcs.drop c = b :: bcs.drop (c + 1) := by
      rw [List.drop_eq_getElem_cons hc]
      have : bcs[c] = b := by
        have := List.getElem?_eq_getElem hc
        rw [hb] at this
        exact (Option.some.inj this).symm
      rw [this]
    rw [← hd, List.take_append_drop]
  have hp : bcs.Pairwise (fun a b => a.globalBC < b.globalBC) := h
  rw [hsplit, List.pairwise_append] at hp
  intro a ha
  exact hp.2.2 a ha b (List.mem_cons_self _ _)

/-- In a batch in increasing order the rows from a row on have a global BC
that is not smaller. -/
theorem IncreasingBCs.drop_ge (bcs : List Bc) (h : IncreasingBCs bcs) (c : Nat) (b : Bc)
    (hb : bcs[c]? = some b) : ∀ a ∈ bcs.drop c, b.globalBC ≤ a.globalBC := by
  have hc : c < bcs.length := (List.getElem?_eq_some.1 hb).1
  have hd : bcs.drop c = b :: bcs.drop (c + 1) := by
    rw [List.drop_eq_getElem_cons hc]
    have : bcs[c] = b := by
      have := List.getElem?_eq_getElem hc
      rw [hb] at this
      exact (Option.some.inj this).symm
    rw [this]
  have hp : (bcs.drop c).Pairwise (fun a b => a.globalBC < b.globalBC) :=
    List.Pairwise.sublist (List.drop_sublist c bcs) h
  rw [hd, List.pairwise_cons] at hp
  intro a ha
  rw [hd, List.mem_cons] at ha
  rcases ha with rfl | ha
  · exact le_refl _
  · exact le_of_lt (hp.1 a ha)

/-- The times the walk ends with are those of the lookback over the rows
before the row the cursor starts on. -/
theorem walkBack_bg (bcs : List Bc) (h : IncreasingBCs bcs) (hr : NoWrap bcs) (g : Nat)
    (c n : Nat)
    (bg : BgTimes) (w : Walk) (hw : walkBack bcs g c n bg = some w) :
    w.bg = lookbackFrom (bcs.take c) g bg := by
  induction c generalizing n bg with
  | zero =>
    simp only [walkBack, Option.some.injEq] at hw
    rw [← hw]
    rfl
  | succ c ih =>
    simp only [walkBack] at hw
    cases h1 : bcs[c + 1]? with
    | none => simp [h1] at hw
    | some bc =>
      simp only [h1] at hw
      have hbc : bc.globalBC + 6 < 2 ^ 64 := hr bc (List.getElem?_mem h1)
      have hmod : (bc.globalBC + 6) % 2 ^ 64 = bc.globalBC + 6 := Nat.mod_eq_of_lt hbc
      rw [hmod] at hw
      by_cases hcond : bc.globalBC + 6 ≥ g
      · rw [if_pos hcond] at hw
        cases h0 : bcs[c]? with
        | none => simp [h0] at hw
        | some previous =>
          simp only [h0] at hw
          have hprev : previous.globalBC + 6 < 2 ^ 64 := hr previous (List.getElem?_mem h0)
          rw [ih (n + 1) (sampleBg g previous bg) hw, ← lookbackFrom_append _ _ _ _ hprev]
          congr 1
          have hc : c < bcs.length := (List.getElem?_eq_some.1 h0).1
          rw [List.take_succ, h0]
          rfl
      · rw [if_neg hcond] at hw
        simp only [Option.some.injEq] at hw
        rw [← hw]
        symm
        apply lookbackFrom_far
        intro a ha
        have := IncreasingBCs.take_lt bcs h (c + 1) bc h1 a ha
        omega

/-- The walk takes at most `7 - k` steps back from a row that is `k` bunch
crossings or more before `globalBC`. -/
theorem walkBack_count (bcs : List Bc) (h : IncreasingBCs bcs) (hr : NoWrap bcs) (g : Nat)
    (c n k : Nat)
    (bg : BgTimes) (w : Walk) (b : Bc) (hb : bcs[c]? = some b) (hk : b.globalBC + k ≤ g)
    (hk7 : k ≤ 7) (hw : walkBack bcs g c n bg = some w) :
    w.backwardMoveCount + k ≤ n + 7 := by
  induction c generalizing n bg k b with
  | zero =>
    simp only [walkBack, Option.some.injEq] at hw
    rw [← hw]
    show n + k ≤ n + 7
    omega
  | succ c ih =>
    simp only [walkBack, hb] at hw
    have hbc : b.globalBC + 6 < 2 ^ 64 := hr b (List.getElem?_mem hb)
    have hmod : (b.globalBC + 6) % 2 ^ 64 = b.globalBC + 6 := Nat.mod_eq_of_lt hbc
    rw [hmod] at hw
    by_cases hcond : b.globalBC + 6 ≥ g
    · rw [if_pos hcond] at hw
      cases h0 : bcs[c]? with
      | none => simp [h0] at hw
      | some previous =>
        simp only [h0] at hw
        have hc : c < bcs.length := (List.getElem?_eq_some.1 h0).1
        have hmem : previous ∈ bcs.take (c + 1) := by
          rw [List.take_succ, h0]
          simp
        have hlt := IncreasingBCs.take_lt bcs h (c + 1) b hb previous hmem
        have := ih (n + 1) (k + 1) (sampleBg g previous bg) previous h0 (by omega) (by omega) hw
        omega
    · rw [if_neg hcond] at hw
      simp only [Option.some.injEq] at hw
      rw [← hw]
      show n + k ≤ n + 7
      omega

/-- The rows from `position` on are not before the BC of that row, so the
lookback over the rows before `position` is the lookback over the batch. -/
theorem lookbackFrom_take (bcs : List Bc) (h : IncreasingBCs bcs) (position : Nat) (start : Bc)
    (hs : bcs[position]? = some start) (bg : BgTimes) :
    lookbackFrom (bcs.take position) start.globalBC bg = lookbackFrom bcs start.globalBC bg := by
  have hge := IncreasingBCs.drop_ge bcs h position start hs
  have key : ∀ p : Bc → Bool, (bcs.drop position).find? p = none →
      bcs.find? p = (bcs.take position).find? p := by
    intro p hp
    conv_lhs => rw [← List.take_append_drop position bcs]
    rw [List.find?_append, hp, Option.or_none]
  have h1 : (bcs.drop position).find? (fun b => b.globalBC + 1 == start.globalBC) = none := by
    rw [List.find?_eq_none]
    intro b hb
    have := hge b hb
    simp only [beq_iff_eq]
    omega
  have h5 : (bcs.drop position).find? (fun b => b.globalBC + 5 == start.globalBC) = none := by
    rw [List.find?_eq_none]
    intro b hb
    have := hge b hb
    simp only [beq_iff_eq]
    omega
  simp only [lookbackFrom, key _ h1, key _ h5]

/-- Two rows of a batch in strictly increasing order with the same global BC
are the same row. -/
theorem eq_of_globalBC (bcs : List Bc)
    (h : bcs.Pairwise (fun a b => a.globalBC < b.globalBC)) (a b : Bc) (ha : a ∈ bcs)
    (hb : b ∈ bcs) (hab : a.globalBC = b.globalBC) : a = b := by
  induction bcs with
  | nil => simp at ha
  | cons x xs ih =>
    rw [List.pairwise_cons] at h
    rw [List.mem_cons] at ha hb
    rcases ha with rfl | ha <;> rcases hb with rfl | hb
    · rfl
    · have := h.1 b hb
      omega
    · have := h.1 a ha
      omega
    · exact ih h.2 ha hb

/-- In a batch in strictly increasing order the search for the row `k` bunch
crossings before `g` finds that row if it is in the batch. -/
theorem find_globalBC (bcs : List Bc) (h : bcs.Pairwise (fun a b => a.globalBC < b.globalBC))
    (k g : Nat) (b : Bc) (hb : b ∈ bcs) (hg : b.globalBC + k = g) :
    bcs.find? (fun a => a.globalBC + k == g) = some b := by
  cases hf : bcs.find? (fun a => a.globalBC + k == g) with
  | none =>
    rw [List.find?_eq_none] at hf
    have := hf b hb
    simp only [beq_iff_eq] at this
    exact absurd hg this
  | some a =>
    have ha := List.mem_of_find?_eq_some hf
    have hp := List.find?_some hf
    simp only [beq_iff_eq] at hp
    rw [eq_of_globalBC bcs h a b ha hb (by omega)]

/-- Claim C25. For a batch in strictly increasing order of global BC, none of
them within 6 of the end of the 64-bit range, the walk of
`BcSelectionTask::processRun3` from the row of a BC with global BC `g` ends
after at most 7 steps back and the times it ends with are those of the direct
lookback: `timeV0ABG`, `timeT0ABG`, `timeT0CBG` are the FV0A and FT0 times of
the BC of the batch at `g - 1` (`-999` without the signal) and `-999` if the
batch has no such BC, `timeFDABG`, `timeFDCBG` the FDD times of the BC of the
batch at `g - 5` and `-999` if there is none; the record is filled from them. -/
theorem walk_is_bounded_lookback (fl : Flags) (ccdb : Nat → EventSelectionParams)
    (bcs : List Bc) (alias0 position : Nat) (start : Bc) (hinc : IncreasingBCs bcs)
    (hrange : NoWrap bcs)
    (hs : bcs[position]? = some start) :
    ∃ w, walkBack bcs start.globalBC position 0 {} = some w ∧
      w.backwardMoveCount ≤ 7 ∧
      w.bg = lookbackBg bcs start.globalBC ∧
      (∀ b ∈ bcs, b.globalBC + 1 = start.globalBC →
        w.bg.timeV0ABG = timeOr b.fv0a FV0.time ∧ w.bg.timeT0ABG = timeOr b.ft0 FT0.timeA ∧
          w.bg.timeT0CBG = timeOr b.ft0 FT0.timeC) ∧
      ((∀ b ∈ bcs, b.globalBC + 1 ≠ start.globalBC) →
        w.bg.timeV0ABG = -999 ∧ w.bg.timeT0ABG = -999 ∧ w.bg.timeT0CBG = -999) ∧
      (∀ b ∈ bcs, b.globalBC + 5 = start.globalBC →
        w.bg.timeFDABG = timeOr b.fdd FDD.timeA ∧ w.bg.timeFDCBG = timeOr b.fdd FDD.timeC) ∧
      ((∀ b ∈ bcs, b.globalBC + 5 ≠ start.globalBC) →
        w.bg.timeFDABG = -999 ∧ w.bg.timeFDCBG = -999) ∧
      bcselRun3 fl ccdb bcs alias0 position start =
        fillBcSelRun3 fl (ccdb start.timestamp) alias0 start (lookbackBg bcs start.globalBC)
          start := by
  obtain ⟨w, hw, hsum, hrec⟩ := bcselRun3_eq fl ccdb bcs alias0 position start hs
  have hcount := walkBack_count bcs hinc hrange start.globalBC position 0 0 {} w start hs
    (by omega) (by omega) hw
  have hbg : w.bg = lookbackBg bcs start.globalBC := by
    rw [walkBack_bg bcs hinc hrange start.globalBC position 0 {} w hw,
      lookbackFrom_take bcs hinc position start hs, lookbackFrom_init]
  refine ⟨w, hw, by omega, hbg, ?_, ?_, ?_, ?_, ?_⟩
  · intro b hb hg
    have hf := find_globalBC bcs hinc 1 start.globalBC b hb hg
    rw [hbg]
    simp only [lookbackBg, hf, and_self]
  · intro hno
    have hf : bcs.find? (fun b => b.globalBC + 1 == start.globalBC) = none := by
      rw [List.find?_eq_none]
      intro b hb
      simpa using hno b hb
    rw [hbg]
    simp only [lookbackBg, hf, and_self]
  · intro b hb hg
    have hf := find_globalBC bcs hinc 5 start.globalBC b hb hg
    rw [hbg]
    simp only [lookbackBg, hf, and_self]
  · intro hno
    have hf : bcs.find? (fun b => b.globalBC + 5 == start.globalBC) = none := by
      rw [List.find?_eq_none]
      intro b hb
      simpa using hno b hb
    rw [hbg]
    simp only [lookbackBg, hf, and_self]
  · rw [hrec, hbg]

/-- The batch `sampleRun3Bcs` is in increasing order. -/
theorem sampleRun3Bcs_increasing : IncreasingBCs sampleRun3Bcs := by
  simp [IncreasingBCs, sampleRun3Bcs]

/-- The global BCs of `sampleRun3Bcs` are far from the end of the 64-bit range. -/
theorem sampleRun3Bcs_noWrap : NoWrap sampleRun3Bcs := by
  intro b hb
  simp only [sampleRun3Bcs, List.mem_cons, List.mem_singleton, List.not_mem_nil, or_false] at hb
  rcases hb with rfl | rfl <;> norm_num

/-- The walk from the second row of `sampleRun3Bcs` takes at most 7 steps back
and ends with the FV0 time -15 of the BC one bunch crossing before. -/
theorem walk_is_bounded_lookback_witness :
    IncreasingBCs sampleRun3Bcs ∧ NoWrap sampleRun3Bcs ∧
      sampleRun3Bcs[1]? = some { globalBC := 100 } ∧
      ∃ w, walkBack sampleRun3Bcs 100 1 0 {} = some w ∧ w.backwardMoveCount ≤ 7 ∧
        w.bg = lookbackBg sampleRun3Bcs 100 ∧ w.bg.timeV0ABG = -15 := by
  refine ⟨sampleRun3Bcs_increasing, sampleRun3Bcs_noWrap, rfl, ?_⟩
  obtain ⟨w, hw, hc, hbg, h1, -⟩ :=
    walk_is_bounded_lookback sampleFlags (fun _ => samplePar) sampleRun3Bcs 0 1
      { globalBC := 100 } sampleRun3Bcs_increasing sampleRun3Bcs_noWrap rfl
  exact ⟨w, hw, hc, hbg,
    (h1 { globalBC := 99, fv0a := some { time := -15 } } (by simp [sampleRun3Bcs]) rfl).1⟩

/-- Where the range condition is needed: for a BC within 6 of the end of the
64-bit range the unsigned sum `bc.globalBC() + deltaBC` wraps, the loop is not
entered and the times keep their initial value. -/
theorem walkBack_at_range_end (fv0 : FV0) :
    walkBack [{ globalBC := 2 ^ 64 - 4, fv0a := some fv0 }, { globalBC := 2 ^ 64 - 3 }]
      (2 ^ 64 - 3) 1 0 {} = some { cursor := 1, backwardMoveCount := 0, bg := {} } := by
  have hc : ¬ ((2 ^ 64 - 3 + 6) % 2 ^ 64 ≥ 2 ^ 64 - 3) := by norm_num
  simp only [walkBack, List.getElem?_cons_succ, List.getElem?_cons_zero, hc, if_false]

end EvSel
